import Mathlib

/-!
# Shadow objects (copy-on-write memory objects): `kernel/vm/shadow.c`

A shallow embedding of the shadow-object code. Memory is a table of memory
objects addressed by index (a pointer is an index, `none` is `NULL`); every
function of `shadow.c` is a function on that table. Loops that the C code runs
without a bound take an iteration budget.
-/

namespace Shadow

/-- The outcome of running a piece of kernel code. -/
inductive Res (α : Type) where
  /-- the code returned normally -/
  | ok (a : α) : Res α
  /-- a `KASSERT` failed, or `NULL` or a freed object was dereferenced -/
  | panic : Res α
  /-- the iteration budget ran out before the code returned -/
  | outOfFuel : Res α
  deriving DecidableEq, Repr

/-- Modelled from the spec: the type tag `mo_type` of `mobj_t`, whose declaration
is outside `shadow.c`: `MOBJ_SHADOW`, or any other kind of memory object. -/
inductive MobjType where
  | MOBJ_SHADOW
  | MOBJ_OTHER
  deriving DecidableEq, Repr

/-- Modelled from the spec: the page frame `pframe_t`, whose declaration is
outside `shadow.c`: a page exposes its page number and its fixed-size content
buffer. The `PAGE_SIZE` bytes at `pf_addr` are taken as one value, so a
`memcpy` of `PAGE_SIZE` bytes replaces it whole. -/
structure Pframe where
  pf_pagenum : Nat
  pf_addr : List Nat
  deriving DecidableEq, Repr

/-- Modelled from the spec: the header `mobj_t`, whose declaration is outside
`shadow.c` (type tag, reference count, cached-page container; its lock
`mo_mutex` is kept in the lock table of `Heap`). With it, as in
`mobj_shadow_t`, the two fields `shadowed` and `bottom_mobj` (meaningful for
shadow objects only), and whether the storage of the object has been given
back to the allocator. -/
structure Mobj where
  mo_type : MobjType
  mo_refcount : Nat
  mo_pframes : List Pframe
  shadowed : Option Nat
  bottom_mobj : Option Nat
  freed : Bool
  deriving DecidableEq, Repr

/-- A lock operation, as recorded in the order it happened. -/
inductive LockEv where
  | acquire (o : Nat)
  | release (o : Nat)
  deriving DecidableEq, Repr

/-- Kernel memory: the table of memory objects; the lock table, which lists the
objects whose `mo_mutex` is held (there is one thread, so a held lock is held
by the caller); and the record of the lock operations performed so far. -/
structure Heap where
  objs : List Mobj
  held : List Nat
  locklog : List LockEv
  deriving DecidableEq, Repr

/-- A pointer to a page frame: the object whose `mo_pframes` list holds it and
its position in that list. -/
structure PfRef where
  obj : Nat
  idx : Nat
  deriving DecidableEq, Repr

/-- What the collaborators outside `shadow.c` decide: whether a page for a new
frame can be allocated, and what a non-shadow object's backing store holds. -/
structure Ext where
  /-- status of allocating the page of a new frame for page `p` of object `o`
  (`0` is success) -/
  page_alloc : Nat → Nat → Int
  /-- status and content of reading page `p` of the non-shadow object `o` from
  its backing store -/
  backing : Nat → Nat → Int × List Nat

/-- What `get_pframe` hands back: the returned status, the frame pointer stored
through `pfp`, and memory afterwards. -/
structure GetRes where
  status : Int
  pfp : Option PfRef
  heap : Heap
  deriving DecidableEq, Repr

/-- The object at index `i` of an object table, when the index is allocated and
the object has not been freed. -/
def liveIn (objs : List Mobj) (i : Nat) : Option Mobj :=
  match objs[i]? with
  | some o => if o.freed then none else some o
  | none => none

/-- Dereference of an object pointer: the object, when the index is allocated
and the object has not been freed. -/
def Heap.live (h : Heap) (i : Nat) : Option Mobj := liveIn h.objs i

/-- Store to the object at index `i`. -/
def Heap.setObj (h : Heap) (i : Nat) (o : Mobj) : Heap :=
  { h with objs := h.objs.set i o }

/-- The frame a frame pointer points to. -/
def Heap.frameAt (h : Heap) (pf : PfRef) : Option Pframe :=
  match h.live pf.obj with
  | some o => o.mo_pframes[pf.idx]?
  | none => none

/-- Store to `pf->pf_addr`: the content of the frame becomes `c`. -/
def Heap.writeFrame (h : Heap) (pf : PfRef) (c : List Nat) : Heap :=
  match h.objs[pf.obj]? with
  | some o =>
    match o.mo_pframes[pf.idx]? with
    | some f => h.setObj pf.obj { o with mo_pframes := o.mo_pframes.set pf.idx { f with pf_addr := c } }
    | none => h
  | none => h

/-- Modelled from the spec: `mobj_lock` of the memory-object collaborator. The
lock of the object becomes held; the acquisition is recorded. -/
def mobj_lock (h : Heap) (o : Nat) : Res Heap :=
  match h.live o with
  | none => .panic
  | some _ =>
    .ok { h with held := if o ∈ h.held then h.held else o :: h.held,
                 locklog := h.locklog ++ [LockEv.acquire o] }

/-- Modelled from the spec: `mobj_unlock` of the memory-object collaborator. The
lock of the object becomes free; the release is recorded. -/
def mobj_unlock (h : Heap) (o : Nat) : Res Heap :=
  match h.live o with
  | none => .panic
  | some _ =>
    .ok { h with held := h.held.filter (fun x => x ≠ o),
                 locklog := h.locklog ++ [LockEv.release o] }

/-- Modelled from the spec: the list walk of `mobj_find_pframe` (cache lookup
without fetching): the position of the first frame of the list with the given
page number. -/
def find_pframe : List Pframe → Nat → Option Nat
  | [], _ => none
  | f :: fs, pagenum =>
    if f.pf_pagenum = pagenum then some 0
    else
      match find_pframe fs pagenum with
      | some i => some (i + 1)
      | none => none

/-- Modelled from the spec: `pframe_release` of the page-frame collaborator.
Releasing a frame gives up the caller's use of it; the usage count of a frame
is not part of this memory, so memory is as before. -/
def pframe_release (h : Heap) (_pf : PfRef) : Heap := h

/-- Modelled from the spec: `mobj_ref`, one more owning reference. -/
def mobj_ref (h : Heap) (o : Nat) : Res Heap :=
  match h.live o with
  | none => .panic
  | some ob => .ok (h.setObj o { ob with mo_refcount := ob.mo_refcount + 1 })

/-- Modelled from the spec: `mobj_default_destructor`, which drains the
object's own cached pages. -/
def mobj_default_destructor (h : Heap) (o : Nat) : Res Heap :=
  match h.live o with
  | none => .panic
  | some ob => .ok (h.setObj o { ob with mo_pframes := [] })

/-- Return of an object's storage to its allocator (`slab_obj_free`). -/
def slab_obj_free (h : Heap) (o : Nat) : Res Heap :=
  match h.live o with
  | none => .panic
  | some ob => .ok (h.setObj o { ob with freed := true })

/-- Modelled from the spec: the destructor of a non-shadow object, run when its
reference count reaches zero: its cached pages are drained and its record is
freed. -/
def other_destructor (h : Heap) (o : Nat) : Res Heap :=
  match mobj_default_destructor h o with
  | .ok h1 => slab_obj_free h1 o
  | .panic => .panic
  | .outOfFuel => .outOfFuel

/-- The function `shadow_destructor`, with `put` the release (`mobj_put`) it
calls on its two references. -/
def shadow_destructor (put : Heap → Nat → Res Heap) (h : Heap) (o : Nat) : Res Heap :=
  -- mobj_default_destructor(o);
  match mobj_default_destructor h o with
  | .panic => .panic
  | .outOfFuel => .outOfFuel
  | .ok h1 =>
    match h1.live o with
    | none => .panic
    | some so =>
      match so.shadowed with
      | none => .panic
      | some s =>
        match h1.live s with
        | none => .panic
        | some sob =>
          -- KASSERT(shadow->shadowed->mo_refcount);
          if sob.mo_refcount = 0 then .panic
          else
            -- mobj_put(&shadow->shadowed);  (the field is cleared, then released)
            match put (h1.setObj o { so with shadowed := none }) s with
            | .panic => .panic
            | .outOfFuel => .outOfFuel
            | .ok h2 =>
              match h2.live o with
              | none => .panic
              | some so2 =>
                match so2.bottom_mobj with
                | none => .panic
                | some b =>
                  -- mobj_put(&shadow->bottom_mobj);
                  match put (h2.setObj o { so2 with bottom_mobj := none }) b with
                  | .panic => .panic
                  | .outOfFuel => .outOfFuel
                  | .ok h3 =>
                    -- slab_obj_free(shadow_allocator, shadow);
                    slab_obj_free h3 o

/-- Modelled from the spec: `mobj_put` (release) on the object a pointer
variable points to: the count is decremented, and at zero the destructor of the
object's kind is run; a release at count zero is an error. Clearing the pointer
variable is left to the caller. The budget bounds the depth of cascading
destruction. -/
def mobj_put : Nat → Heap → Nat → Res Heap
  | 0, _, _ => .outOfFuel
  | fuel + 1, h, o =>
    match h.live o with
    | none => .panic
    | some ob =>
      if ob.mo_refcount = 0 then .panic
      else
        let h1 := h.setObj o { ob with mo_refcount := ob.mo_refcount - 1 }
        if ob.mo_refcount - 1 = 0 then
          match ob.mo_type with
          | .MOBJ_SHADOW => shadow_destructor (mobj_put fuel) h1 o
          | .MOBJ_OTHER => other_destructor h1 o
        else .ok h1

/-- Modelled from the spec: `mobj_put_locked`: unlock, then release. -/
def mobj_put_locked (fuel : Nat) (h : Heap) (o : Nat) : Res Heap :=
  match mobj_unlock h o with
  | .ok h1 => mobj_put fuel h1 o
  | .panic => .panic
  | .outOfFuel => .outOfFuel

/-- Modelled from the spec: `mobj_init`, the header of a new object: the given
type, reference count 1, no cached page (its lock starts free). -/
def mobj_init (type : MobjType) (shadowed bottom_mobj : Option Nat) : Mobj :=
  { mo_type := type, mo_refcount := 1, mo_pframes := [],
    shadowed := shadowed, bottom_mobj := bottom_mobj, freed := false }

/-- The function `shadow_create`. `alloc_ok` tells whether `slab_obj_alloc`
finds storage; the new object takes the first unused index. The result is the
returned pointer (`none` for `NULL`) and memory afterwards. -/
def shadow_create (alloc_ok : Bool) (h : Heap) (shadowed : Nat) : Res (Option Nat × Heap) :=
  -- mobj_shadow_t* shadow = slab_obj_alloc(shadow_allocator); if (!shadow) return NULL;
  if alloc_ok = false then .ok (none, h)
  else
    match h.live shadowed with
    | none => .panic
    | some sd =>
      -- shadow->bottom_mobj = (shadowed is a shadow object) ? its bottom_mobj : shadowed;
      let bottom : Option Nat :=
        if sd.mo_type = .MOBJ_SHADOW then sd.bottom_mobj else some shadowed
      let shadow := h.objs.length
      -- shadow->shadowed = shadowed; mobj_init(&shadow->mobj, MOBJ_SHADOW, &shadow_mobj_ops);
      let h1 : Heap :=
        { h with objs := h.objs ++ [mobj_init .MOBJ_SHADOW (some shadowed) bottom],
                 held := h.held.filter (fun x => x ≠ shadow) }
      -- mobj_ref(shadow->shadowed);
      match mobj_ref h1 shadowed with
      | .panic => .panic
      | .outOfFuel => .outOfFuel
      | .ok h2 =>
        match bottom with
        | none => .panic
        | some b =>
          -- mobj_ref(shadow->bottom_mobj);
          match mobj_ref h2 b with
          | .panic => .panic
          | .outOfFuel => .outOfFuel
          | .ok h3 =>
            -- mobj_lock(&shadow->mobj);
            match mobj_lock h3 shadow with
            | .panic => .panic
            | .outOfFuel => .outOfFuel
            | .ok h4 =>
              match h4.live b, h4.live shadow with
              | some bo, some so =>
                -- KASSERT(shadow->bottom_mobj->mo_type != MOBJ_SHADOW);
                if bo.mo_type = .MOBJ_SHADOW then .panic
                -- KASSERT(shadow->mobj.mo_refcount == 1);
                else if so.mo_refcount ≠ 1 then .panic
                else .ok (some shadow, h4)
              | _, _ => .panic

/-- The body of the `list_iterate` loop of `shadow_collapse`, run over the
frames that the absorbed object `m` (`shadow->shadowed`) caches, in list order;
`current` is the local variable of that name. -/
def collapse_migrate (m current : Nat) : List Pframe → Heap → Res Heap
  | [], h => .ok h
  | frame :: rest, h =>
    -- mobj_lock(current);
    match mobj_lock h current with
    | .panic => .panic
    | .outOfFuel => .outOfFuel
    | .ok h1 =>
      match h1.live current with
      | none => .panic
      | some co =>
        -- mobj_find_pframe(current, frame->pf_pagenum, &found);
        let found := find_pframe co.mo_pframes frame.pf_pagenum
        -- mobj_unlock(current);
        match mobj_unlock h1 current with
        | .panic => .panic
        | .outOfFuel => .outOfFuel
        | .ok h2 =>
          match found with
          | none =>
            -- list_remove(&frame->pf_link);
            -- list_insert_tail(&current->mo_pframes, &frame->pf_link);
            match h2.live m with
            | none => .panic
            | some mo =>
              let h3 := h2.setObj m { mo with mo_pframes := mo.mo_pframes.erase frame }
              match h3.live current with
              | none => .panic
              | some co3 =>
                collapse_migrate m current rest
                  (h3.setObj current { co3 with mo_pframes := co3.mo_pframes ++ [frame] })
          | some i =>
            -- pframe_release(&found);
            collapse_migrate m current rest (pframe_release h2 ⟨current, i⟩)

/-- The loop condition of `shadow_collapse`:
`current != NULL && shadow->shadowed->mo_type == MOBJ_SHADOW`, where `shadow`
is the object `o` the function was called on. -/
def collapse_cond (h : Heap) (o : Nat) (current : Option Nat) : Res Bool :=
  match current with
  | none => .ok false
  | some _ =>
    match h.live o with
    | none => .panic
    | some so =>
      match so.shadowed with
      | none => .panic
      | some m =>
        match h.live m with
        | none => .panic
        | some mo => .ok (decide (mo.mo_type = .MOBJ_SHADOW))

/-- One run of the body of the `while` loop of `shadow_collapse`, entered with
the loop condition true: memory and the local `current` afterwards. -/
def collapse_body (fuel : Nat) (h : Heap) (o : Nat) (current : Nat) : Res (Heap × Option Nat) :=
  match h.live o with
  | none => .panic
  | some so =>
    match so.shadowed with
    | none => .panic
    | some m =>
      match h.live m with
      | none => .panic
      | some mo =>
        -- if (shadow->shadowed->mo_refcount == 1)
        if mo.mo_refcount = 1 then
          -- mobj_lock(shadow->shadowed);
          match mobj_lock h m with
          | .panic => .panic
          | .outOfFuel => .outOfFuel
          | .ok h1 =>
            -- list_iterate(&shadow->shadowed->mo_pframes, frame, pframe_t, pf_link) { ... }
            match collapse_migrate m current mo.mo_pframes h1 with
            | .panic => .panic
            | .outOfFuel => .outOfFuel
            | .ok h2 =>
              -- sub_shadow = MOBJ_TO_SO(shadow->shadowed); pointer_to_removed = &sub_shadow->mobj;
              match h2.live o with
              | none => .panic
              | some so2 =>
                match so2.shadowed with
                | none => .panic
                | some removed =>
                  match h2.live removed with
                  | none => .panic
                  | some sub =>
                    -- shadow->shadowed = sub_shadow->shadowed;
                    let h3 := h2.setObj o { so2 with shadowed := sub.shadowed }
                    -- KASSERT(pointer_to_removed->mo_refcount);
                    match h3.live removed with
                    | none => .panic
                    | some ro =>
                      if ro.mo_refcount = 0 then .panic
                      else
                        -- mobj_put_locked(&pointer_to_removed);
                        match mobj_put_locked fuel h3 removed with
                        | .panic => .panic
                        | .outOfFuel => .outOfFuel
                        | .ok h4 => .ok (h4, some current)
        else
          -- current = shadow->shadowed;
          .ok (h, some m)

/-- The `while` loop of `shadow_collapse`; the budget bounds the number of
times the loop condition is evaluated (and the depth of a release). -/
def collapse_loop (o : Nat) : Nat → Heap → Option Nat → Res Heap
  | 0, _, _ => .outOfFuel
  | fuel + 1, h, current =>
    match collapse_cond h o current with
    | .panic => .panic
    | .outOfFuel => .outOfFuel
    | .ok false => .ok h
    | .ok true =>
      match current with
      | none => .ok h
      | some c =>
        match collapse_body fuel h o c with
        | .panic => .panic
        | .outOfFuel => .outOfFuel
        | .ok (h1, current1) => collapse_loop o fuel h1 current1

/-- The function `shadow_collapse`. -/
def shadow_collapse (fuel : Nat) (h : Heap) (o : Nat) : Res Heap :=
  -- mobj_shadow_t* shadow = MOBJ_TO_SO(o); mobj_t* current = shadow->shadowed;
  match h.live o with
  | none => .panic
  | some so => collapse_loop o fuel h so.shadowed

/-- Modelled from the spec: `mobj_default_get_pframe`, the generic
create-if-absent-then-fill fetch. A frame the object already caches is
returned; otherwise a page is allocated (a failure is returned as the status),
a new frame is put at the tail of the object's cache and filled through
`fill`, the `fill_pframe` operation of the object's kind; a frame whose fill
failed is taken out again and the fill's status returned. -/
def mobj_default_get_pframe (E : Ext) (fill : Heap → Nat → PfRef → Res (Int × Heap))
    (h : Heap) (o : Nat) (pagenum : Nat) (_forwrite : Bool) : Res GetRes :=
  match h.live o with
  | none => .panic
  | some ob =>
    match find_pframe ob.mo_pframes pagenum with
    | some i => .ok ⟨0, some ⟨o, i⟩, h⟩
    | none =>
      if E.page_alloc o pagenum ≠ 0 then .ok ⟨E.page_alloc o pagenum, none, h⟩
      else
        let pf : PfRef := ⟨o, ob.mo_pframes.length⟩
        let h1 := h.setObj o { ob with mo_pframes := ob.mo_pframes ++ [⟨pagenum, []⟩] }
        match fill h1 o pf with
        | .panic => .panic
        | .outOfFuel => .outOfFuel
        | .ok (status, h2) =>
          if status = 0 then .ok ⟨0, some pf, h2⟩
          else
            match h2.live o with
            | none => .panic
            | some ob2 =>
              .ok ⟨status, none, h2.setObj o { ob2 with mo_pframes := ob2.mo_pframes.eraseIdx pf.idx }⟩

/-- Modelled from the spec: the `fill_pframe` operation of a non-shadow object:
the page is read from the object's backing store into the frame. -/
def other_fill_pframe (E : Ext) (h : Heap) (o : Nat) (pf : PfRef) : Res (Int × Heap) :=
  match h.frameAt pf with
  | none => .panic
  | some f =>
    if (E.backing o f.pf_pagenum).1 = 0 then
      .ok (0, h.writeFrame pf (E.backing o f.pf_pagenum).2)
    else .ok ((E.backing o f.pf_pagenum).1, h)

/-- Modelled from the spec: the page fetch of a non-shadow object, the generic
fetch with the object's own fill. This is what `mobj_get_pframe` dispatches to
on an object whose type is not `MOBJ_SHADOW`. -/
def other_get_pframe (E : Ext) (h : Heap) (o : Nat) (pagenum : Nat) (forwrite : Bool) : Res GetRes :=
  mobj_default_get_pframe E (other_fill_pframe E) h o pagenum forwrite

/-- The tail of `shadow_fill_pframe` from its `while` loop on: `current` is the
local of that name, `pf` the frame to fill and `pagenum` its `pf_pagenum`. At
the exit of the loop `current` is not a shadow object, so the `mobj_get_pframe`
called there is the fetch of a non-shadow object. -/
def fill_walk (E : Ext) (pf : PfRef) (pagenum : Nat) : Nat → Heap → Option Nat → Res (Int × Heap)
  | 0, _, _ => .outOfFuel
  | _ + 1, _, none => .panic  -- the loop is left with current == NULL, and mobj_lock(current) follows
  | fuel + 1, h, some c =>
    match h.live c with
    | none => .panic
    | some co =>
      if co.mo_type = .MOBJ_SHADOW then
        -- mobj_lock(current); mobj_find_pframe(current, pf->pf_pagenum, &found); mobj_unlock(current);
        match mobj_lock h c with
        | .panic => .panic
        | .outOfFuel => .outOfFuel
        | .ok h1 =>
          match h1.live c with
          | none => .panic
          | some co1 =>
            match mobj_unlock h1 c with
            | .panic => .panic
            | .outOfFuel => .outOfFuel
            | .ok h2 =>
              match find_pframe co1.mo_pframes pagenum with
              | some i =>
                -- memcpy(pf->pf_addr, found->pf_addr, PAGE_SIZE); pframe_release(&found); return 0;
                match h2.frameAt ⟨c, i⟩ with
                | none => .panic
                | some found => .ok (0, pframe_release (h2.writeFrame pf found.pf_addr) ⟨c, i⟩)
              | none =>
                -- shadow = MOBJ_TO_SO(current); current = shadow->shadowed;
                fill_walk E pf pagenum fuel h2 co.shadowed
      else
        -- mobj_lock(current); status = mobj_get_pframe(current, pf->pf_pagenum, 0, &found); mobj_unlock(current);
        match mobj_lock h c with
        | .panic => .panic
        | .outOfFuel => .outOfFuel
        | .ok h1 =>
          match other_get_pframe E h1 c pagenum false with
          | .panic => .panic
          | .outOfFuel => .outOfFuel
          | .ok r =>
            match mobj_unlock r.heap c with
            | .panic => .panic
            | .outOfFuel => .outOfFuel
            | .ok h2 =>
              -- if (status == 0) { memcpy(pf->pf_addr, found->pf_addr, PAGE_SIZE); pframe_release(&found); }
              if r.status = 0 then
                match r.pfp with
                | none => .panic
                | some fr =>
                  match h2.frameAt fr with
                  | none => .panic
                  | some found => .ok (r.status, pframe_release (h2.writeFrame pf found.pf_addr) fr)
              else .ok (r.status, h2)

/-- The function `shadow_fill_pframe`. -/
def shadow_fill_pframe (fuel : Nat) (E : Ext) (h : Heap) (o : Nat) (pf : PfRef) : Res (Int × Heap) :=
  match h.live o with
  | none => .panic
  | some so =>
    -- KASSERT(kmutex_owns_mutex(&o->mo_mutex));
    if o ∉ h.held then .panic
    else
      match h.frameAt pf with
      | none => .panic
      | some f => fill_walk E pf f.pf_pagenum fuel h so.shadowed

/-- The read branch of `shadow_get_pframe` from its `while` loop on, with
`current` the local of that name. At the exit of the loop `current` is not a
shadow object, so the `mobj_get_pframe` called there is the fetch of a
non-shadow object. -/
def get_walk (E : Ext) (pagenum : Nat) : Nat → Heap → Option Nat → Res GetRes
  | 0, _, _ => .outOfFuel
  | _ + 1, _, none => .panic  -- the loop is left with current == NULL, and mobj_lock(current) follows
  | fuel + 1, h, some c =>
    match h.live c with
    | none => .panic
    | some co =>
      if co.mo_type = .MOBJ_SHADOW then
        -- mobj_lock(current); mobj_find_pframe(current, pagenum, pfp); mobj_unlock(current);
        match mobj_lock h c with
        | .panic => .panic
        | .outOfFuel => .outOfFuel
        | .ok h1 =>
          match h1.live c with
          | none => .panic
          | some co1 =>
            match mobj_unlock h1 c with
            | .panic => .panic
            | .outOfFuel => .outOfFuel
            | .ok h2 =>
              match find_pframe co1.mo_pframes pagenum with
              | some i => .ok ⟨0, some ⟨c, i⟩, h2⟩
              | none =>
                -- shadow = MOBJ_TO_SO(current); KASSERT(shadow->shadowed != current);
                if co.shadowed = some c then .panic
                -- current = shadow->shadowed;
                else get_walk E pagenum fuel h2 co.shadowed
      else
        -- mobj_lock(current); status = mobj_get_pframe(current, pagenum, 0, pfp); mobj_unlock(current);
        match mobj_lock h c with
        | .panic => .panic
        | .outOfFuel => .outOfFuel
        | .ok h1 =>
          match other_get_pframe E h1 c pagenum false with
          | .panic => .panic
          | .outOfFuel => .outOfFuel
          | .ok r =>
            match mobj_unlock r.heap c with
            | .panic => .panic
            | .outOfFuel => .outOfFuel
            | .ok h2 => .ok ⟨r.status, r.pfp, h2⟩

/-- The function `shadow_get_pframe`. -/
def shadow_get_pframe (fuel : Nat) (E : Ext) (h : Heap) (o : Nat) (pagenum : Nat)
    (forwrite : Bool) : Res GetRes :=
  match h.live o with
  | none => .panic
  | some so =>
    match so.bottom_mobj with
    | none => .panic
    | some b =>
      match h.live b with
      | none => .panic
      | some bo =>
        -- KASSERT(shadow->bottom_mobj->mo_type != MOBJ_SHADOW);
        if bo.mo_type = .MOBJ_SHADOW then .panic
        -- KASSERT(shadow->shadowed != o);
        else if so.shadowed = some o then .panic
        -- KASSERT(kmutex_owns_mutex(&o->mo_mutex));
        else if o ∉ h.held then .panic
        else if forwrite then
          -- mobj_default_get_pframe(o, pagenum, 1, pfp), whose fill is shadow_fill_pframe
          mobj_default_get_pframe E (shadow_fill_pframe fuel E) h o pagenum true
        else
          -- mobj_find_pframe(o, pagenum, pfp); if (*pfp) return 0;
          match find_pframe so.mo_pframes pagenum with
          | some i => .ok ⟨0, some ⟨o, i⟩, h⟩
          | none => get_walk E pagenum fuel h so.shadowed

/-- Modelled from the spec: `mobj_get_pframe`, the dispatch of a page fetch on
the kind of the object: `shadow_get_pframe` for a shadow object, the object's
own fetch otherwise. -/
def mobj_get_pframe (fuel : Nat) (E : Ext) (h : Heap) (o : Nat) (pagenum : Nat)
    (forwrite : Bool) : Res GetRes :=
  match h.live o with
  | none => .panic
  | some ob =>
    if ob.mo_type = .MOBJ_SHADOW then shadow_get_pframe fuel E h o pagenum forwrite
    else other_get_pframe E h o pagenum forwrite

/-- The function `shadow_flush_pframe`: the returned status and memory afterwards. -/
def shadow_flush_pframe (h : Heap) (_o : Nat) (_pf : PfRef) : Int × Heap := (0, h)

/-- The content of the frame a fetch returned, read in the memory it left. -/
def GetRes.content (r : GetRes) : Option (List Nat) :=
  match r.pfp with
  | none => none
  | some pf =>
    match r.heap.frameAt pf with
    | some f => some f.pf_addr
    | none => none

/-! ## Properties the specification speaks of -/

/-- The number of owning references that live shadow objects hold on object
`x`: one for each whose `shadowed` field points to `x`, one for each whose
`bottom_mobj` field points to `x`. -/
def owners (h : Heap) (x : Nat) : Nat :=
  (h.objs.filter (fun o =>
      !o.freed && decide (o.mo_type = .MOBJ_SHADOW) && decide (o.shadowed = some x))).length
  + (h.objs.filter (fun o =>
      !o.freed && decide (o.mo_type = .MOBJ_SHADOW) && decide (o.bottom_mobj = some x))).length

/-- The reference-count invariant: the count of every live object is the number
of owning references from live shadow objects plus the `ext x` references that
the rest of the system holds on it. -/
def RefInv (h : Heap) (ext : Nat → Nat) : Prop :=
  ∀ x < h.objs.length, ∀ o, h.live x = some o → o.mo_refcount = owners h x + ext x

instance (h : Heap) (ext : Nat → Nat) : Decidable (RefInv h ext) := by
  unfold RefInv; infer_instance

/-- The chain below the pointer `cur`: `l` lists, in order, the shadow objects
met by following `shadowed` from `cur`, and `b` is the live non-shadow object
that ends the chain. -/
def IsChain (h : Heap) : Option Nat → List Nat → Nat → Prop
  | cur, [], b => cur = some b ∧ ∃ bo, h.live b = some bo ∧ bo.mo_type ≠ .MOBJ_SHADOW
  | cur, x :: l, b =>
    cur = some x ∧ ∃ xo, h.live x = some xo ∧ xo.mo_type = .MOBJ_SHADOW ∧ IsChain h xo.shadowed l b

/-- The frame for page `pagenum` in the first object of the list that caches
that page number. -/
def firstCaching (h : Heap) (pagenum : Nat) : List Nat → Option PfRef
  | [] => none
  | x :: l =>
    match h.live x with
    | none => firstCaching h pagenum l
    | some xo =>
      match find_pframe xo.mo_pframes pagenum with
      | some i => some ⟨x, i⟩
      | none => firstCaching h pagenum l

/-- The number of frames for page `pagenum` in the cache of object `o`. -/
def cachedCount (h : Heap) (o : Nat) (pagenum : Nat) : Nat :=
  match h.live o with
  | some ob => (ob.mo_pframes.filter (fun f => decide (f.pf_pagenum = pagenum))).length
  | none => 0

/-! ## Sample memories -/

/-- A live object with the given fields. -/
def mkObj (t : MobjType) (rc : Nat) (pf : List Pframe) (s b : Option Nat) : Mobj :=
  { mo_type := t, mo_refcount := rc, mo_pframes := pf, shadowed := s, bottom_mobj := b,
    freed := false }

/-- The chain `A → M → Z`: object 0 is the non-shadow bottom `Z`; object 1 is
the shadow object `M`, owned by `A` alone, caching page 0 with content `[7]`;
object 2 is the shadow object `A`, referenced once from outside, caching
nothing and locked by the caller. -/
def absorbHeap : Heap :=
  ⟨[mkObj .MOBJ_OTHER 3 [] none none,
    mkObj .MOBJ_SHADOW 1 [⟨0, [7]⟩] (some 0) (some 0),
    mkObj .MOBJ_SHADOW 1 [] (some 1) (some 0)], [2], []⟩

/-- The references held from outside on the objects of `absorbHeap`: one, on `A`. -/
def absorbExt : Nat → Nat := fun x => if x = 2 then 1 else 0

/-- Memory after `shadow_collapse` on `A` in `absorbHeap`. -/
def absorbedHeap : Heap :=
  ⟨[mkObj .MOBJ_OTHER 1 [] none none,
    { mo_type := .MOBJ_SHADOW, mo_refcount := 0, mo_pframes := [], shadowed := none,
      bottom_mobj := none, freed := true },
    mkObj .MOBJ_SHADOW 1 [] (some 0) (some 0)], [2],
   [.acquire 1, .acquire 1, .release 1, .release 1]⟩

/-- The chain `A → M → Z` in which `M` has a second owner: object 0 is the
non-shadow bottom `Z`, object 1 the shadow object `M` with reference count 2
(held by `A` and by a mapping outside), object 2 the shadow object `A`, locked
by the caller. -/
def sharedHeap : Heap :=
  ⟨[mkObj .MOBJ_OTHER 3 [] none none,
    mkObj .MOBJ_SHADOW 2 [⟨0, [7]⟩] (some 0) (some 0),
    mkObj .MOBJ_SHADOW 1 [] (some 1) (some 0)], [2], []⟩

/-- The memory `sharedHeap` with a third sharer of `M`. -/
def sharedHeap3 : Heap :=
  ⟨[mkObj .MOBJ_OTHER 3 [] none none,
    mkObj .MOBJ_SHADOW 3 [] (some 0) (some 0),
    mkObj .MOBJ_SHADOW 1 [⟨1, [5]⟩] (some 1) (some 0)], [2], []⟩

/-- Collaborators that never fail: every page allocation succeeds, and the
backing store of every non-shadow object reads as a zero page (an anonymous,
zero-filled object). -/
def anonExt : Ext := ⟨fun _ _ => 0, fun _ _ => (0, [0, 0, 0, 0])⟩

/-- The chain `A → M → Z` of `absorbHeap`, with two frames of `A` still to be
filled: frame 0 for page 0, which `M` caches, and frame 1 for page 1, which
only the bottom object can supply. -/
def fillHeap : Heap :=
  ⟨[mkObj .MOBJ_OTHER 3 [] none none,
    mkObj .MOBJ_SHADOW 1 [⟨0, [7]⟩] (some 0) (some 0),
    mkObj .MOBJ_SHADOW 1 [⟨0, []⟩, ⟨1, []⟩] (some 1) (some 0)], [2], []⟩

/-- Memory after `shadow_create` on `A` in `absorbHeap`: the new shadow object
is object 3, locked, and `A` and the bottom object each count one more
reference. -/
def createdHeap : Heap :=
  ⟨[mkObj .MOBJ_OTHER 4 [] none none,
    mkObj .MOBJ_SHADOW 1 [⟨0, [7]⟩] (some 0) (some 0),
    mkObj .MOBJ_SHADOW 2 [] (some 1) (some 0),
    mkObj .MOBJ_SHADOW 1 [] (some 2) (some 0)], [3, 2], [.acquire 3]⟩

/-- The memory of the specification's example scenario: object 0 is the
zero-filled bottom object `Z`, object 1 the shadow object `A` created over `Z`,
object 2 the shadow object `B` created over `A`; no page has been written, and
the caller holds the locks of `A` and `B`. -/
def forkHeap : Heap :=
  ⟨[mkObj .MOBJ_OTHER 3 [] none none,
    mkObj .MOBJ_SHADOW 2 [] (some 0) (some 0),
    mkObj .MOBJ_SHADOW 1 [] (some 1) (some 0)], [1, 2], []⟩

/-- The bottom invariant: the `bottom_mobj` field of every live shadow object
points to an allocated object whose type tag is not `MOBJ_SHADOW`. -/
def BottomInv (h : Heap) : Prop :=
  ∀ (x : Nat) (xo : Mobj), h.live x = some xo → xo.mo_type = .MOBJ_SHADOW →
    ∃ (b : Nat) (bo : Mobj),
      xo.bottom_mobj = some b ∧ h.objs[b]? = some bo ∧ bo.mo_type ≠ .MOBJ_SHADOW

/-- Object `y` is reached from object `x` by following `shadowed` one or more
times, each step leaving a live shadow object. -/
inductive Reach (h : Heap) : Nat → Nat → Prop where
  | step {x y : Nat} {xo : Mobj} : h.live x = some xo → xo.mo_type = .MOBJ_SHADOW →
      xo.shadowed = some y → Reach h x y
  | tail {x y z : Nat} {yo : Mobj} : Reach h x y → h.live y = some yo →
      yo.mo_type = .MOBJ_SHADOW → yo.shadowed = some z → Reach h x z

/-- No shadow object lies on a cycle of `shadowed` pointers. -/
def NoCycle (h : Heap) : Prop := ∀ x, ¬ Reach h x x

/-- No live shadow object has its `shadowed` field equal to itself. -/
def NoSelf (h : Heap) : Prop :=
  ∀ x xo, h.live x = some xo → xo.mo_type = .MOBJ_SHADOW → xo.shadowed ≠ some x

/-- Bottom is the end of the chain: every live shadow object has a chain that
ends, and its `bottom_mobj` field is the non-shadow object that ends it. -/
def BottomIsEnd (h : Heap) : Prop :=
  ∀ x xo, h.live x = some xo → xo.mo_type = .MOBJ_SHADOW →
    ∃ l b, IsChain h (some x) (x :: l) b ∧ xo.bottom_mobj = some b

/-- Replay of a record of lock operations, from the list `held` of the locks
held at its start: `true` when no lock is acquired while it is held. -/
def noRelock : List Nat → List LockEv → Bool
  | _, [] => true
  | held, .acquire o :: rest => if o ∈ held then false else noRelock (o :: held) rest
  | held, .release o :: rest => noRelock (held.filter (fun x => x ≠ o)) rest

/-- Memory `h1` keeps the objects of `h`: the table has the same size, every
object keeps its type tag, and every object live in `h1`, the object `ex`
apart, was live in `h` with the same `shadowed` and `bottom_mobj` fields. -/
def Keeps (ex : Option Nat) (h h1 : Heap) : Prop :=
  h1.objs.length = h.objs.length ∧
  (∀ (i : Nat) (o1 : Mobj), h1.objs[i]? = some o1 →
    ∃ o : Mobj, h.objs[i]? = some o ∧ o1.mo_type = o.mo_type) ∧
  (∀ (i : Nat) (o1 : Mobj), some i ≠ ex → h1.live i = some o1 →
    ∃ o, h.live i = some o ∧ o1.shadowed = o.shadowed ∧ o1.bottom_mobj = o.bottom_mobj)

/-- What one run of the loop body of `shadow_collapse` on `O` does to the
chain: every other object is kept, and `O`, when still live, keeps its
`bottom_mobj` and has as `shadowed` either what it had or the `shadowed` field
of the shadow object it shadowed. -/
def CollapseStep (O : Nat) (h h1 : Heap) : Prop :=
  Keeps (some O) h h1 ∧
  ∀ o1, h1.live O = some o1 →
    ∃ o, h.live O = some o ∧ o1.bottom_mobj = o.bottom_mobj ∧
      (o1.shadowed = o.shadowed ∨
        ∃ m mo, o.shadowed = some m ∧ h.live m = some mo ∧ mo.mo_type = .MOBJ_SHADOW ∧
          o1.shadowed = mo.shadowed)

/-- One operation on the chains: `h1` is the memory that a successful
`shadow_create`, or a `shadow_collapse` that returned, left from `h`. -/
def CreateOrCollapse (h h1 : Heap) : Prop :=
  (∃ X S, shadow_create true h X = .ok (some S, h1)) ∨
  (∃ fuel O, shadow_collapse fuel h O = .ok h1)

/-- No `shadowed` field of a live shadow object points outside the object
table. -/
def Closed (h : Heap) : Prop :=
  ∀ (x : Nat) (xo : Mobj) (y : Nat), h.live x = some xo → xo.mo_type = .MOBJ_SHADOW →
    xo.shadowed = some y → y < h.objs.length

/-- The chain `O → M1 → M2 → Z` with every intermediate object owned once:
object 0 is the non-shadow bottom `Z` (referenced by `M2.shadowed` and by the
three `bottom_mobj` fields), objects 1 and 2 are the shadow objects `M2` and
`M1` with reference count 1, object 3 is the shadow object `O`, referenced once
from outside and locked by the caller. -/
def deepHeap : Heap :=
  ⟨[mkObj .MOBJ_OTHER 4 [] none none,
    mkObj .MOBJ_SHADOW 1 [] (some 0) (some 0),
    mkObj .MOBJ_SHADOW 1 [] (some 1) (some 0),
    mkObj .MOBJ_SHADOW 1 [] (some 2) (some 0)], [3], []⟩

/-- Two chains that share a tail: `A → M1 → M2 → Z` and `C → M2 → Z`. Object 0
is the bottom `Z` (count 5), object 1 the shadow object `M2` (count 2: shadowed
by `M1` and by `C`; it caches nothing), object 2 the shadow object `M1`
(count 1), objects 3 and 4 the shadow objects `A` and `C`, each referenced once
from outside; the caller holds the lock of `A`. -/
def tailHeap : Heap :=
  ⟨[mkObj .MOBJ_OTHER 5 [] none none,
    mkObj .MOBJ_SHADOW 2 [] (some 0) (some 0),
    mkObj .MOBJ_SHADOW 1 [] (some 1) (some 0),
    mkObj .MOBJ_SHADOW 1 [] (some 2) (some 0),
    mkObj .MOBJ_SHADOW 1 [] (some 1) (some 0)], [3], []⟩

/-- The references held from outside on the objects of `tailHeap`: one on `A`,
one on `C`. -/
def tailExt : Nat → Nat := fun x => if x = 3 ∨ x = 4 then 1 else 0

/-- An object that has been destroyed: its fields cleared, its storage freed. -/
def deadShadow : Mobj :=
  { mo_type := .MOBJ_SHADOW, mo_refcount := 0, mo_pframes := [], shadowed := none,
    bottom_mobj := none, freed := true }

/-- Memory after `shadow_collapse` on `A` in `tailHeap`. -/
def tailAfter : Heap :=
  ⟨[mkObj .MOBJ_OTHER 2 [] none none, deadShadow, deadShadow,
    mkObj .MOBJ_SHADOW 1 [] (some 0) (some 0),
    mkObj .MOBJ_SHADOW 1 [] (some 1) (some 0)], [3],
   [.acquire 2, .release 2, .acquire 1, .release 1]⟩

/-- Collaborators whose backing store fails: every page allocation succeeds, and
every read of a backing store returns the error status -5. -/
def eioExt : Ext := ⟨fun _ _ => 0, fun _ _ => (-5, [])⟩

/-! ## Memory lookups after stores -/

theorem liveIn_get {l : List Mobj} {i : Nat} {o : Mobj} (hl : liveIn l i = some o) :
    l[i]? = some o ∧ o.freed = false := by
  unfold liveIn at hl
  cases hg : l[i]? with
  | none => simp [hg] at hl
  | some x =>
    simp only [hg] at hl
    by_cases hx : x.freed = true
    · simp [hx] at hl
    · simp only [hx] at hl
      simp at hl hx
      subst hl
      exact ⟨rfl, hx⟩

theorem liveIn_lt {l : List Mobj} {i : Nat} {o : Mobj} (hl : liveIn l i = some o) :
    i < l.length := by
  have h1 := (liveIn_get hl).1
  exact (List.getElem?_eq_some.1 h1).1

theorem liveIn_set_same {l : List Mobj} {i : Nat} (o : Mobj) (hi : i < l.length) :
    liveIn (l.set i o) i = if o.freed then none else some o := by
  simp [liveIn, hi]

theorem liveIn_set_ne {l : List Mobj} {i j : Nat} (o : Mobj) (hij : i ≠ j) :
    liveIn (l.set i o) j = liveIn l j := by
  simp [liveIn, List.getElem?_set_ne hij]

theorem find_pframe_of_mem {l : List Pframe} {f : Pframe} (hf : f ∈ l) :
    ∃ i, find_pframe l f.pf_pagenum = some i := by
  induction l with
  | nil => simp at hf
  | cons g gs ih =>
    by_cases hg : g.pf_pagenum = f.pf_pagenum
    · exact ⟨0, by simp [find_pframe, hg]⟩
    · have hmem : f ∈ gs := by
        rcases List.mem_cons.1 hf with h1 | h1
        · exact absurd (by rw [h1]) hg
        · exact h1
      obtain ⟨i, hi⟩ := ih hmem
      exact ⟨i + 1, by simp [find_pframe, hg, hi]⟩

/-! ## Collapse -/

/-- The frame loop of `shadow_collapse` run with `current` equal to the absorbed
object itself finds every frame of that object in it: no frame moves, and the
object table is as before. -/
theorem collapse_migrate_self (M : Nat) (m : Mobj) :
    ∀ (rest : List Pframe) (h : Heap), h.live M = some m →
      (∀ f ∈ rest, f ∈ m.mo_pframes) →
      ∃ h1, collapse_migrate M M rest h = .ok h1 ∧ h1.objs = h.objs := by
  intro rest
  induction rest with
  | nil => intro h _ _; exact ⟨h, rfl, rfl⟩
  | cons f fs ih =>
    intro h hM hsub
    obtain ⟨i, hi⟩ := find_pframe_of_mem (hsub f (List.mem_cons_self _ _))
    have hM1 : liveIn h.objs M = some m := hM
    obtain ⟨h1, hh1, hobjs⟩ := ih
      { h with held := (if M ∈ h.held then h.held else M :: h.held).filter (fun x => x ≠ M),
               locklog := h.locklog ++ [LockEv.acquire M] ++ [LockEv.release M] }
      hM (fun g hg => hsub g (List.mem_cons_of_mem _ hg))
    refine ⟨h1, ?_, hobjs⟩
    simp only [collapse_migrate, mobj_lock, mobj_unlock, Heap.live, hM1, hi, pframe_release]
    exact hh1

/-- With `o.shadowed` a shared shadow object, the loop of `shadow_collapse`
runs out of every budget, whatever `current` is. -/
theorem collapse_loop_shared (h : Heap) (A M : Nat) (a m : Mobj)
    (hA : h.live A = some a) (hs : a.shadowed = some M) (hM : h.live M = some m)
    (ht : m.mo_type = .MOBJ_SHADOW) (hr : 1 < m.mo_refcount) :
    ∀ (fuel : Nat) (c : Nat), collapse_loop A fuel h (some c) = .outOfFuel := by
  intro fuel
  induction fuel with
  | zero => intro c; rfl
  | succ n ih =>
    intro c
    have hne : m.mo_refcount ≠ 1 := by omega
    simp [collapse_loop, collapse_cond, collapse_body, hA, hs, hM, ht, hne, ih]

/-- C1 (evaluation at the failing input). In the chain `A → M → Z` of
`absorbHeap`, `M` has reference count 1 and caches page 0, which `A` does not
cache; `shadow_collapse` on `A` returns, and afterwards `A` caches no frame for
page 0: the page of `M` was not migrated. -/
theorem collapse_drops_absorbed_page :
    (∃ m, absorbHeap.live 1 = some m ∧ m.mo_refcount = 1 ∧ find_pframe m.mo_pframes 0 = some 0) ∧
    (∃ a, absorbHeap.live 2 = some a ∧ a.shadowed = some 1 ∧ find_pframe a.mo_pframes 0 = none) ∧
    ∃ h1 a1, shadow_collapse 3 absorbHeap 2 = .ok h1 ∧ h1.live 2 = some a1 ∧
      find_pframe a1.mo_pframes 0 = none :=
  ⟨⟨_, rfl, rfl, rfl⟩, ⟨_, rfl, rfl, rfl⟩, ⟨absorbedHeap, _, rfl, rfl, rfl⟩⟩

/-- C2 (the code at the claim's inputs). When the object `M` that `A` shadows
is a shadow object with reference count greater than 1, a run of the loop body
of `shadow_collapse` leaves memory as it is and sets `current` to `M`, and the
call returns under no iteration budget: there is no state after the call. -/
theorem collapse_shared_never_returns (h : Heap) (A M : Nat) (a m : Mobj)
    (hA : h.live A = some a) (hs : a.shadowed = some M) (hM : h.live M = some m)
    (ht : m.mo_type = .MOBJ_SHADOW) (hr : 1 < m.mo_refcount) :
    (∀ fuel c, collapse_body fuel h A c = .ok (h, some M)) ∧
    ∀ fuel, shadow_collapse fuel h A = .outOfFuel := by
  have hne : m.mo_refcount ≠ 1 := by omega
  refine ⟨fun fuel c => by simp [collapse_body, hA, hs, hM, hne], fun fuel => ?_⟩
  simp [shadow_collapse, hA, hs, collapse_loop_shared h A M a m hA hs hM ht hr fuel M]

/-- Witness of `collapse_shared_never_returns`, at `sharedHeap3`. -/
theorem collapse_shared_never_returns_witness :
    (∀ fuel c, collapse_body fuel sharedHeap3 2 c = .ok (sharedHeap3, some 1)) ∧
    ∀ fuel, shadow_collapse fuel sharedHeap3 2 = .outOfFuel :=
  collapse_shared_never_returns sharedHeap3 2 1
    (mkObj .MOBJ_SHADOW 1 [⟨1, [5]⟩] (some 1) (some 0))
    (mkObj .MOBJ_SHADOW 3 [] (some 0) (some 0)) rfl rfl rfl rfl (by decide)

/-- C3 (evaluation at the failing input). The chain of `sharedHeap` is finite
and acyclic, `A → M → Z` with `Z` not a shadow object, and `M` has reference
count 2; `shadow_collapse` on `A` does not return within any number of
iterations. -/
theorem collapse_shared_diverges :
    IsChain sharedHeap (some 2) [2, 1] 0 ∧
    (∃ m, sharedHeap.live 1 = some m ∧ m.mo_type = .MOBJ_SHADOW ∧ m.mo_refcount = 2) ∧
    ∀ fuel, shadow_collapse fuel sharedHeap 2 = .outOfFuel := by
  refine ⟨⟨rfl, _, rfl, rfl, rfl, _, rfl, rfl, rfl, _, rfl, by decide⟩, ⟨_, rfl, rfl, rfl⟩, ?_⟩
  intro fuel
  show collapse_loop 2 fuel sharedHeap (some 1) = .outOfFuel
  induction fuel with
  | zero => rfl
  | succ n ih => exact ih

/-- C4 (evaluation at the failing input). The memory `absorbHeap` satisfies the
reference-count invariant with one outside reference on `A`; after
`shadow_collapse` on `A` the bottom object has reference count 1 while two
fields of the live object `A` point to it, so the invariant holds for no
number of outside references. -/
theorem collapse_breaks_refcount_invariant :
    RefInv absorbHeap absorbExt ∧
    ∃ h1, shadow_collapse 3 absorbHeap 2 = .ok h1 ∧ ∀ ext, ¬ RefInv h1 ext := by
  refine ⟨by decide, absorbedHeap, rfl, ?_⟩
  intro ext hinv
  have h0 : 1 = owners absorbedHeap 0 + ext 0 :=
    hinv 0 (by decide) (mkObj .MOBJ_OTHER 1 [] none none) rfl
  have h2 : owners absorbedHeap 0 = 2 := by decide
  omega

/-- C5. In a chain `A → M → B` where `M` is a shadow object with reference count
exactly 1 and `B` is the non-shadow bottom (referenced by `M.shadowed`,
`M.bottom_mobj` and `A.bottom_mobj`, so counted at least 3 times),
`shadow_collapse` on `A` returns; afterwards the `shadowed` field of `A` is the
value that of `M` had, the `bottom_mobj` field of `A` is unchanged, and `M` has
reference count zero and has been destroyed (freed). -/
theorem collapse_absorbs_sole_owned (h : Heap) (A M B : Nat) (a m b : Mobj) (fuel : Nat)
    (hA : h.live A = some a) (hat : a.mo_type = .MOBJ_SHADOW) (has : a.shadowed = some M)
    (hM : h.live M = some m) (hmt : m.mo_type = .MOBJ_SHADOW) (hmr : m.mo_refcount = 1)
    (hms : m.shadowed = some B) (hmb : m.bottom_mobj = some B)
    (hB : h.live B = some b) (hbt : b.mo_type ≠ .MOBJ_SHADOW) (hbr : 3 ≤ b.mo_refcount)
    (hf : 3 ≤ fuel) :
    ∃ h1 a1 m1, shadow_collapse fuel h A = .ok h1 ∧
      h1.live A = some a1 ∧ a1.shadowed = m.shadowed ∧ a1.bottom_mobj = a.bottom_mobj ∧
      h1.objs[M]? = some m1 ∧ m1.mo_refcount = 0 ∧ m1.freed = true ∧ h1.live M = none := by
  obtain ⟨n, rfl⟩ : ∃ n, fuel = n + 3 := ⟨fuel - 3, by omega⟩
  have hAB : A ≠ B := by
    rintro rfl
    rw [hA] at hB; cases hB; exact hbt hat
  have hMB : M ≠ B := by
    rintro rfl
    rw [hM] at hB; cases hB; exact hbt hmt
  have hAM : A ≠ M := by
    rintro rfl
    rw [hA] at hM; cases hM
    rw [has] at hms; cases hms; exact hMB rfl
  have lA : liveIn h.objs A = some a := hA
  have lM : liveIn h.objs M = some m := hM
  have lB : liveIn h.objs B = some b := hB
  have ltA := liveIn_lt lA
  have ltM := liveIn_lt lM
  have ltB := liveIn_lt lB
  have fA := (liveIn_get lA).2
  have fM := (liveIn_get lM).2
  have fB := (liveIn_get lB).2
  obtain ⟨h2, hmig, hobjs⟩ := collapse_migrate_self M m m.mo_pframes
    { h with held := if M ∈ h.held then h.held else M :: h.held,
             locklog := h.locklog ++ [LockEv.acquire M] } hM (fun f hf => hf)
  have hbr1 : b.mo_refcount ≠ 0 := by omega
  have hbr2 : b.mo_refcount - 1 ≠ 0 := by omega
  have hbr3 : b.mo_refcount - 1 - 1 ≠ 0 := by omega
  simp [shadow_collapse, collapse_loop, collapse_cond, collapse_body, Heap.live, lA, has, lM,
    hmt, hmr, mobj_lock, hmig, hobjs, Heap.setObj, liveIn_set_same, liveIn_set_ne, ltA, ltM,
    ltB, fA, fM, fB, hAM, hAM.symm, hAB, hAB.symm, hMB, hMB.symm, mobj_put_locked, mobj_unlock,
    mobj_put, shadow_destructor, mobj_default_destructor, hms, hmb, lB, hbr1, hbr2, hbr3,
    slab_obj_free, hbt]

/-- Witness of `collapse_absorbs_sole_owned`, at the chain of `absorbHeap`. -/
theorem collapse_absorbs_sole_owned_witness :
    ∃ h1 a1 m1, shadow_collapse 3 absorbHeap 2 = .ok h1 ∧
      h1.live 2 = some a1 ∧ a1.shadowed = some 0 ∧ a1.bottom_mobj = some 0 ∧
      h1.objs[1]? = some m1 ∧ m1.mo_refcount = 0 ∧ m1.freed = true ∧ h1.live 1 = none :=
  collapse_absorbs_sole_owned absorbHeap 2 1 0
    (mkObj .MOBJ_SHADOW 1 [] (some 1) (some 0))
    (mkObj .MOBJ_SHADOW 1 [⟨0, [7]⟩] (some 0) (some 0))
    (mkObj .MOBJ_OTHER 3 [] none none) 3
    rfl rfl rfl rfl rfl rfl rfl rfl rfl (by decide) (by decide) (by decide)

/-! ## Page caches -/

theorem list_set_self {α : Type} {l : List α} {i : Nat} {a : α} (h : l[i]? = some a) :
    l.set i a = l := by
  induction l generalizing i with
  | nil => simp at h
  | cons x xs ih =>
    cases i with
    | zero =>
      simp at h
      subst h
      rfl
    | succ j =>
      simp at h
      simp [ih h]

theorem eraseIdx_concat_length {α : Type} (l : List α) (a : α) :
    (l ++ [a]).eraseIdx l.length = l := by
  rw [List.eraseIdx_append_of_length_le (Nat.le_refl _)]
  simp

theorem find_pframe_some {l : List Pframe} {P i : Nat} (h : find_pframe l P = some i) :
    ∃ f, l[i]? = some f ∧ f.pf_pagenum = P := by
  induction l generalizing i with
  | nil => simp [find_pframe] at h
  | cons g gs ih =>
    by_cases hg : g.pf_pagenum = P
    · simp [find_pframe, hg] at h
      subst h
      exact ⟨g, by simp, hg⟩
    · cases hr : find_pframe gs P with
      | none => simp [find_pframe, hg, hr] at h
      | some j =>
        simp [find_pframe, hg, hr] at h
        subst h
        obtain ⟨f, hf1, hf2⟩ := ih hr
        exact ⟨f, by simpa using hf1, hf2⟩

theorem find_pframe_append_some {l : List Pframe} {P i : Nat} (l2 : List Pframe)
    (h : find_pframe l P = some i) : find_pframe (l ++ l2) P = some i := by
  induction l generalizing i with
  | nil => simp [find_pframe] at h
  | cons g gs ih =>
    by_cases hg : g.pf_pagenum = P
    · simp [find_pframe, hg] at h ⊢
      exact h
    · cases hr : find_pframe gs P with
      | none => simp [find_pframe, hg, hr] at h
      | some j =>
        simp [find_pframe, hg, hr] at h
        subst h
        simp [find_pframe, hg, ih hr]

theorem find_pframe_append_none {l : List Pframe} {P : Nat} (c : List Nat)
    (h : find_pframe l P = none) : find_pframe (l ++ [⟨P, c⟩]) P = some l.length := by
  induction l with
  | nil => simp [find_pframe]
  | cons g gs ih =>
    by_cases hg : g.pf_pagenum = P
    · simp [find_pframe, hg] at h
    · cases hr : find_pframe gs P with
      | none => simp [find_pframe, hg, ih hr]
      | some j => simp [find_pframe, hg, hr] at h

theorem find_pframe_set_addr {l : List Pframe} {i : Nat} {f : Pframe} (P : Nat) (c : List Nat)
    (h : l[i]? = some f) : find_pframe (l.set i { f with pf_addr := c }) P = find_pframe l P := by
  induction l generalizing i with
  | nil => simp
  | cons g gs ih =>
    cases i with
    | zero =>
      simp at h
      subst h
      simp [find_pframe]
    | succ j =>
      simp at h
      simp [find_pframe, ih h]

/-- The fetch of a non-shadow object, case by case: a cached frame is returned;
otherwise, when the allocation and the read of the backing store succeed, a
frame with the stored content is put at the tail of the cache; otherwise the
failing status is returned and memory is as before. -/
theorem other_get_pframe_eq (E : Ext) (h : Heap) (b P : Nat) (fw : Bool) (bo : Mobj)
    (hb : h.live b = some bo) :
    other_get_pframe E h b P fw =
      match find_pframe bo.mo_pframes P with
      | some i => .ok ⟨0, some ⟨b, i⟩, h⟩
      | none =>
        if E.page_alloc b P ≠ 0 then .ok ⟨E.page_alloc b P, none, h⟩
        else if (E.backing b P).1 = 0 then
          .ok ⟨0, some ⟨b, bo.mo_pframes.length⟩,
            h.setObj b { bo with mo_pframes := bo.mo_pframes ++ [⟨P, (E.backing b P).2⟩] }⟩
        else .ok ⟨(E.backing b P).1, none, h⟩ := by
  have lb : liveIn h.objs b = some bo := hb
  have ltb := liveIn_lt lb
  have fb := (liveIn_get lb).2
  have gb := (liveIn_get lb).1
  obtain ⟨ty, rc, pfs, sh, bt, fr⟩ := bo
  simp only at fb
  subst fb
  unfold other_get_pframe mobj_default_get_pframe
  simp only [Heap.live, lb]
  cases hfind : find_pframe pfs P with
  | some i => rfl
  | none =>
    by_cases ha : E.page_alloc b P = 0
    · by_cases hs : (E.backing b P).1 = 0
      · simp [ha, hs, other_fill_pframe, Heap.frameAt, Heap.live, Heap.setObj, liveIn_set_same, ltb,
          Heap.writeFrame]
      · have hset := list_set_self gb
        simp [ha, hs, other_fill_pframe, Heap.frameAt, Heap.live, Heap.setObj, liveIn_set_same, ltb,
          hset, eraseIdx_concat_length]
    · simp [ha]

/-! ## Chains -/

theorem IsChain_congr {h h1 : Heap} (e : h1.objs = h.objs) :
    ∀ (l : List Nat) (cur : Option Nat) (b : Nat), IsChain h cur l b → IsChain h1 cur l b := by
  intro l
  induction l with
  | nil =>
    intro cur b hc
    simpa [IsChain, Heap.live, e] using hc
  | cons x l ih =>
    intro cur b hc
    obtain ⟨h1c, xo, hx, hty, hrest⟩ := hc
    exact ⟨h1c, xo, by simpa [Heap.live, e] using hx, hty, ih _ _ hrest⟩

theorem firstCaching_congr {h h1 : Heap} (e : h1.objs = h.objs) (P : Nat) :
    ∀ (l : List Nat), firstCaching h1 P l = firstCaching h P l := by
  intro l
  induction l with
  | nil => rfl
  | cons x l ih => simp [firstCaching, Heap.live, e, ih]

theorem frameAt_congr {h h1 : Heap} (e : h1.objs = h.objs) (pf : PfRef) :
    h1.frameAt pf = h.frameAt pf := by
  simp [Heap.frameAt, Heap.live, e]

theorem IsChain_det {h : Heap} :
    ∀ (l l2 : List Nat) (cur : Option Nat) (b b2 : Nat),
      IsChain h cur l b → IsChain h cur l2 b2 → l = l2 ∧ b = b2 := by
  intro l
  induction l with
  | nil =>
    intro l2 cur b b2 h1 h2
    obtain ⟨hc, bo, hb, hty⟩ := h1
    cases l2 with
    | nil =>
      obtain ⟨hc2, _⟩ := h2
      rw [hc] at hc2
      exact ⟨rfl, by simpa using hc2⟩
    | cons y l2 =>
      obtain ⟨hc2, yo, hy, hty2, _⟩ := h2
      rw [hc] at hc2
      cases hc2
      rw [hb] at hy
      cases hy
      exact absurd hty2 hty
  | cons x l ih =>
    intro l2 cur b b2 h1 h2
    obtain ⟨hc, xo, hx, hty, hrest⟩ := h1
    cases l2 with
    | nil =>
      obtain ⟨hc2, bo, hb, hty2⟩ := h2
      rw [hc] at hc2
      cases hc2
      rw [hx] at hb
      cases hb
      exact absurd hty hty2
    | cons y l2 =>
      obtain ⟨hc2, yo, hy, _, hrest2⟩ := h2
      rw [hc] at hc2
      cases hc2
      rw [hx] at hy
      cases hy
      obtain ⟨e1, e2⟩ := ih _ _ _ _ hrest hrest2
      exact ⟨by rw [e1], e2⟩

theorem IsChain_suffix {h : Heap} :
    ∀ (l1 : List Nat) (x : Nat) (l2 : List Nat) (cur : Option Nat) (b : Nat),
      IsChain h cur (l1 ++ x :: l2) b → IsChain h (some x) (x :: l2) b := by
  intro l1
  induction l1 with
  | nil =>
    intro x l2 cur b hc
    obtain ⟨_, xo, hx, hty, hrest⟩ := hc
    exact ⟨rfl, xo, hx, hty, hrest⟩
  | cons y l1 ih =>
    intro x l2 cur b hc
    obtain ⟨_, yo, _, _, hrest⟩ := hc
    exact ih _ _ _ _ hrest

/-- A chain that ends is acyclic: its first object does not occur again. -/
theorem IsChain_head_not_mem {h : Heap} {x : Nat} {l : List Nat} {b : Nat}
    (hc : IsChain h (some x) (x :: l) b) : x ∉ l := by
  intro hmem
  obtain ⟨l1, l2, rfl⟩ := List.append_of_mem hmem
  have h2 : IsChain h (some x) (x :: l2) b := by
    obtain ⟨_, xo, _, _, hrest⟩ := hc
    exact IsChain_suffix _ _ _ _ _ hrest
  have h3 := (IsChain_det _ _ _ _ _ hc h2).1
  have h4 := congrArg List.length h3
  simp at h4
  omega

theorem IsChain_not_self {h : Heap} {x : Nat} {l : List Nat} {b : Nat} {xo : Mobj}
    (hc : IsChain h (some x) (x :: l) b) (hx : h.live x = some xo) : xo.shadowed ≠ some x := by
  intro hs
  have hnm := IsChain_head_not_mem hc
  obtain ⟨_, xo2, hx2, _, hrest⟩ := hc
  rw [hx] at hx2
  cases hx2
  rw [hs] at hrest
  cases l with
  | nil =>
    obtain ⟨hcb, bo, hb, hty⟩ := hrest
    cases hcb
    rw [hx] at hb
    cases hb
    contradiction
  | cons y l =>
    obtain ⟨hcy, _⟩ := hrest
    cases hcy
    exact hnm (List.mem_cons_self _ _)

theorem IsChain_mem_shadow {h : Heap} :
    ∀ (l : List Nat) (cur : Option Nat) (b x : Nat), IsChain h cur l b → x ∈ l →
      ∃ xo, h.live x = some xo ∧ xo.mo_type = .MOBJ_SHADOW := by
  intro l
  induction l with
  | nil => intro cur b x _ hx; simp at hx
  | cons y l ih =>
    intro cur b x hc hx
    obtain ⟨_, yo, hy, hty, hrest⟩ := hc
    rcases List.mem_cons.1 hx with rfl | hx2
    · exact ⟨yo, hy, hty⟩
    · exact ih _ _ _ hrest hx2

theorem IsChain_bottom {h : Heap} :
    ∀ (l : List Nat) (cur : Option Nat) (b : Nat), IsChain h cur l b →
      ∃ bo, h.live b = some bo ∧ bo.mo_type ≠ .MOBJ_SHADOW := by
  intro l
  induction l with
  | nil => intro cur b hc; exact hc.2
  | cons y l ih =>
    intro cur b hc
    obtain ⟨_, yo, _, _, hrest⟩ := hc
    exact ih _ _ hrest

theorem IsChain_bottom_not_mem {h : Heap} {l : List Nat} {cur : Option Nat} {b : Nat}
    (hc : IsChain h cur l b) : b ∉ l := by
  intro hmem
  obtain ⟨xo, hx, hty⟩ := IsChain_mem_shadow _ _ _ _ hc hmem
  obtain ⟨bo, hb, hty2⟩ := IsChain_bottom _ _ _ hc
  rw [hx] at hb
  cases hb
  exact hty2 hty

/-! ## The chain walks -/

theorem live_congr {h h1 : Heap} (e : h1.objs = h.objs) (x : Nat) : h1.live x = h.live x := by
  simp [Heap.live, e]

/-- The fetch of a non-shadow object always returns, and what it returns depends
on the object table only, not on the locks. -/
theorem other_get_congr (E : Ext) (h h1 : Heap) (b P : Nat) (fw : Bool) (bo : Mobj)
    (e : h1.objs = h.objs) (hb : h.live b = some bo) :
    ∃ r r1, other_get_pframe E h b P fw = .ok r ∧ other_get_pframe E h1 b P fw = .ok r1 ∧
      r1.status = r.status ∧ r1.pfp = r.pfp ∧ r1.heap.objs = r.heap.objs ∧
      r1.heap.held = h1.held ∧ ∃ bo1, r1.heap.live b = some bo1 := by
  have hb1 : h1.live b = some bo := by rw [live_congr e]; exact hb
  have lb : liveIn h.objs b = some bo := hb
  have ltb := liveIn_lt lb
  have fb := (liveIn_get lb).2
  rw [other_get_pframe_eq E h b P fw bo hb, other_get_pframe_eq E h1 b P fw bo hb1]
  have lb1 : liveIn h1.objs b = some bo := hb1
  cases hfind : find_pframe bo.mo_pframes P with
  | some i => exact ⟨_, _, rfl, rfl, rfl, rfl, e, rfl, bo, hb1⟩
  | none =>
    by_cases ha : E.page_alloc b P = 0
    · by_cases hs : (E.backing b P).1 = 0
      · simp [ha, hs, Heap.setObj, e, Heap.live, liveIn_set_same, ltb, fb]
      · simp [ha, hs, Heap.setObj, e, Heap.live, lb]
    · simp [ha, Heap.setObj, e, Heap.live, lb]

/-- The read walk along a chain that ends: it returns the frame of the first
shadow object of the chain that caches the page, leaving the object table as it
was; when none caches it, it returns what the fetch of the bottom object
returns, and the object table that fetch leaves. -/
theorem get_walk_chain (E : Ext) (P : Nat) :
    ∀ (l : List Nat) (h : Heap) (cur : Option Nat) (b fuel : Nat),
      IsChain h cur l b → l.length < fuel →
      (∀ pf, firstCaching h P l = some pf →
        ∃ h1, get_walk E P fuel h cur = .ok ⟨0, some pf, h1⟩ ∧ h1.objs = h.objs) ∧
      (firstCaching h P l = none →
        ∃ r h1, other_get_pframe E h b P false = .ok r ∧
          get_walk E P fuel h cur = .ok ⟨r.status, r.pfp, h1⟩ ∧ h1.objs = r.heap.objs) := by
  intro l
  induction l with
  | nil =>
    intro h cur b fuel hc hfuel
    obtain ⟨hcur, bo, hb, hty⟩ := hc
    subst hcur
    obtain ⟨n, rfl⟩ : ∃ n, fuel = n + 1 := ⟨fuel - 1, by simp at hfuel; omega⟩
    refine ⟨fun pf hpf => by simp [firstCaching] at hpf, fun _ => ?_⟩
    have lb : liveIn h.objs b = some bo := hb
    obtain ⟨r, r1, hr, hr1, hst, hpfp, hobjs, _, bo1, hlive1⟩ := other_get_congr E h
      { h with held := if b ∈ h.held then h.held else b :: h.held,
               locklog := h.locklog ++ [LockEv.acquire b] } b P false bo rfl hb
    have lb1 : liveIn r1.heap.objs b = some bo1 := hlive1
    refine ⟨r, { r1.heap with held := r1.heap.held.filter (fun x => x ≠ b),
                              locklog := r1.heap.locklog ++ [LockEv.release b] }, hr, ?_, hobjs⟩
    simp only [get_walk, Heap.live, lb, hty, if_false, mobj_lock, hr1, mobj_unlock, lb1, hst, hpfp]
  | cons x l ih =>
    intro h cur b fuel hc hfuel
    have hns := fun xo hx => @IsChain_not_self h x l b xo (by
      obtain ⟨hcur, rest⟩ := hc
      exact ⟨rfl, rest⟩) hx
    obtain ⟨hcur, xo, hx, hty, hrest⟩ := hc
    subst hcur
    obtain ⟨n, rfl⟩ : ∃ n, fuel = n + 1 := ⟨fuel - 1, by simp at hfuel; omega⟩
    have hn : l.length < n := by simp at hfuel; omega
    have lx : liveIn h.objs x = some xo := hx
    have hself := hns xo hx
    obtain ⟨hk, hkdef⟩ : ∃ hk : Heap, hk =
        { h with held := (if x ∈ h.held then h.held else x :: h.held).filter (fun y => y ≠ x),
                 locklog := h.locklog ++ [LockEv.acquire x] ++ [LockEv.release x] } := ⟨_, rfl⟩
    have ek : hk.objs = h.objs := by rw [hkdef]
    have hih := ih hk xo.shadowed b n (IsChain_congr ek _ _ _ hrest) hn
    rw [firstCaching_congr ek] at hih
    have hstep : ∀ i, find_pframe xo.mo_pframes P = some i →
        get_walk E P (n + 1) h (some x) = .ok ⟨0, some ⟨x, i⟩, hk⟩ := by
      intro i hi
      simp only [get_walk, Heap.live, lx, hty, if_true, mobj_lock, mobj_unlock, hi, hkdef]
    have hnext : find_pframe xo.mo_pframes P = none →
        get_walk E P (n + 1) h (some x) = get_walk E P n hk xo.shadowed := by
      intro hi
      simp only [get_walk, Heap.live, lx, hty, if_true, mobj_lock, mobj_unlock, hi, hself,
        if_false, hkdef]
    cases hfind : find_pframe xo.mo_pframes P with
    | some i =>
      refine ⟨fun pf hpf => ?_, fun hnone => ?_⟩
      · simp [firstCaching, hx, hfind] at hpf
        subst hpf
        exact ⟨hk, hstep i hfind, ek⟩
      · simp [firstCaching, hx, hfind] at hnone
    | none =>
      rw [hnext hfind]
      refine ⟨fun pf hpf => ?_, fun hnone => ?_⟩
      · have hpf2 : firstCaching h P l = some pf := by
          simpa [firstCaching, hx, hfind] using hpf
        obtain ⟨h1, hw, hobjs⟩ := hih.1 pf hpf2
        exact ⟨h1, hw, by rw [hobjs, ek]⟩
      · have hnone2 : firstCaching h P l = none := by
          simpa [firstCaching, hx, hfind] using hnone
        obtain ⟨r, h1, hr, hw, hobjs⟩ := hih.2 hnone2
        obtain ⟨bo, hb, _⟩ := IsChain_bottom _ _ _ hrest
        obtain ⟨r0, r1, hr0, hr1, hst, hpfp, ho, _⟩ := other_get_congr E h hk b P false bo ek hb
        rw [hr] at hr1
        cases hr1
        exact ⟨r0, h1, hr0, by rw [hw, hst, hpfp], by rw [hobjs, ho]⟩

theorem writeFrame_held (h : Heap) (pf : PfRef) (c : List Nat) :
    (h.writeFrame pf c).held = h.held := by
  unfold Heap.writeFrame
  cases h.objs[pf.obj]? with
  | none => rfl
  | some o =>
    simp only
    cases o.mo_pframes[pf.idx]? with
    | none => rfl
    | some f => rfl

theorem writeFrame_objs_congr {h h1 : Heap} (e : h1.objs = h.objs) (pf : PfRef) (c : List Nat) :
    (h1.writeFrame pf c).objs = (h.writeFrame pf c).objs := by
  unfold Heap.writeFrame
  rw [e]
  cases h.objs[pf.obj]? with
  | none => exact e
  | some o =>
    simp only
    cases o.mo_pframes[pf.idx]? with
    | none => exact e
    | some f => simp [Heap.setObj, e]

/-- A successful fetch of a non-shadow object returns a frame of that object
for the page asked for. -/
theorem other_get_ok_frame (E : Ext) (h : Heap) (b P : Nat) (fw : Bool) (bo : Mobj) (r : GetRes)
    (hb : h.live b = some bo) (hr : other_get_pframe E h b P fw = .ok r) (hst : r.status = 0) :
    ∃ src g, r.pfp = some src ∧ src.obj = b ∧ r.heap.frameAt src = some g ∧ g.pf_pagenum = P := by
  have lb : liveIn h.objs b = some bo := hb
  have ltb := liveIn_lt lb
  have fb := (liveIn_get lb).2
  rw [other_get_pframe_eq E h b P fw bo hb] at hr
  cases hfind : find_pframe bo.mo_pframes P with
  | some i =>
    simp only [hfind] at hr
    cases hr
    obtain ⟨g, hg1, hg2⟩ := find_pframe_some hfind
    exact ⟨⟨b, i⟩, g, rfl, rfl, by simp [Heap.frameAt, hb, hg1], hg2⟩
  | none =>
    simp only [hfind] at hr
    by_cases ha : E.page_alloc b P = 0
    · by_cases hs : (E.backing b P).1 = 0
      · simp only [ha, hs, ne_eq, not_true_eq_false, if_false, if_true] at hr
        cases hr
        exact ⟨⟨b, bo.mo_pframes.length⟩, ⟨P, (E.backing b P).2⟩, rfl, rfl,
          by simp [Heap.frameAt, Heap.live, Heap.setObj, liveIn_set_same, ltb, fb], rfl⟩
      · simp only [ha, hs, ne_eq, not_true_eq_false, if_false] at hr
        cases hr
        exact absurd hst hs
    · simp only [ha, ne_eq, not_false_eq_true, if_true] at hr
      cases hr
      exact absurd hst ha

/-- The fill walk along a chain that ends: the target frame receives the content
of the frame of the first shadow object of the chain that caches the page, or,
when none does, of the frame that the fetch of the bottom object returns; a
failed fetch leaves the object table that fetch left. Locks held on objects off
the chain stay held. -/
theorem fill_walk_chain (E : Ext) (pf : PfRef) (P : Nat) :
    ∀ (l : List Nat) (h : Heap) (cur : Option Nat) (b fuel : Nat),
      IsChain h cur l b → l.length < fuel →
      (∀ src, firstCaching h P l = some src →
        ∃ g h1, h.frameAt src = some g ∧ fill_walk E pf P fuel h cur = .ok (0, h1) ∧
          h1.objs = (h.writeFrame pf g.pf_addr).objs ∧
          (∀ y ∈ h.held, y ∉ l → y ≠ b → y ∈ h1.held)) ∧
      (firstCaching h P l = none →
        ∃ r h1, other_get_pframe E h b P false = .ok r ∧
          fill_walk E pf P fuel h cur = .ok (r.status, h1) ∧
          (r.status ≠ 0 → h1.objs = r.heap.objs) ∧
          (r.status = 0 → ∃ src g, r.pfp = some src ∧ r.heap.frameAt src = some g ∧
            h1.objs = (r.heap.writeFrame pf g.pf_addr).objs) ∧
          (∀ y ∈ h.held, y ∉ l → y ≠ b → y ∈ h1.held)) := by
  intro l
  induction l with
  | nil =>
    intro h cur b fuel hc hfuel
    obtain ⟨hcur, bo, hb, hty⟩ := hc
    subst hcur
    obtain ⟨n, rfl⟩ : ∃ n, fuel = n + 1 := ⟨fuel - 1, by simp at hfuel; omega⟩
    refine ⟨fun pf hpf => by simp [firstCaching] at hpf, fun _ => ?_⟩
    have lb : liveIn h.objs b = some bo := hb
    obtain ⟨hk, hkdef⟩ : ∃ hk : Heap, hk =
        { h with held := if b ∈ h.held then h.held else b :: h.held,
                 locklog := h.locklog ++ [LockEv.acquire b] } := ⟨_, rfl⟩
    have ek : hk.objs = h.objs := by rw [hkdef]
    have hbk : hk.live b = some bo := by rw [live_congr ek]; exact hb
    obtain ⟨r, r1, hr, hr1, hst, hpfp, hobjs, hheld1, bo1, hlive1⟩ :=
      other_get_congr E h hk b P false bo ek hb
    have lb1 : liveIn r1.heap.objs b = some bo1 := hlive1
    obtain ⟨hu, hudef⟩ : ∃ hu : Heap, hu =
        { r1.heap with held := r1.heap.held.filter (fun x => x ≠ b),
                       locklog := r1.heap.locklog ++ [LockEv.release b] } := ⟨_, rfl⟩
    have eu : hu.objs = r.heap.objs := by rw [hudef]; exact hobjs
    have hheldu : ∀ y ∈ h.held, y ≠ b → y ∈ hu.held := by
      intro y hy hyb
      rw [hudef]
      simp only [hheld1, hkdef, List.mem_filter]
      refine ⟨?_, by simpa using hyb⟩
      by_cases hbh : b ∈ h.held
      · simpa [hbh] using hy
      · simp [hbh, hy]
    by_cases hs0 : r.status = 0
    · have hs1 : r1.status = 0 := by rw [hst]; exact hs0
      obtain ⟨src, g, hsrc, _, hg, _⟩ := other_get_ok_frame E hk b P false bo r1 hbk hr1 hs1
      have hgu : hu.frameAt src = some g := by
        rw [frameAt_congr (h := r1.heap) (by rw [hudef])]; exact hg
      have hgr : r.heap.frameAt src = some g := by
        rw [← frameAt_congr (h := r.heap) eu]; exact hgu
      refine ⟨r, pframe_release (hu.writeFrame pf g.pf_addr) src, hr, ?_, fun hne => absurd hs0 hne,
        fun _ => ⟨src, g, by rw [← hpfp]; exact hsrc, hgr, ?_⟩, ?_⟩
      · simp only [fill_walk, Heap.live, lb, hty, if_false, mobj_lock, ← hkdef, hr1, mobj_unlock,
          lb1, ← hudef, hs1, if_true, hsrc, hgu, hs0]
      · exact writeFrame_objs_congr eu _ _
      · intro y hy _ hyb
        simp only [pframe_release, writeFrame_held]
        exact hheldu y hy hyb
    · have hs1 : ¬ r1.status = 0 := by rw [hst]; exact hs0
      refine ⟨r, hu, hr, ?_, fun _ => eu, fun h0 => absurd h0 hs0, fun y hy _ hyb => hheldu y hy hyb⟩
      simp only [fill_walk, Heap.live, lb, hty, if_false, mobj_lock, ← hkdef, hr1, mobj_unlock,
        lb1, ← hudef, hs1, hst, hs0]
  | cons x l ih =>
    intro h cur b fuel hc hfuel
    obtain ⟨hcur, xo, hx, hty, hrest⟩ := hc
    subst hcur
    obtain ⟨n, rfl⟩ : ∃ n, fuel = n + 1 := ⟨fuel - 1, by simp at hfuel; omega⟩
    have hn : l.length < n := by simp at hfuel; omega
    have lx : liveIn h.objs x = some xo := hx
    obtain ⟨hk, hkdef⟩ : ∃ hk : Heap, hk =
        { h with held := (if x ∈ h.held then h.held else x :: h.held).filter (fun y => y ≠ x),
                 locklog := h.locklog ++ [LockEv.acquire x] ++ [LockEv.release x] } := ⟨_, rfl⟩
    have ek : hk.objs = h.objs := by rw [hkdef]
    have hheldk : ∀ y ∈ h.held, y ≠ x → y ∈ hk.held := by
      intro y hy hyx
      rw [hkdef]
      simp only [List.mem_filter]
      refine ⟨?_, by simpa using hyx⟩
      by_cases hxh : x ∈ h.held
      · simpa [hxh] using hy
      · simp [hxh, hy]
    have hih := ih hk xo.shadowed b n (IsChain_congr ek _ _ _ hrest) hn
    rw [firstCaching_congr ek] at hih
    have hstep : ∀ i g, find_pframe xo.mo_pframes P = some i → h.frameAt ⟨x, i⟩ = some g →
        fill_walk E pf P (n + 1) h (some x)
          = .ok (0, pframe_release (hk.writeFrame pf g.pf_addr) ⟨x, i⟩) := by
      intro i g hi hg
      have hgk : hk.frameAt ⟨x, i⟩ = some g := by rw [frameAt_congr ek]; exact hg
      simp only [fill_walk, Heap.live, lx, hty, if_true, mobj_lock, mobj_unlock, hi, ← hkdef, hgk]
    have hnext : find_pframe xo.mo_pframes P = none →
        fill_walk E pf P (n + 1) h (some x) = fill_walk E pf P n hk xo.shadowed := by
      intro hi
      simp only [fill_walk, Heap.live, lx, hty, if_true, mobj_lock, mobj_unlock, hi, hkdef]
    cases hfind : find_pframe xo.mo_pframes P with
    | some i =>
      refine ⟨fun src hsrc => ?_, fun hnone => ?_⟩
      · simp [firstCaching, hx, hfind] at hsrc
        subst hsrc
        obtain ⟨g, hg1, _⟩ := find_pframe_some hfind
        have hg : h.frameAt ⟨x, i⟩ = some g := by simp [Heap.frameAt, hx, hg1]
        refine ⟨g, _, hg, hstep i g hfind hg, writeFrame_objs_congr ek _ _, ?_⟩
        intro y hy hyl _
        simp only [pframe_release, writeFrame_held]
        exact hheldk y hy (fun e => hyl (by rw [e]; exact List.mem_cons_self _ _))
      · simp [firstCaching, hx, hfind] at hnone
    | none =>
      rw [hnext hfind]
      refine ⟨fun src hsrc => ?_, fun hnone => ?_⟩
      · have hsrc2 : firstCaching h P l = some src := by
          simpa [firstCaching, hx, hfind] using hsrc
        obtain ⟨g, h1, hg, hw, hobjs, hheld⟩ := hih.1 src hsrc2
        refine ⟨g, h1, by rw [← frameAt_congr ek]; exact hg, hw,
          by rw [hobjs]; exact writeFrame_objs_congr ek _ _, ?_⟩
        intro y hy hyl hyb
        exact hheld y (hheldk y hy (fun e => hyl (by rw [e]; exact List.mem_cons_self _ _)))
          (fun hm => hyl (List.mem_cons_of_mem _ hm)) hyb
      · have hnone2 : firstCaching h P l = none := by
          simpa [firstCaching, hx, hfind] using hnone
        obtain ⟨r, h1, hr, hw, hfail, hok, hheld⟩ := hih.2 hnone2
        obtain ⟨bo, hb, _⟩ := IsChain_bottom _ _ _ hrest
        obtain ⟨r0, r1, hr0, hr1, hst, hpfp, ho, _⟩ := other_get_congr E h hk b P false bo ek hb
        rw [hr] at hr1
        cases hr1
        refine ⟨r0, h1, hr0, by rw [hw, hst], ?_, ?_, ?_⟩
        · intro hne
          rw [hfail (by rw [hst]; exact hne), ho]
        · intro h0
          obtain ⟨src, g, hsrc, hg, hobjs⟩ := hok (by rw [hst]; exact h0)
          exact ⟨src, g, by rw [← hpfp]; exact hsrc, by rw [← frameAt_congr ho]; exact hg,
            by rw [hobjs]; exact writeFrame_objs_congr ho _ _⟩
        · intro y hy hyl hyb
          exact hheld y (hheldk y hy (fun e => hyl (by rw [e]; exact List.mem_cons_self _ _)))
            (fun hm => hyl (List.mem_cons_of_mem _ hm)) hyb

theorem frameAt_writeFrame_same {h : Heap} {pf : PfRef} {f : Pframe} (c : List Nat)
    (hf : h.frameAt pf = some f) :
    (h.writeFrame pf c).frameAt pf = some ⟨f.pf_pagenum, c⟩ := by
  unfold Heap.frameAt at hf
  cases hl : h.live pf.obj with
  | none => simp [hl] at hf
  | some o =>
    simp only [hl] at hf
    have lo : liveIn h.objs pf.obj = some o := hl
    have hg := (liveIn_get lo).1
    have hfr := (liveIn_get lo).2
    have hlt := liveIn_lt lo
    have hilt : pf.idx < o.mo_pframes.length := (List.getElem?_eq_some.1 hf).1
    simp [Heap.writeFrame, hg, hf, Heap.frameAt, Heap.live, Heap.setObj, liveIn_set_same, hlt,
      hfr, hilt]

theorem live_writeFrame_ne {h : Heap} {pf : PfRef} (c : List Nat) {x : Nat} (hx : x ≠ pf.obj) :
    (h.writeFrame pf c).live x = h.live x := by
  unfold Heap.writeFrame
  cases h.objs[pf.obj]? with
  | none => rfl
  | some o =>
    simp only
    cases o.mo_pframes[pf.idx]? with
    | none => rfl
    | some f => simp [Heap.live, Heap.setObj, liveIn_set_ne _ (Ne.symm hx)]

theorem frameAt_writeFrame_ne {h : Heap} {pf src : PfRef} (c : List Nat)
    (hx : src.obj ≠ pf.obj) : (h.writeFrame pf c).frameAt src = h.frameAt src := by
  simp [Heap.frameAt, live_writeFrame_ne c hx]

/-- A store to a frame changes the cache of the frame's object only, and there
only the content of that frame: every other field of every object is as
before. -/
theorem live_writeFrame {h : Heap} (pf : PfRef) (c : List Nat) {x : Nat} {xo : Mobj}
    (hx : h.live x = some xo) :
    ∃ xo1, (h.writeFrame pf c).live x = some xo1 ∧ xo1.mo_type = xo.mo_type ∧
      xo1.shadowed = xo.shadowed ∧ xo1.bottom_mobj = xo.bottom_mobj ∧
      xo1.mo_refcount = xo.mo_refcount ∧
      xo1.mo_pframes.map (fun f => f.pf_pagenum) = xo.mo_pframes.map (fun f => f.pf_pagenum) ∧
      (x ≠ pf.obj → xo1 = xo) := by
  by_cases hxp : x = pf.obj
  · subst hxp
    have lo : liveIn h.objs pf.obj = some xo := hx
    have hg := (liveIn_get lo).1
    have hfr := (liveIn_get lo).2
    have hlt := liveIn_lt lo
    cases hf : xo.mo_pframes[pf.idx]? with
    | none => exact ⟨xo, by simp [Heap.writeFrame, hg, hf, hx], rfl, rfl, rfl, rfl, rfl, fun _ => rfl⟩
    | some f =>
      refine ⟨{ xo with mo_pframes := xo.mo_pframes.set pf.idx { f with pf_addr := c } }, ?_, rfl,
        rfl, rfl, rfl, ?_, fun hne => absurd rfl hne⟩
      · simp [Heap.writeFrame, hg, hf, Heap.live, Heap.setObj, liveIn_set_same, hlt, hfr]
      · apply List.ext_getElem? 
        intro n
        by_cases hn : pf.idx = n
        · subst hn
          obtain ⟨hilt, hfe⟩ := List.getElem?_eq_some.1 hf
          simp [hf, hilt, hfe]
        · simp [List.getElem?_set_ne hn]
  · exact ⟨xo, by rw [live_writeFrame_ne c hxp]; exact hx, rfl, rfl, rfl, rfl, rfl, fun _ => rfl⟩

/-- The fetch of a non-shadow object touches no other object, and of the object
itself only the cache. -/
theorem other_get_live (E : Ext) (h : Heap) (b P : Nat) (fw : Bool) (bo : Mobj) (r : GetRes)
    (hb : h.live b = some bo) (hr : other_get_pframe E h b P fw = .ok r) :
    (∀ x, x ≠ b → r.heap.live x = h.live x) ∧
    ∃ bo1, r.heap.live b = some bo1 ∧ bo1.mo_type = bo.mo_type ∧ bo1.shadowed = bo.shadowed ∧
      bo1.bottom_mobj = bo.bottom_mobj ∧ bo1.mo_refcount = bo.mo_refcount := by
  have lb : liveIn h.objs b = some bo := hb
  have ltb := liveIn_lt lb
  have fb := (liveIn_get lb).2
  rw [other_get_pframe_eq E h b P fw bo hb] at hr
  cases hfind : find_pframe bo.mo_pframes P with
  | some i =>
    simp only [hfind] at hr
    cases hr
    exact ⟨fun _ _ => rfl, bo, hb, rfl, rfl, rfl, rfl⟩
  | none =>
    simp only [hfind] at hr
    by_cases ha : E.page_alloc b P = 0
    · by_cases hs : (E.backing b P).1 = 0
      · simp only [ha, hs, ne_eq, not_true_eq_false, if_false, if_true] at hr
        cases hr
        refine ⟨fun x hx => ?_,
          { bo with mo_pframes := bo.mo_pframes ++ [⟨P, (E.backing b P).2⟩] }, ?_, rfl, rfl, rfl, rfl⟩
        · simp [Heap.live, Heap.setObj, liveIn_set_ne _ (Ne.symm hx)]
        · simp [Heap.live, Heap.setObj, liveIn_set_same, ltb, fb]
      · simp only [ha, hs, ne_eq, not_true_eq_false, if_false] at hr
        cases hr
        exact ⟨fun _ _ => rfl, bo, hb, rfl, rfl, rfl, rfl⟩
    · simp only [ha, ne_eq, not_false_eq_true, if_true] at hr
      cases hr
      exact ⟨fun _ _ => rfl, bo, hb, rfl, rfl, rfl, rfl⟩

theorem firstCaching_mem {h : Heap} {P : Nat} :
    ∀ (l : List Nat) (pf : PfRef), firstCaching h P l = some pf →
      pf.obj ∈ l ∧ ∃ xo, h.live pf.obj = some xo ∧ find_pframe xo.mo_pframes P = some pf.idx := by
  intro l
  induction l with
  | nil => intro pf hpf; simp [firstCaching] at hpf
  | cons x l ih =>
    intro pf hpf
    unfold firstCaching at hpf
    cases hx : h.live x with
    | none =>
      simp only [hx] at hpf
      obtain ⟨h1, h2⟩ := ih pf hpf
      exact ⟨List.mem_cons_of_mem _ h1, h2⟩
    | some xo =>
      simp only [hx] at hpf
      cases hfind : find_pframe xo.mo_pframes P with
      | none =>
        simp only [hfind] at hpf
        obtain ⟨h1, h2⟩ := ih pf hpf
        exact ⟨List.mem_cons_of_mem _ h1, h2⟩
      | some i =>
        simp only [hfind] at hpf
        cases hpf
        exact ⟨List.mem_cons_self _ _, xo, hx, hfind⟩

theorem content_congr {r r1 : GetRes} (hp : r1.pfp = r.pfp) (ho : r1.heap.objs = r.heap.objs) :
    r1.content = r.content := by
  unfold GetRes.content
  rw [hp]
  cases r.pfp with
  | none => rfl
  | some pf => simp only [frameAt_congr ho]

/-- The read branch of `shadow_get_pframe` on a shadow object whose chain ends:
the frame of the first object of the chain, the object itself included, that
caches the page; otherwise what the fetch of the bottom object returns. -/
theorem shadow_get_read_chain (E : Ext) (h : Heap) (o : Nat) (l : List Nat) (b P fuel : Nat)
    (so : Mobj) (bt : Nat) (bto : Mobj)
    (hc : IsChain h (some o) (o :: l) b) (hso : h.live o = some so)
    (hbm : so.bottom_mobj = some bt) (hbt : h.live bt = some bto)
    (hbty : bto.mo_type ≠ .MOBJ_SHADOW) (hheld : o ∈ h.held) (hfuel : l.length < fuel) :
    (∀ pf, firstCaching h P (o :: l) = some pf →
      ∃ h1, shadow_get_pframe fuel E h o P false = .ok ⟨0, some pf, h1⟩ ∧ h1.objs = h.objs) ∧
    (firstCaching h P (o :: l) = none →
      ∃ r h1, other_get_pframe E h b P false = .ok r ∧
        shadow_get_pframe fuel E h o P false = .ok ⟨r.status, r.pfp, h1⟩ ∧
        h1.objs = r.heap.objs) := by
  have hself := IsChain_not_self hc hso
  obtain ⟨_, so2, hso2, hty, hrest⟩ := hc
  rw [hso] at hso2
  cases hso2
  have lo : liveIn h.objs o = some so := hso
  have lbt : liveIn h.objs bt = some bto := hbt
  have hw := get_walk_chain E P l h so.shadowed b fuel hrest hfuel
  cases hfind : find_pframe so.mo_pframes P with
  | some i =>
    refine ⟨fun pf hpf => ?_, fun hnone => ?_⟩
    · simp [firstCaching, hso, hfind] at hpf
      subst hpf
      exact ⟨h, by simp [shadow_get_pframe, Heap.live, lo, hbm, lbt, hbty, hself, hheld, hfind], rfl⟩
    · simp [firstCaching, hso, hfind] at hnone
  | none =>
    have hnext : shadow_get_pframe fuel E h o P false = get_walk E P fuel h so.shadowed := by
      simp [shadow_get_pframe, Heap.live, lo, hbm, lbt, hbty, hself, hheld, hfind]
    rw [hnext]
    refine ⟨fun pf hpf => ?_, fun hnone => ?_⟩
    · exact hw.1 pf (by simpa [firstCaching, hso, hfind] using hpf)
    · exact hw.2 (by simpa [firstCaching, hso, hfind] using hnone)

/-! ## Page resolution -/

/-- C9. Read resolution returns the nearest copy. For a shadow object `o`,
locked by the caller, whose chain `o :: l` of shadow objects ends in the
non-shadow object `b`: when some object of the chain caches page `P`,
`shadow_get_pframe` with write intent clear returns status 0 and the frame for
`P` of the first such object, its content untouched; when none does, it returns
exactly the status and the frame of the page fetch of `b`, with the same
content. -/
theorem get_pframe_read_nearest (E : Ext) (h : Heap) (o : Nat) (l : List Nat) (b P fuel : Nat)
    (so : Mobj) (bt : Nat) (bto : Mobj)
    (hc : IsChain h (some o) (o :: l) b) (hso : h.live o = some so)
    (hbm : so.bottom_mobj = some bt) (hbt : h.live bt = some bto)
    (hbty : bto.mo_type ≠ .MOBJ_SHADOW) (hheld : o ∈ h.held) (hfuel : l.length < fuel) :
    (∀ pf, firstCaching h P (o :: l) = some pf →
      ∃ r, shadow_get_pframe fuel E h o P false = .ok r ∧ r.status = 0 ∧ r.pfp = some pf ∧
        r.heap.frameAt pf = h.frameAt pf) ∧
    (firstCaching h P (o :: l) = none →
      ∃ rb r, other_get_pframe E h b P false = .ok rb ∧
        shadow_get_pframe fuel E h o P false = .ok r ∧
        r.status = rb.status ∧ r.pfp = rb.pfp ∧ r.content = rb.content) := by
  have hcore := shadow_get_read_chain E h o l b P fuel so bt bto hc hso hbm hbt hbty hheld hfuel
  refine ⟨fun pf hpf => ?_, fun hnone => ?_⟩
  · obtain ⟨h1, hr, hobjs⟩ := hcore.1 pf hpf
    exact ⟨_, hr, rfl, rfl, frameAt_congr hobjs pf⟩
  · obtain ⟨rb, h1, hrb, hr, hobjs⟩ := hcore.2 hnone
    exact ⟨rb, _, hrb, hr, rfl, rfl, content_congr rfl hobjs⟩

/-- Witness of `get_pframe_read_nearest`: in `absorbHeap`, page 0 read through
`A` is the frame that `M` caches, and page 1, which no shadow object caches, is
what the fetch of the bottom object returns. -/
theorem get_pframe_read_nearest_witness :
    (∃ r, shadow_get_pframe 2 anonExt absorbHeap 2 0 false = .ok r ∧ r.status = 0 ∧
        r.pfp = some ⟨1, 0⟩ ∧ r.heap.frameAt ⟨1, 0⟩ = absorbHeap.frameAt ⟨1, 0⟩) ∧
    (∃ rb r, other_get_pframe anonExt absorbHeap 0 1 false = .ok rb ∧
        shadow_get_pframe 2 anonExt absorbHeap 2 1 false = .ok r ∧
        r.status = rb.status ∧ r.pfp = rb.pfp ∧ r.content = rb.content) :=
  ⟨(get_pframe_read_nearest anonExt absorbHeap 2 [1] 0 0 2
      (mkObj .MOBJ_SHADOW 1 [] (some 1) (some 0)) 0 (mkObj .MOBJ_OTHER 3 [] none none)
      ⟨rfl, _, rfl, rfl, rfl, _, rfl, rfl, rfl, _, rfl, by decide⟩
      rfl rfl rfl (by decide) (by decide) (by decide)).1 ⟨1, 0⟩ rfl,
   (get_pframe_read_nearest anonExt absorbHeap 2 [1] 0 1 2
      (mkObj .MOBJ_SHADOW 1 [] (some 1) (some 0)) 0 (mkObj .MOBJ_OTHER 3 [] none none)
      ⟨rfl, _, rfl, rfl, rfl, _, rfl, rfl, rfl, _, rfl, by decide⟩
      rfl rfl rfl (by decide) (by decide) (by decide)).2 rfl⟩

/-- C10. Fill content. For a shadow object `o`, locked by the caller, whose
chain ends, and a frame `pf` of `o` for page `f.pf_pagenum`: when some shadow
object after `o` in the chain caches that page, `shadow_fill_pframe` returns 0
and leaves `pf` with the content of the frame of the first such object; when
none does, it returns the status of the page fetch of the bottom object and, on
status 0, leaves `pf` with the content of the frame that fetch returned. In
both cases the source frame is as it was. -/
theorem fill_pframe_content (E : Ext) (h : Heap) (o : Nat) (l : List Nat) (b fuel : Nat)
    (pf : PfRef) (f : Pframe)
    (hc : IsChain h (some o) (o :: l) b) (hheld : o ∈ h.held)
    (hobj : pf.obj = o) (hf : h.frameAt pf = some f) (hfuel : l.length < fuel) :
    (∀ src, firstCaching h f.pf_pagenum l = some src →
      ∃ g h1, h.frameAt src = some g ∧ shadow_fill_pframe fuel E h o pf = .ok (0, h1) ∧
        h1.frameAt pf = some ⟨f.pf_pagenum, g.pf_addr⟩ ∧ h1.frameAt src = some g) ∧
    (firstCaching h f.pf_pagenum l = none →
      ∃ r h1, other_get_pframe E h b f.pf_pagenum false = .ok r ∧
        shadow_fill_pframe fuel E h o pf = .ok (r.status, h1) ∧
        (r.status = 0 → ∃ src g, r.pfp = some src ∧ r.heap.frameAt src = some g ∧
          h1.frameAt pf = some ⟨f.pf_pagenum, g.pf_addr⟩ ∧ h1.frameAt src = some g)) := by
  have hnm := IsChain_head_not_mem hc
  have hbnm : b ∉ o :: l := IsChain_bottom_not_mem hc
  have hob : o ≠ b := fun e => hbnm (by rw [e]; exact List.mem_cons_self _ _)
  obtain ⟨_, so, hso, hty, hrest⟩ := hc
  have lo : liveIn h.objs o = some so := hso
  have hw := fill_walk_chain E pf f.pf_pagenum l h so.shadowed b fuel hrest hfuel
  have hfill : shadow_fill_pframe fuel E h o pf = fill_walk E pf f.pf_pagenum fuel h so.shadowed := by
    simp [shadow_fill_pframe, Heap.live, lo, hheld, hf]
  rw [hfill]
  refine ⟨fun src hsrc => ?_, fun hnone => ?_⟩
  · obtain ⟨g, h1, hg, hr, hobjs, _⟩ := hw.1 src hsrc
    have hmem := (firstCaching_mem l src hsrc).1
    have hne : src.obj ≠ pf.obj := by
      rw [hobj]
      intro e
      exact hnm (by rw [← e]; exact hmem)
    refine ⟨g, h1, hg, hr, ?_, ?_⟩
    · rw [frameAt_congr hobjs]; exact frameAt_writeFrame_same _ hf
    · rw [frameAt_congr hobjs, frameAt_writeFrame_ne _ hne]; exact hg
  · obtain ⟨r, h1, hr, hfw, _, hok, _⟩ := hw.2 hnone
    refine ⟨r, h1, hr, hfw, fun h0 => ?_⟩
    obtain ⟨src, g, hsrc, hg, hobjs⟩ := hok h0
    obtain ⟨bo, hb, _⟩ := IsChain_bottom _ _ _ hrest
    obtain ⟨src2, g2, hsrc2, hsb, _, _⟩ := other_get_ok_frame E h b _ false bo r hb hr h0
    rw [hsrc] at hsrc2
    cases hsrc2
    have hne : src.obj ≠ pf.obj := by rw [hobj, hsb]; exact Ne.symm hob
    have hlive := (other_get_live E h b _ false bo r hb hr).1 o hob
    have hfr : r.heap.frameAt pf = some f := by
      rw [← hf]
      simp [Heap.frameAt, hobj, hlive]
    refine ⟨src, g, hsrc, hg, ?_, ?_⟩
    · rw [frameAt_congr hobjs]; exact frameAt_writeFrame_same _ hfr
    · rw [frameAt_congr hobjs, frameAt_writeFrame_ne _ hne]; exact hg

/-- Witness of `fill_pframe_content`: in `fillHeap`, the frame of `A` for page 0
is filled from the frame that `M` caches, and the frame for page 1 from the
bottom object. -/
theorem fill_pframe_content_witness :
    (∃ g h1, fillHeap.frameAt ⟨1, 0⟩ = some g ∧
        shadow_fill_pframe 2 anonExt fillHeap 2 ⟨2, 0⟩ = .ok (0, h1) ∧
        h1.frameAt ⟨2, 0⟩ = some ⟨0, g.pf_addr⟩ ∧ h1.frameAt ⟨1, 0⟩ = some g) ∧
    (∃ r h1, other_get_pframe anonExt fillHeap 0 1 false = .ok r ∧
        shadow_fill_pframe 2 anonExt fillHeap 2 ⟨2, 1⟩ = .ok (r.status, h1) ∧
        (r.status = 0 → ∃ src g, r.pfp = some src ∧ r.heap.frameAt src = some g ∧
          h1.frameAt ⟨2, 1⟩ = some ⟨1, g.pf_addr⟩ ∧ h1.frameAt src = some g)) :=
  ⟨(fill_pframe_content anonExt fillHeap 2 [1] 0 2 ⟨2, 0⟩ ⟨0, []⟩
      ⟨rfl, _, rfl, rfl, rfl, _, rfl, rfl, rfl, _, rfl, by decide⟩
      (by decide) rfl rfl (by decide)).1 ⟨1, 0⟩ rfl,
   (fill_pframe_content anonExt fillHeap 2 [1] 0 2 ⟨2, 1⟩ ⟨1, []⟩
      ⟨rfl, _, rfl, rfl, rfl, _, rfl, rfl, rfl, _, rfl, by decide⟩
      (by decide) rfl rfl (by decide)).2 rfl⟩

theorem find_pframe_pagenums {l l2 : List Pframe} (P : Nat)
    (e : l.map (fun f => f.pf_pagenum) = l2.map (fun f => f.pf_pagenum)) :
    find_pframe l P = find_pframe l2 P := by
  induction l generalizing l2 with
  | nil =>
    cases l2 with
    | nil => rfl
    | cons y ys => simp at e
  | cons x xs ih =>
    cases l2 with
    | nil => simp at e
    | cons y ys =>
      simp at e
      simp [find_pframe, e.1, ih e.2]

theorem count_pagenums {l l2 : List Pframe} (P : Nat)
    (e : l.map (fun f => f.pf_pagenum) = l2.map (fun f => f.pf_pagenum)) :
    (l.filter (fun f => decide (f.pf_pagenum = P))).length
      = (l2.filter (fun f => decide (f.pf_pagenum = P))).length := by
  induction l generalizing l2 with
  | nil =>
    cases l2 with
    | nil => rfl
    | cons y ys => simp at e
  | cons x xs ih =>
    cases l2 with
    | nil => simp at e
    | cons y ys =>
      simp at e
      have hi := ih e.2
      by_cases hy : y.pf_pagenum = P
      · simp [List.filter_cons, e.1, hy, hi]
      · simp [List.filter_cons, e.1, hy, hi]

theorem find_none_count {l : List Pframe} {P : Nat} (hf : find_pframe l P = none) :
    (l.filter (fun f => decide (f.pf_pagenum = P))).length = 0 := by
  induction l with
  | nil => rfl
  | cons x xs ih =>
    by_cases hx : x.pf_pagenum = P
    · simp [find_pframe, hx] at hf
    · cases hr : find_pframe xs P with
      | none => simp [List.filter_cons, hx]; simpa using ih hr
      | some j => simp [find_pframe, hx, hr] at hf

theorem find_some_count {l : List Pframe} {P i : Nat} (hf : find_pframe l P = some i) :
    1 ≤ (l.filter (fun f => decide (f.pf_pagenum = P))).length := by
  induction l generalizing i with
  | nil => simp [find_pframe] at hf
  | cons x xs ih =>
    by_cases hx : x.pf_pagenum = P
    · simp [List.filter_cons, hx]
    · cases hr : find_pframe xs P with
      | none => simp [find_pframe, hx, hr] at hf
      | some j =>
        have := ih hr
        simp [List.filter_cons, hx]
        exact this

/-- A chain is still a chain in a memory that keeps, for each of its objects,
the type and the `shadowed` field. -/
theorem IsChain_of_skel {h h1 : Heap} :
    ∀ (l : List Nat) (cur : Option Nat) (b : Nat),
      (∀ x xo, (x ∈ l ∨ x = b) → h.live x = some xo →
        ∃ xo1, h1.live x = some xo1 ∧ xo1.mo_type = xo.mo_type ∧ xo1.shadowed = xo.shadowed) →
      IsChain h cur l b → IsChain h1 cur l b := by
  intro l
  induction l with
  | nil =>
    intro cur b hs hc
    obtain ⟨hcur, bo, hb, hty⟩ := hc
    obtain ⟨bo1, hb1, hty1, _⟩ := hs b bo (Or.inr rfl) hb
    exact ⟨hcur, bo1, hb1, by rw [hty1]; exact hty⟩
  | cons x l ih =>
    intro cur b hs hc
    obtain ⟨hcur, xo, hx, hty, hrest⟩ := hc
    obtain ⟨xo1, hx1, hty1, hsh1⟩ := hs x xo (Or.inl (List.mem_cons_self _ _)) hx
    refine ⟨hcur, xo1, hx1, by rw [hty1]; exact hty, ?_⟩
    rw [hsh1]
    exact ih _ _ (fun y yo hy hyo => hs y yo (by
      rcases hy with hy | hy
      · exact Or.inl (List.mem_cons_of_mem _ hy)
      · exact Or.inr hy) hyo) hrest

theorem firstCaching_of_live_eq {h h1 : Heap} (P : Nat) :
    ∀ (l : List Nat), (∀ x ∈ l, h1.live x = h.live x) →
      firstCaching h1 P l = firstCaching h P l := by
  intro l
  induction l with
  | nil => intro _; rfl
  | cons x l ih =>
    intro hs
    have hx := hs x (List.mem_cons_self _ _)
    have hl := ih (fun y hy => hs y (List.mem_cons_of_mem _ hy))
    simp [firstCaching, hx, hl]

/-- What a successful fetch of a non-shadow object does to the object: nothing,
or, when the page was not cached, the page read from the backing store is put
at the tail of its cache. -/
theorem other_get_cache (E : Ext) (h : Heap) (b P : Nat) (fw : Bool) (bo : Mobj) (r : GetRes)
    (hb : h.live b = some bo) (hr : other_get_pframe E h b P fw = .ok r) (hst : r.status = 0) :
    r.heap.live b = some bo ∨
    (find_pframe bo.mo_pframes P = none ∧ E.page_alloc b P = 0 ∧ (E.backing b P).1 = 0 ∧
      r.heap.live b
        = some { bo with mo_pframes := bo.mo_pframes ++ [⟨P, (E.backing b P).2⟩] }) := by
  have lb : liveIn h.objs b = some bo := hb
  have ltb := liveIn_lt lb
  have fb := (liveIn_get lb).2
  rw [other_get_pframe_eq E h b P fw bo hb] at hr
  cases hfind : find_pframe bo.mo_pframes P with
  | some i =>
    simp only [hfind] at hr
    cases hr
    exact Or.inl hb
  | none =>
    simp only [hfind] at hr
    by_cases ha : E.page_alloc b P = 0
    · by_cases hs : (E.backing b P).1 = 0
      · simp only [ha, hs, ne_eq, not_true_eq_false, if_false, if_true] at hr
        cases hr
        exact Or.inr ⟨rfl, ha, hs, by simp [Heap.live, Heap.setObj, liveIn_set_same, ltb, fb]⟩
      · simp only [ha, hs, ne_eq, not_true_eq_false, if_false] at hr
        cases hr
        exact absurd hst hs
    · simp only [ha, ne_eq, not_false_eq_true, if_true] at hr
      cases hr
      exact absurd hst ha

/-- What a successful `shadow_get_pframe` with write intent does, on a shadow
object `A` whose chain ends: the returned frame is a frame of `A` for the page,
the first one for it in the cache of `A`; `A` keeps its type and fields and
stays locked; and every other object is as before, except that a non-shadow
object may have had the page read from its backing store added to its cache. -/
theorem write_get_effect (E : Ext) (h : Heap) (A : Nat) (l : List Nat) (b P fuel : Nat)
    (so : Mobj) (bt : Nat) (bto : Mobj) (r1 : GetRes)
    (hc : IsChain h (some A) (A :: l) b) (hso : h.live A = some so)
    (hbm : so.bottom_mobj = some bt) (hbt : h.live bt = some bto)
    (hbty : bto.mo_type ≠ .MOBJ_SHADOW) (hheld : A ∈ h.held) (hfuel : l.length < fuel)
    (hget : shadow_get_pframe fuel E h A P true = .ok r1) (hst : r1.status = 0) :
    ∃ i a1, r1.pfp = some ⟨A, i⟩ ∧ r1.heap.live A = some a1 ∧
      a1.mo_type = so.mo_type ∧ a1.shadowed = so.shadowed ∧ a1.bottom_mobj = so.bottom_mobj ∧
      find_pframe a1.mo_pframes P = some i ∧
      (a1.mo_pframes.filter (fun f => decide (f.pf_pagenum = P))).length
        = (if find_pframe so.mo_pframes P = none then 1
           else (so.mo_pframes.filter (fun f => decide (f.pf_pagenum = P))).length) ∧
      A ∈ r1.heap.held ∧
      (find_pframe so.mo_pframes P ≠ none → r1.heap = h) ∧
      (∀ x xo, x ≠ A → h.live x = some xo →
        r1.heap.live x = some xo ∨
        (xo.mo_type ≠ .MOBJ_SHADOW ∧ find_pframe xo.mo_pframes P = none ∧
          E.page_alloc x P = 0 ∧ (E.backing x P).1 = 0 ∧
          r1.heap.live x
            = some { xo with mo_pframes := xo.mo_pframes ++ [⟨P, (E.backing x P).2⟩] })) := by
  have hself := IsChain_not_self hc hso
  have hnm := IsChain_head_not_mem hc
  have hbnm : b ∉ A :: l := IsChain_bottom_not_mem hc
  have hAb : A ≠ b := fun e => hbnm (by rw [e]; exact List.mem_cons_self _ _)
  obtain ⟨_, so2, hso2, hty, hrest⟩ := hc
  rw [hso] at hso2
  cases hso2
  have lo : liveIn h.objs A = some so := hso
  have ltA := liveIn_lt lo
  have fA := (liveIn_get lo).2
  have lbt : liveIn h.objs bt = some bto := hbt
  have hget2 : mobj_default_get_pframe E (shadow_fill_pframe fuel E) h A P true = .ok r1 := by
    simpa [shadow_get_pframe, Heap.live, lo, hbm, lbt, hbty, hself, hheld] using hget
  unfold mobj_default_get_pframe at hget2
  simp only [Heap.live, lo] at hget2
  cases hfind : find_pframe so.mo_pframes P with
  | some i =>
    simp only [hfind] at hget2
    cases hget2
    exact ⟨i, so, rfl, hso, rfl, rfl, rfl, hfind, by simp, hheld, fun _ => rfl,
      fun x xo _ hx => Or.inl hx⟩
  | none =>
    simp only [hfind] at hget2
    by_cases ha : E.page_alloc A P = 0
    · simp only [ha, ne_eq, not_true_eq_false, if_false] at hget2
      obtain ⟨hp, hpdef⟩ : ∃ hp : Heap, hp =
          h.setObj A { so with mo_pframes := so.mo_pframes ++ [⟨P, []⟩] } := ⟨_, rfl⟩
      rw [← hpdef] at hget2
      have hpA : hp.live A = some { so with mo_pframes := so.mo_pframes ++ [⟨P, []⟩] } := by
        rw [hpdef]; simp [Heap.live, Heap.setObj, liveIn_set_same, ltA, fA]
      have hpx : ∀ x, x ≠ A → hp.live x = h.live x := by
        intro x hx
        rw [hpdef]; simp [Heap.live, Heap.setObj, liveIn_set_ne _ (Ne.symm hx)]
      have hpheld : A ∈ hp.held := by rw [hpdef]; exact hheld
      have hpf : hp.frameAt ⟨A, so.mo_pframes.length⟩ = some ⟨P, []⟩ := by
        simp [Heap.frameAt, hpA]
      have hpchain : IsChain hp so.shadowed l b := by
        refine IsChain_of_skel l _ b (fun x xo hx hxo => ⟨xo, ?_, rfl, rfl⟩) hrest
        have hxA : x ≠ A := by
          rcases hx with hx | hx
          · exact fun e => hnm (by rw [← e]; exact hx)
          · rw [hx]; exact Ne.symm hAb
        rw [hpx x hxA]; exact hxo
      have hfill : shadow_fill_pframe fuel E hp A ⟨A, so.mo_pframes.length⟩
          = fill_walk E ⟨A, so.mo_pframes.length⟩ P fuel hp so.shadowed := by
        have lpA : liveIn hp.objs A = some { so with mo_pframes := so.mo_pframes ++ [⟨P, []⟩] } :=
          hpA
        simp [shadow_fill_pframe, Heap.live, lpA, hpheld, hpf]
      rw [hfill] at hget2
      have hw := fill_walk_chain E ⟨A, so.mo_pframes.length⟩ P l hp so.shadowed b fuel hpchain hfuel
      -- the facts about `A` that follow from the shape of memory after the fill
      have hfinish : ∀ (hb0 h2 : Heap) (c : List Nat),
          hb0.live A = some { so with mo_pframes := so.mo_pframes ++ [⟨P, []⟩] } →
          h2.objs = (hb0.writeFrame ⟨A, so.mo_pframes.length⟩ c).objs →
          ∃ a1, h2.live A = some a1 ∧
            a1.mo_type = so.mo_type ∧ a1.shadowed = so.shadowed ∧
            a1.bottom_mobj = so.bottom_mobj ∧
            find_pframe a1.mo_pframes P = some so.mo_pframes.length ∧
            (a1.mo_pframes.filter (fun f => decide (f.pf_pagenum = P))).length = 1 := by
        intro hb0 h2 c hA0 hobjs
        obtain ⟨a1, ha1, e1, e2, e3, _, e5, _⟩ :=
          live_writeFrame (h := hb0) ⟨A, so.mo_pframes.length⟩ c hA0
        refine ⟨a1, by rw [live_congr hobjs]; exact ha1, e1, e2, e3, ?_, ?_⟩
        · rw [find_pframe_pagenums P e5]
          exact find_pframe_append_none [] hfind
        · rw [count_pagenums P e5]
          simp [List.filter_append, find_none_count hfind]
      cases hfc : firstCaching hp P l with
      | some src =>
        obtain ⟨g, h2, _, hfw, hobjs, hkeep⟩ := hw.1 src hfc
        rw [hfw] at hget2
        simp only [if_true] at hget2
        cases hget2
        obtain ⟨a1, q1, q2, q3, q4, q5, q6⟩ := hfinish hp h2 g.pf_addr hpA hobjs
        refine ⟨so.mo_pframes.length, a1, rfl, q1, q2, q3, q4, q5, by simpa using q6,
          hkeep A hpheld hnm hAb, fun hne => absurd rfl hne, fun x xo hxA hx => Or.inl ?_⟩
        show h2.live x = some xo
        rw [live_congr hobjs, live_writeFrame_ne _ (show x ≠ (⟨A, so.mo_pframes.length⟩ : PfRef).obj from hxA),
          hpx x hxA]
        exact hx
      | none =>
        obtain ⟨r, h2, hr, hfw, _, hok, hkeep⟩ := hw.2 hfc
        rw [hfw] at hget2
        by_cases hr0 : r.status = 0
        · simp only [hr0, if_true] at hget2
          cases hget2
          obtain ⟨src, g, _, _, hobjs⟩ := hok hr0
          obtain ⟨bo, hb, hbty2⟩ := IsChain_bottom _ _ _ hrest
          have hpb : hp.live b = some bo := by rw [hpx b (Ne.symm hAb)]; exact hb
          have hlive := other_get_live E hp b P false bo r hpb hr
          have hrA : r.heap.live A
              = some { so with mo_pframes := so.mo_pframes ++ [⟨P, []⟩] } := by
            rw [hlive.1 A hAb]; exact hpA
          obtain ⟨a1, q1, q2, q3, q4, q5, q6⟩ := hfinish r.heap h2 g.pf_addr hrA hobjs
          refine ⟨so.mo_pframes.length, a1, rfl, q1, q2, q3, q4, q5, by simpa using q6,
            hkeep A hpheld hnm hAb, fun hne => absurd rfl hne, fun x xo hxA hx => ?_⟩
          have hx2 : h2.live x = r.heap.live x := by
            rw [live_congr hobjs,
              live_writeFrame_ne _ (show x ≠ (⟨A, so.mo_pframes.length⟩ : PfRef).obj from hxA)]
          show h2.live x = some xo ∨ _
          rw [hx2]
          by_cases hxb : x = b
          · subst hxb
            rw [hb] at hx
            cases hx
            rcases other_get_cache E hp x P false bo r hpb hr hr0 with hc1 | ⟨c1, c2, c3, c4⟩
            · exact Or.inl hc1
            · exact Or.inr ⟨hbty2, c1, c2, c3, c4⟩
          · left
            rw [hlive.1 x hxb, hpx x hxA]
            exact hx
        · simp only [hr0, if_false] at hget2
          cases hl2 : h2.live A with
          | none =>
            have : liveIn h2.objs A = none := hl2
            simp [this] at hget2
          | some ob2 =>
            have : liveIn h2.objs A = some ob2 := hl2
            simp only [this] at hget2
            cases hget2
            exact absurd hst hr0
    · simp only [ha, ne_eq, not_false_eq_true, if_true] at hget2
      cases hget2
      exact absurd hst ha

/-- C8. Copy-on-first-write idempotence. Let `A` be a shadow object, locked by
the caller, whose chain ends, and whose cache holds at most one frame for page
`P`. After one successful `shadow_get_pframe` for `P` with write intent, a
second one, in the memory the first left, returns status 0 and the same frame,
a frame of `A`, and leaves memory (the record of lock operations included)
exactly as it was; the generic fetch returns that frame whatever fill operation
it is given, so `shadow_fill_pframe` is not invoked; and the cache of `A` holds
exactly one frame for `P`. -/
theorem write_twice_one_copy (E : Ext) (h : Heap) (A : Nat) (l : List Nat) (b P fuel : Nat)
    (so : Mobj) (bt : Nat) (bto : Mobj) (r1 : GetRes)
    (hc : IsChain h (some A) (A :: l) b) (hso : h.live A = some so)
    (hbm : so.bottom_mobj = some bt) (hbt : h.live bt = some bto)
    (hbty : bto.mo_type ≠ .MOBJ_SHADOW) (hheld : A ∈ h.held) (hfuel : l.length < fuel)
    (hcnt : cachedCount h A P ≤ 1)
    (hget : shadow_get_pframe fuel E h A P true = .ok r1) (hst : r1.status = 0) :
    ∃ pf, r1.pfp = some pf ∧ pf.obj = A ∧
      shadow_get_pframe fuel E r1.heap A P true = .ok ⟨0, some pf, r1.heap⟩ ∧
      (∀ fill, mobj_default_get_pframe E fill r1.heap A P true = .ok ⟨0, some pf, r1.heap⟩) ∧
      cachedCount r1.heap A P = 1 := by
  have hself := IsChain_not_self hc hso
  have hAty : so.mo_type = .MOBJ_SHADOW := by
    obtain ⟨_, so2, hso2, hty, _⟩ := hc
    rw [hso] at hso2
    cases hso2
    exact hty
  have hbtA : bt ≠ A := by
    rintro rfl
    rw [hso] at hbt
    cases hbt
    exact hbty hAty
  obtain ⟨i, a1, hpfp, ha1, e1, e2, e3, hfind, hcount, hheld1, _, hothers⟩ :=
    write_get_effect E h A l b P fuel so bt bto r1 hc hso hbm hbt hbty hheld hfuel hget hst
  have la1 : liveIn r1.heap.objs A = some a1 := ha1
  obtain ⟨bto1, hbt1, hbty1⟩ : ∃ bto1, liveIn r1.heap.objs bt = some bto1 ∧
      bto1.mo_type ≠ .MOBJ_SHADOW := by
    rcases hothers bt bto hbtA hbt with hx | ⟨_, _, _, _, hx⟩
    · exact ⟨bto, hx, hbty⟩
    · exact ⟨_, hx, hbty⟩
  have hdefault : ∀ fill,
      mobj_default_get_pframe E fill r1.heap A P true = .ok ⟨0, some ⟨A, i⟩, r1.heap⟩ := by
    intro fill
    simp [mobj_default_get_pframe, Heap.live, la1, hfind]
  refine ⟨⟨A, i⟩, hpfp, rfl, ?_, hdefault, ?_⟩
  · have hsh : a1.shadowed ≠ some A := by rw [e2]; exact hself
    simp [shadow_get_pframe, Heap.live, la1, e3, hbm, hbt1, hbty1, hsh, hheld1, hdefault]
  · have hc0 : cachedCount h A P
        = (so.mo_pframes.filter (fun f => decide (f.pf_pagenum = P))).length := by
      simp [cachedCount, hso]
    have hc1 : cachedCount r1.heap A P
        = (a1.mo_pframes.filter (fun f => decide (f.pf_pagenum = P))).length := by
      simp [cachedCount, ha1]
    rw [hc1, hcount]
    cases hf0 : find_pframe so.mo_pframes P with
    | none => simp
    | some j =>
      have := find_some_count hf0
      simp
      omega

/-- Witness of `write_twice_one_copy`: page 1 written through `A` in
`absorbHeap`, where the first fetch makes the copy from the bottom object. -/
theorem write_twice_one_copy_witness :
    ∃ r1 pf, shadow_get_pframe 2 anonExt absorbHeap 2 1 true = .ok r1 ∧
      r1.pfp = some pf ∧ pf.obj = 2 ∧
      shadow_get_pframe 2 anonExt r1.heap 2 1 true = .ok ⟨0, some pf, r1.heap⟩ ∧
      (∀ fill, mobj_default_get_pframe anonExt fill r1.heap 2 1 true
        = .ok ⟨0, some pf, r1.heap⟩) ∧
      cachedCount r1.heap 2 1 = 1 := by
  obtain ⟨r1, hr1⟩ : ∃ r1, shadow_get_pframe 2 anonExt absorbHeap 2 1 true = .ok r1 := ⟨_, rfl⟩
  have hst : r1.status = 0 := by
    have : Res.ok r1 = shadow_get_pframe 2 anonExt absorbHeap 2 1 true := hr1.symm
    cases this
    rfl
  obtain ⟨pf, h1, h2, h3, h4, h5⟩ := write_twice_one_copy anonExt absorbHeap 2 [1] 0 1 2
    (mkObj .MOBJ_SHADOW 1 [] (some 1) (some 0)) 0 (mkObj .MOBJ_OTHER 3 [] none none) r1
    ⟨rfl, _, rfl, rfl, rfl, _, rfl, rfl, rfl, _, rfl, by decide⟩
    rfl rfl rfl (by decide) (by decide) (by decide) (by decide) hr1 hst
  exact ⟨r1, pf, hr1, h1, h2, h3, h4, h5⟩

/-! ## Creation -/

theorem liveIn_append_left {l : List Mobj} {x : Nat} (o : Mobj) (hx : x < l.length) :
    liveIn (l ++ [o]) x = liveIn l x := by
  simp [liveIn, List.getElem?_append_left hx]

theorem liveIn_append_length (l : List Mobj) (o : Mobj) :
    liveIn (l ++ [o]) l.length = if o.freed then none else some o := by
  simp [liveIn]

/-- What a successful `shadow_create` leaves: the new object `S` is the first
unused index, it is a shadow object with reference count 1 and an empty cache,
shadowing `X`, with the bottom object the code chose, which is live and not a
shadow object; `S` is locked; and every object that existed before is as it
was, up to its reference count. -/
theorem shadow_create_ok (h : Heap) (X S : Nat) (h1 : Heap)
    (hcr : shadow_create true h X = .ok (some S, h1)) :
    ∃ xo b0 bo1, h.live X = some xo ∧ S = h.objs.length ∧
      some b0 = (if xo.mo_type = .MOBJ_SHADOW then xo.bottom_mobj else some X) ∧
      h1.live S = some (mobj_init .MOBJ_SHADOW (some X) (some b0)) ∧
      h1.live b0 = some bo1 ∧ bo1.mo_type ≠ .MOBJ_SHADOW ∧ S ∈ h1.held ∧ b0 ≠ S ∧
      (∀ x ∈ h.held, x ≠ S → x ∈ h1.held) ∧
      (∀ x yo, h.live x = some yo →
        ∃ yo1, h1.live x = some yo1 ∧ yo1 = { yo with mo_refcount := yo1.mo_refcount }) := by
  unfold shadow_create at hcr
  simp only [Bool.true_eq_false, if_false] at hcr
  cases hX : h.live X with
  | none => simp [hX] at hcr
  | some xo =>
    have lX : liveIn h.objs X = some xo := hX
    have ltX := liveIn_lt lX
    have fX := (liveIn_get lX).2
    simp only [hX] at hcr
    have hX1 : liveIn (h.objs ++ [mobj_init .MOBJ_SHADOW (some X)
        (if xo.mo_type = .MOBJ_SHADOW then xo.bottom_mobj else some X)]) X = some xo := by
      rw [liveIn_append_left _ ltX]; exact lX
    simp only [mobj_ref, Heap.live, hX1] at hcr
    cases hb : (if xo.mo_type = .MOBJ_SHADOW then xo.bottom_mobj else some X) with
    | none => simp [hb] at hcr
    | some b0 =>
      simp only [hb] at hcr
      have hXS : X ≠ h.objs.length := by omega
      by_cases hbS : b0 = h.objs.length
      · subst hbS
        simp [Heap.setObj, Heap.live, liveIn_set_ne _ hXS, liveIn_append_length, mobj_init,
          mobj_lock, liveIn_set_same] at hcr
      · cases hob : liveIn ((h.objs ++ [mobj_init .MOBJ_SHADOW (some X) (some b0)]).set X
            { xo with mo_refcount := xo.mo_refcount + 1 }) b0 with
        | none => simp [Heap.setObj, hob] at hcr
        | some ob =>
          have fob := (liveIn_get hob).2
          have ltb0 : b0 < h.objs.length := by
            have := liveIn_lt hob
            simp at this
            omega
          have hSb : h.objs.length ≠ b0 := fun e => hbS e.symm
          have ltb1 : b0 < h.objs.length + 1 := by omega
          simp only [Heap.setObj, hob, mobj_lock, Heap.live] at hcr
          simp [liveIn_set_ne _ (Ne.symm hSb), liveIn_set_ne _ hXS, liveIn_append_length, mobj_init,
            liveIn_set_same, ltb1, fob] at hcr
          by_cases hty : ob.mo_type = .MOBJ_SHADOW
          · simp [hty] at hcr
          · simp only [hty, if_false] at hcr
            simp at hcr
            obtain ⟨hS, hh1⟩ := hcr
            subst hS
            subst hh1
            refine ⟨xo, b0, { ob with mo_refcount := ob.mo_refcount + 1 }, rfl, rfl, hb.symm, ?_, ?_,
              hty, ?_, hbS, ?_, ?_⟩
            · simp [Heap.live, liveIn_set_ne _ (Ne.symm hSb), liveIn_set_ne _ hXS,
                liveIn_append_length, mobj_init]
            · simp [Heap.live, liveIn_set_same, ltb1, fob]
            · simp
            · intro x hx hxS
              simp [hx, hxS]
            · intro x yo hx
              have lx : liveIn h.objs x = some yo := hx
              have ltx := liveIn_lt lx
              have fx := (liveIn_get lx).2
              by_cases hxb : x = b0
              · subst hxb
                refine ⟨{ ob with mo_refcount := ob.mo_refcount + 1 }, ?_, ?_⟩
                · simp [Heap.live, liveIn_set_same, ltb1, fob]
                · by_cases hxX : x = X
                  · subst hxX
                    rw [lX] at lx
                    cases lx
                    have ltX1 : x < h.objs.length + 1 := by omega
                    simp [liveIn_set_same, ltX1, fX] at hob
                    subst hob
                    simp [fX]
                  · rw [liveIn_set_ne _ (Ne.symm hxX), liveIn_append_left _ ltx, lx] at hob
                    cases hob
                    rfl
              · by_cases hxX : x = X
                · subst hxX
                  rw [lX] at lx
                  cases lx
                  refine ⟨{ xo with mo_refcount := xo.mo_refcount + 1 }, ?_, rfl⟩
                  have ltX1 : x < h.objs.length + 1 := by omega
                  simp [Heap.live, liveIn_set_ne _ (Ne.symm hxb), liveIn_set_same, ltX1, fX]
                · refine ⟨yo, ?_, rfl⟩
                  simp [Heap.live, liveIn_set_ne _ (Ne.symm hxb), liveIn_set_ne _ (Ne.symm hxX),
                    liveIn_append_left _ ltx, lx]

/-- C7. Read transparency. Let `X` be a memory object (a shadow object, or a
non-shadow object, then `lX` is empty) whose chain ends, and `S` the object a
successful `shadow_create` on `X` returns. In the memory the creation leaves,
with the lock of `X` held, reading page `P` through `S` (nothing having been
written through `S`) and reading it through `X` itself both return, with the
same status, the same frame and the same content. -/
theorem read_transparency (E : Ext) (h : Heap) (X S : Nat) (h1 : Heap) (lX : List Nat)
    (b P fuel : Nat)
    (hcr : shadow_create true h X = .ok (some S, h1))
    (hc : IsChain h (some X) lX b) (hheld : X ∈ h1.held) (hfuel : lX.length < fuel) :
    ∃ rS rX, shadow_get_pframe fuel E h1 S P false = .ok rS ∧
      mobj_get_pframe fuel E h1 X P false = .ok rX ∧
      rS.status = rX.status ∧ rS.pfp = rX.pfp ∧ rS.content = rX.content := by
  obtain ⟨xo, b0, bo1, hX, hSlen, hb0, hS, hb0l, hb0ty, hSheld, hb0S, _, hskel⟩ :=
    shadow_create_ok h X S h1 hcr
  have hc1 : IsChain h1 (some X) lX b := by
    refine IsChain_of_skel lX _ b (fun x yo _ hx => ?_) hc
    obtain ⟨yo1, hy1, hy2⟩ := hskel x yo hx
    exact ⟨yo1, hy1, by rw [hy2], by rw [hy2]⟩
  obtain ⟨xo1, hX1, hxo1⟩ := hskel X xo hX
  have hcS : IsChain h1 (some S) (S :: lX) b := ⟨rfl, _, hS, rfl, hc1⟩
  have hfS : firstCaching h1 P (S :: lX) = firstCaching h1 P lX := by
    simp [firstCaching, hS, mobj_init, find_pframe]
  have hreadS := shadow_get_read_chain E h1 S lX b P fuel _ b0 bo1 hcS hS rfl hb0l hb0ty hSheld
    hfuel
  rw [hfS] at hreadS
  have lX1 : liveIn h1.objs X = some xo1 := hX1
  cases lX with
  | nil =>
    obtain ⟨hXb, bo, hbo, hbty⟩ := hc1
    cases hXb
    rw [hX1] at hbo
    cases hbo
    obtain ⟨r, h2, hr, hrS, hobjs⟩ := hreadS.2 rfl
    refine ⟨_, r, hrS, ?_, rfl, rfl, content_congr rfl hobjs⟩
    simp [mobj_get_pframe, Heap.live, lX1, hbty, hr]
  | cons X2 l =>
    have hX2 : X2 = X := by
      obtain ⟨hh, _⟩ := hc1
      cases hh
      rfl
    subst hX2
    have hxty : xo1.mo_type = .MOBJ_SHADOW := by
      obtain ⟨_, xo2, hxo2, hty, _⟩ := hc1
      rw [hX1] at hxo2
      cases hxo2
      exact hty
    have hxty0 : xo.mo_type = .MOBJ_SHADOW := by rw [hxo1] at hxty; exact hxty
    have hbm : xo1.bottom_mobj = some b0 := by
      rw [hxo1]
      simp only [hxty0, if_true] at hb0
      exact hb0.symm
    have hreadX := shadow_get_read_chain E h1 X2 l b P fuel xo1 b0 bo1 hc1 hX1 hbm hb0l hb0ty hheld
      (by simp at hfuel; omega)
    have hdisp : mobj_get_pframe fuel E h1 X2 P false = shadow_get_pframe fuel E h1 X2 P false := by
      simp [mobj_get_pframe, Heap.live, lX1, hxty]
    rw [hdisp]
    cases hfc : firstCaching h1 P (X2 :: l) with
    | some pf =>
      obtain ⟨h2, hrS, hobjs2⟩ := hreadS.1 pf hfc
      obtain ⟨h3, hrX, hobjs3⟩ := hreadX.1 pf hfc
      exact ⟨_, _, hrS, hrX, rfl, rfl, content_congr rfl (by rw [hobjs2, hobjs3])⟩
    | none =>
      obtain ⟨r, h2, hr, hrS, hobjs2⟩ := hreadS.2 hfc
      obtain ⟨r3, h3, hr3, hrX, hobjs3⟩ := hreadX.2 hfc
      rw [hr] at hr3
      cases hr3
      exact ⟨_, _, hrS, hrX, rfl, rfl, content_congr rfl (by rw [hobjs2, hobjs3])⟩

/-- Witness of `read_transparency`: a shadow object created over `A` in
`absorbHeap` reads page 0 as `A` does. -/
theorem read_transparency_witness :
    ∃ rS rX, shadow_get_pframe 3 anonExt createdHeap 3 0 false = .ok rS ∧
      mobj_get_pframe 3 anonExt createdHeap 2 0 false = .ok rX ∧
      rS.status = rX.status ∧ rS.pfp = rX.pfp ∧ rS.content = rX.content :=
  read_transparency anonExt absorbHeap 2 3 createdHeap [2, 1] 0 0 3 rfl
    ⟨rfl, _, rfl, rfl, rfl, _, rfl, rfl, rfl, _, rfl, by decide⟩ (by decide) (by decide)

/-! ## Write isolation -/

/-- The fetch of a non-shadow object returns the same status, frame and content
in two memories in which the object is the same, or in which the second has, in
addition, the backing-store page at the tail of the object's cache. -/
theorem other_get_rel (E : Ext) (h h2 : Heap) (b P : Nat) (fw : Bool) (bo : Mobj)
    (hb : h.live b = some bo)
    (hb2 : h2.live b = some bo ∨
      (find_pframe bo.mo_pframes P = none ∧ E.page_alloc b P = 0 ∧ (E.backing b P).1 = 0 ∧
        h2.live b = some { bo with mo_pframes := bo.mo_pframes ++ [⟨P, (E.backing b P).2⟩] })) :
    ∃ r r2, other_get_pframe E h b P fw = .ok r ∧ other_get_pframe E h2 b P fw = .ok r2 ∧
      r2.status = r.status ∧ r2.pfp = r.pfp ∧ r2.content = r.content := by
  have lb : liveIn h.objs b = some bo := hb
  have ltb := liveIn_lt lb
  have fb := (liveIn_get lb).2
  rcases hb2 with hb2 | ⟨hfind, ha, hs, hb2⟩
  · have lb2 : liveIn h2.objs b = some bo := hb2
    have ltb2 := liveIn_lt lb2
    rw [other_get_pframe_eq E h b P fw bo hb, other_get_pframe_eq E h2 b P fw bo hb2]
    cases hfind : find_pframe bo.mo_pframes P with
    | some i =>
      refine ⟨_, _, rfl, rfl, rfl, rfl, ?_⟩
      simp [GetRes.content, Heap.frameAt, hb, hb2]
    | none =>
      by_cases ha : E.page_alloc b P = 0
      · by_cases hs : (E.backing b P).1 = 0
        · simp [ha, hs, GetRes.content, Heap.frameAt, Heap.setObj, Heap.live, liveIn_set_same, ltb,
            ltb2, fb]
        · simp [ha, hs, GetRes.content]
      · simp [ha, GetRes.content]
  · have lb2 : liveIn h2.objs b
        = some { bo with mo_pframes := bo.mo_pframes ++ [⟨P, (E.backing b P).2⟩] } := hb2
    rw [other_get_pframe_eq E h b P fw bo hb, other_get_pframe_eq E h2 b P fw _ hb2]
    have hf2 := find_pframe_append_none (E.backing b P).2 hfind
    simp [hfind, ha, hs, hf2, GetRes.content, Heap.frameAt, Heap.setObj, Heap.live, liveIn_set_same,
      ltb, fb, lb2]

/-- C6. Write isolation. Let `A` and `B` be shadow objects whose chains end,
both locked by the caller, with `A` neither `B` nor any object reachable from
`B` by following `shadowed`. Obtain page `P` through `A` with write intent,
successfully, and overwrite the content of the returned frame with any `w`;
then `shadow_get_pframe` on `B` for `P` with write intent clear, called with
the lock of `B` held, returns the same status and the same content as it does
in the memory before the write. -/
theorem write_isolation (E : Ext) (h : Heap) (A B : Nat) (lA lB : List Nat) (bA bB P fuel : Nat)
    (sA : Mobj) (btA : Nat) (btoA : Mobj) (sB : Mobj) (btB : Nat) (btoB : Mobj)
    (rA : GetRes) (f : PfRef) (w : List Nat)
    (hcA : IsChain h (some A) (A :: lA) bA) (hsA : h.live A = some sA)
    (hbmA : sA.bottom_mobj = some btA) (hbtA : h.live btA = some btoA)
    (hbtyA : btoA.mo_type ≠ .MOBJ_SHADOW) (hheldA : A ∈ h.held) (hfuelA : lA.length < fuel)
    (hcB : IsChain h (some B) (B :: lB) bB) (hsB : h.live B = some sB)
    (hbmB : sB.bottom_mobj = some btB) (hbtB : h.live btB = some btoB)
    (hbtyB : btoB.mo_type ≠ .MOBJ_SHADOW) (hheldB : B ∈ h.held) (hfuelB : lB.length < fuel)
    (hnot : A ∉ B :: lB)
    (hget : shadow_get_pframe fuel E h A P true = .ok rA) (hst : rA.status = 0)
    (hf : rA.pfp = some f) :
    ∃ rB hl rB2, shadow_get_pframe fuel E h B P false = .ok rB ∧
      mobj_lock (rA.heap.writeFrame f w) B = .ok hl ∧
      shadow_get_pframe fuel E hl B P false = .ok rB2 ∧
      rB2.status = rB.status ∧ rB2.content = rB.content := by
  have hAty : sA.mo_type = .MOBJ_SHADOW := by
    obtain ⟨_, so2, hso2, hty, _⟩ := hcA
    rw [hsA] at hso2
    cases hso2
    exact hty
  -- an object that is not a shadow object is not `A`
  have hneA : ∀ x xo, h.live x = some xo → xo.mo_type ≠ .MOBJ_SHADOW → x ≠ A := by
    rintro x xo hx hty rfl
    rw [hsA] at hx
    cases hx
    exact hty hAty
  obtain ⟨i, a1, hpfp, _, _, _, _, _, _, _, _, hothers⟩ :=
    write_get_effect E h A lA bA P fuel sA btA btoA rA hcA hsA hbmA hbtA hbtyA hheldA hfuelA hget
      hst
  rw [hf] at hpfp
  cases hpfp
  obtain ⟨hw, hwdef⟩ : ∃ hw : Heap, hw = rA.heap.writeFrame ⟨A, i⟩ w := ⟨_, rfl⟩
  rw [← hwdef]
  have hwx : ∀ x, x ≠ A → hw.live x = rA.heap.live x := by
    intro x hx
    rw [hwdef]
    exact live_writeFrame_ne w (show x ≠ (⟨A, i⟩ : PfRef).obj from hx)
  have hBA : B ≠ A := fun e => hnot (by rw [e]; exact List.mem_cons_self _ _)
  -- shadow objects other than `A` are untouched
  have hshadow : ∀ x xo, x ≠ A → h.live x = some xo → xo.mo_type = .MOBJ_SHADOW →
      hw.live x = some xo := by
    intro x xo hx hxo hty
    rw [hwx x hx]
    rcases hothers x xo hx hxo with h1 | ⟨h1, _⟩
    · exact h1
    · exact absurd hty h1
  have hother : ∀ x xo, x ≠ A → h.live x = some xo →
      hw.live x = some xo ∨
      (find_pframe xo.mo_pframes P = none ∧ E.page_alloc x P = 0 ∧ (E.backing x P).1 = 0 ∧
        hw.live x
          = some { xo with mo_pframes := xo.mo_pframes ++ [⟨P, (E.backing x P).2⟩] }) := by
    intro x xo hx hxo
    rw [hwx x hx]
    rcases hothers x xo hx hxo with h1 | ⟨_, h2, h3, h4, h5⟩
    · exact Or.inl h1
    · exact Or.inr ⟨h2, h3, h4, h5⟩
  have hBty : sB.mo_type = .MOBJ_SHADOW := by
    obtain ⟨_, so2, hso2, hty, _⟩ := hcB
    rw [hsB] at hso2
    cases hso2
    exact hty
  have hwB : hw.live B = some sB := hshadow B sB hBA hsB hBty
  obtain ⟨hl, hldef⟩ : ∃ hl : Heap, hl =
      { hw with held := if B ∈ hw.held then hw.held else B :: hw.held,
                locklog := hw.locklog ++ [LockEv.acquire B] } := ⟨_, rfl⟩
  have hlock : mobj_lock hw B = .ok hl := by
    have : liveIn hw.objs B = some sB := hwB
    simp [mobj_lock, Heap.live, this, hldef]
  have el : hl.objs = hw.objs := by rw [hldef]
  have hlheld : B ∈ hl.held := by
    rw [hldef]
    by_cases hb : B ∈ hw.held
    · simp [hb]
    · simp [hb]
  have hmem : ∀ x ∈ B :: lB, hl.live x = h.live x := by
    intro x hx
    obtain ⟨xo, hxo, hty⟩ := IsChain_mem_shadow _ _ _ _ hcB hx
    have hxA : x ≠ A := fun e => hnot (by rw [← e]; exact hx)
    rw [live_congr el, hshadow x xo hxA hxo hty, hxo]
  obtain ⟨bo, hbo, hboty⟩ := IsChain_bottom _ _ _ hcB
  have hcl : IsChain hl (some B) (B :: lB) bB := by
    refine IsChain_of_skel _ _ _ (fun x xo hx hxo => ?_) hcB
    rcases hx with hx | hx
    · exact ⟨xo, by rw [hmem x hx]; exact hxo, rfl, rfl⟩
    · subst hx
      rw [hbo] at hxo
      cases hxo
      rcases hother x bo (hneA x bo hbo hboty) hbo with h1 | ⟨_, _, _, h1⟩
      · exact ⟨bo, by rw [live_congr el]; exact h1, rfl, rfl⟩
      · exact ⟨{ bo with mo_pframes := bo.mo_pframes ++ [⟨P, (E.backing x P).2⟩] },
          by rw [live_congr el]; exact h1, rfl, rfl⟩
  obtain ⟨btoB2, hbtB2, hbtyB2⟩ : ∃ o2, hl.live btB = some o2 ∧ o2.mo_type ≠ .MOBJ_SHADOW := by
    rcases hother btB btoB (hneA btB btoB hbtB hbtyB) hbtB with h1 | ⟨_, _, _, h1⟩
    · exact ⟨btoB, by rw [live_congr el]; exact h1, hbtyB⟩
    · exact ⟨{ btoB with mo_pframes := btoB.mo_pframes ++ [⟨P, (E.backing btB P).2⟩] },
        by rw [live_congr el]; exact h1, hbtyB⟩
  have hlB : hl.live B = some sB := by rw [live_congr el]; exact hwB
  have hread := shadow_get_read_chain E h B lB bB P fuel sB btB btoB hcB hsB hbmB hbtB hbtyB hheldB
    hfuelB
  have hread2 := shadow_get_read_chain E hl B lB bB P fuel sB btB btoB2 hcl hlB hbmB hbtB2 hbtyB2
    hlheld hfuelB
  rw [firstCaching_of_live_eq P _ hmem] at hread2
  cases hfc : firstCaching h P (B :: lB) with
  | some pf =>
    obtain ⟨h2, hr, hobjs⟩ := hread.1 pf hfc
    obtain ⟨h3, hr2, hobjs3⟩ := hread2.1 pf hfc
    refine ⟨_, hl, _, hr, hlock, hr2, rfl, ?_⟩
    have hpfmem := (firstCaching_mem _ pf hfc).1
    simp only [GetRes.content, frameAt_congr hobjs, frameAt_congr hobjs3]
    simp [Heap.frameAt, hmem pf.obj hpfmem]
  | none =>
    obtain ⟨r, h2, hr0, hr, hobjs⟩ := hread.2 hfc
    obtain ⟨r2, h3, hr02, hr2, hobjs3⟩ := hread2.2 hfc
    have hrel := other_get_rel E h hl bB P false bo hbo (by
      rcases hother bB bo (hneA bB bo hbo hboty) hbo with h1 | ⟨c1, c2, c3, h1⟩
      · exact Or.inl (by rw [live_congr el]; exact h1)
      · exact Or.inr ⟨c1, c2, c3, by rw [live_congr el]; exact h1⟩)
    obtain ⟨q, q2, hq, hq2, e1, e2, e3⟩ := hrel
    rw [hr0] at hq
    cases hq
    rw [hr02] at hq2
    cases hq2
    refine ⟨_, hl, _, hr, hlock, hr2, e1, ?_⟩
    have c1 : GetRes.content ⟨r2.status, r2.pfp, h3⟩ = r2.content := content_congr rfl hobjs3
    have c2 : GetRes.content ⟨r.status, r.pfp, h2⟩ = r.content := content_congr rfl hobjs
    rw [c1, c2, e3]

/-- Witness of `write_isolation`, on the example scenario of `forkHeap`: page 2
is written with `0xCC` bytes through `B` (object 2) and read through `A`
(object 1), which `B` shadows. -/
theorem write_isolation_witness :
    ∃ rA f rB hl rB2, shadow_get_pframe 2 anonExt forkHeap 2 2 true = .ok rA ∧
      rA.pfp = some f ∧
      shadow_get_pframe 2 anonExt forkHeap 1 2 false = .ok rB ∧
      mobj_lock (rA.heap.writeFrame f [204, 204, 204, 204]) 1 = .ok hl ∧
      shadow_get_pframe 2 anonExt hl 1 2 false = .ok rB2 ∧
      rB2.status = rB.status ∧ rB2.content = rB.content := by
  obtain ⟨rA, hrA⟩ : ∃ rA, shadow_get_pframe 2 anonExt forkHeap 2 2 true = .ok rA := ⟨_, rfl⟩
  have hboth : rA.status = 0 ∧ rA.pfp = some ⟨2, 0⟩ := by
    have : Res.ok rA = shadow_get_pframe 2 anonExt forkHeap 2 2 true := hrA.symm
    cases this
    exact ⟨rfl, rfl⟩
  obtain ⟨rB, hl, rB2, h1, h2, h3, h4, h5⟩ := write_isolation anonExt forkHeap 2 1 [1] [] 0 0 2 2
    (mkObj .MOBJ_SHADOW 1 [] (some 1) (some 0)) 0 (mkObj .MOBJ_OTHER 3 [] none none)
    (mkObj .MOBJ_SHADOW 2 [] (some 0) (some 0)) 0 (mkObj .MOBJ_OTHER 3 [] none none)
    rA ⟨2, 0⟩ [204, 204, 204, 204]
    ⟨rfl, _, rfl, rfl, rfl, _, rfl, rfl, rfl, _, rfl, by decide⟩
    rfl rfl rfl (by decide) (by decide) (by decide)
    ⟨rfl, _, rfl, rfl, rfl, _, rfl, by decide⟩
    rfl rfl rfl (by decide) (by decide) (by decide)
    (by decide) hrA hboth.1 hboth.2
  exact ⟨rA, ⟨2, 0⟩, rB, hl, rB2, hrA, hboth.2, h1, h2, h3, h4, h5⟩


/-! ## Flush -/

/-- C17. Flush is a no-op: for every memory, object and frame,
`shadow_flush_pframe` returns status 0 and leaves memory, hence the content of
the frame and the state of every object, exactly as it was. -/
theorem flush_is_noop (h : Heap) (o : Nat) (pf : PfRef) :
    (shadow_flush_pframe h o pf).1 = 0 ∧ (shadow_flush_pframe h o pf).2 = h ∧
      (shadow_flush_pframe h o pf).2.frameAt pf = h.frameAt pf :=
  ⟨rfl, rfl, rfl⟩

/-! ## Collapse of longer chains, and its locks -/

/-- C18 (evaluation at the failing input). In the chain `O → M1 → M2 → Z` of
`deepHeap`, `M1` and `M2` are shadow objects with reference count 1. The first
run of the loop body of `shadow_collapse` on `O` stores `M2` in the `shadowed`
field of `O` and destroys `M1`, whose destructor releases the last counted
reference on `M2` and so destroys `M2` too: `O` is left shadowing a destroyed
object. The call then touches freed storage, under every budget of four or
more, and returns under no budget. -/
theorem collapse_deep_chain_dangles :
    IsChain deepHeap (some 3) [3, 2, 1] 0 ∧
    (∃ m1 m2, deepHeap.live 2 = some m1 ∧ m1.mo_refcount = 1 ∧
      deepHeap.live 1 = some m2 ∧ m2.mo_refcount = 1) ∧
    (∃ h1 o, collapse_body 3 deepHeap 3 2 = .ok (h1, some 2) ∧ h1.live 3 = some o ∧
      o.shadowed = some 1 ∧ h1.live 1 = none) ∧
    (∀ n, shadow_collapse (n + 4) deepHeap 3 = .panic) ∧
    ∀ fuel h1, shadow_collapse fuel deepHeap 3 ≠ .ok h1 := by
  refine ⟨⟨rfl, _, rfl, rfl, rfl, _, rfl, rfl, rfl, _, rfl, rfl, rfl, _, rfl, by decide⟩,
    ⟨_, _, rfl, rfl, rfl, rfl⟩, ⟨_, _, rfl, rfl, rfl, rfl⟩, fun _ => rfl, ?_⟩
  intro fuel h1
  match fuel with
  | 0 => intro hc; cases hc
  | 1 => intro hc; cases hc
  | 2 => intro hc; cases hc
  | 3 => intro hc; cases hc
  | n + 4 =>
    intro hc
    have hp : shadow_collapse (n + 4) deepHeap 3 = .panic := rfl
    rw [hp] at hc
    cases hc

/-- C19 (evaluation at the failing input). In `absorbHeap` the absorbed object
`M` (object 1) caches one page and the caller holds the lock of `A` only.
`shadow_collapse` on `A` returns with the locks held as on entry, but its
record of lock operations is: acquire `M`, acquire `M`, release `M`,
release `M`; the lock of `M` is acquired a second time while it is held. -/
theorem collapse_locks_absorbed_twice :
    ∃ h1, shadow_collapse 3 absorbHeap 2 = .ok h1 ∧
      h1.locklog = [.acquire 1, .acquire 1, .release 1, .release 1] ∧
      noRelock absorbHeap.held h1.locklog = false ∧ h1.held = absorbHeap.held :=
  ⟨absorbedHeap, rfl, rfl, rfl, rfl⟩

/-- C20 (evaluation at the failing input). The memory `tailHeap` satisfies the
reference-count invariant, and in it the bottom of every shadow object is the
end of its chain. `shadow_collapse` on `A` returns; it has absorbed `M1` and
then `M2`, which `C` still shadows: afterwards the live shadow object `C` has a
`shadowed` field that points to a destroyed object, so it has no chain and its
bottom is not the end of one. -/
theorem collapse_breaks_bottom_is_end :
    RefInv tailHeap tailExt ∧ BottomIsEnd tailHeap ∧
    ∃ h1 c, shadow_collapse 4 tailHeap 3 = .ok h1 ∧ h1.live 4 = some c ∧
      c.mo_type = .MOBJ_SHADOW ∧ c.shadowed = some 1 ∧ h1.live 1 = none ∧
      ¬ BottomIsEnd h1 := by
  refine ⟨by decide, ?_, tailAfter, _, rfl, rfl, rfl, rfl, rfl, ?_⟩
  · intro x xo hx hty
    match x with
    | 0 => cases hx; exact absurd hty (by decide)
    | 1 => exact ⟨[], 0, ⟨rfl, _, rfl, rfl, rfl, _, rfl, by decide⟩, by cases hx; rfl⟩
    | 2 => exact ⟨[1], 0, ⟨rfl, _, rfl, rfl, rfl, _, rfl, rfl, rfl, _, rfl, by decide⟩,
        by cases hx; rfl⟩
    | 3 => exact ⟨[2, 1], 0,
        ⟨rfl, _, rfl, rfl, rfl, _, rfl, rfl, rfl, _, rfl, rfl, rfl, _, rfl, by decide⟩,
        by cases hx; rfl⟩
    | 4 => exact ⟨[1], 0, ⟨rfl, _, rfl, rfl, rfl, _, rfl, rfl, rfl, _, rfl, by decide⟩,
        by cases hx; rfl⟩
    | n + 5 => cases hx
  · intro hinv
    obtain ⟨l, b, hc, _⟩ := hinv 4 (mkObj .MOBJ_SHADOW 1 [] (some 1) (some 0)) rfl rfl
    obtain ⟨_, xo, hxo, _, hrest⟩ := hc
    cases hxo
    cases l with
    | nil =>
      obtain ⟨hb, bo, hbo, _⟩ := hrest
      cases hb
      cases hbo
    | cons y l =>
      obtain ⟨hy, yo, hyo, _⟩ := hrest
      cases hy
      cases hyo

/-! ## Creation and destruction -/

/-- The object table a successful `shadow_create` leaves: the table before,
with the new object at its end and one reference more counted on `X` and on
the chosen bottom object `b0` (two more on `X` when it is its own bottom). -/
theorem shadow_create_objs (h : Heap) (X S : Nat) (h1 : Heap)
    (hcr : shadow_create true h X = .ok (some S, h1)) :
    ∃ xo b0 ob, h.live X = some xo ∧ S = h.objs.length ∧
      some b0 = (if xo.mo_type = .MOBJ_SHADOW then xo.bottom_mobj else some X) ∧
      b0 < h.objs.length ∧ ob.mo_type ≠ .MOBJ_SHADOW ∧ ob.freed = false ∧
      (b0 = X → ob = { xo with mo_refcount := xo.mo_refcount + 1 }) ∧
      (b0 ≠ X → h.live b0 = some ob) ∧
      h1.objs = ((h.objs ++ [mobj_init .MOBJ_SHADOW (some X) (some b0)]).set X
          { xo with mo_refcount := xo.mo_refcount + 1 }).set b0
          { ob with mo_refcount := ob.mo_refcount + 1 } := by
  unfold shadow_create at hcr
  simp only [Bool.true_eq_false, if_false] at hcr
  cases hX : h.live X with
  | none => simp [hX] at hcr
  | some xo =>
    have lX : liveIn h.objs X = some xo := hX
    have ltX := liveIn_lt lX
    have fX := (liveIn_get lX).2
    simp only [hX] at hcr
    have hX1 : liveIn (h.objs ++ [mobj_init .MOBJ_SHADOW (some X)
        (if xo.mo_type = .MOBJ_SHADOW then xo.bottom_mobj else some X)]) X = some xo := by
      rw [liveIn_append_left _ ltX]; exact lX
    simp only [mobj_ref, Heap.live, hX1] at hcr
    cases hb : (if xo.mo_type = .MOBJ_SHADOW then xo.bottom_mobj else some X) with
    | none => simp [hb] at hcr
    | some b0 =>
      simp only [hb] at hcr
      have hXS : X ≠ h.objs.length := by omega
      by_cases hbS : b0 = h.objs.length
      · subst hbS
        simp [Heap.setObj, Heap.live, liveIn_set_ne _ hXS, liveIn_append_length, mobj_init,
          mobj_lock, liveIn_set_same] at hcr
      · cases hob : liveIn ((h.objs ++ [mobj_init .MOBJ_SHADOW (some X) (some b0)]).set X
            { xo with mo_refcount := xo.mo_refcount + 1 }) b0 with
        | none => simp [Heap.setObj, hob] at hcr
        | some ob =>
          have fob := (liveIn_get hob).2
          have ltb0 : b0 < h.objs.length := by
            have := liveIn_lt hob
            simp at this
            omega
          have hSb : h.objs.length ≠ b0 := fun e => hbS e.symm
          have ltb1 : b0 < h.objs.length + 1 := by omega
          have hob2 := hob
          simp only [Heap.setObj, hob, mobj_lock, Heap.live] at hcr
          simp [liveIn_set_ne _ (Ne.symm hSb), liveIn_set_ne _ hXS, liveIn_append_length, mobj_init,
            liveIn_set_same, ltb1, fob] at hcr
          by_cases hty : ob.mo_type = .MOBJ_SHADOW
          · simp [hty] at hcr
          · simp only [hty, if_false] at hcr
            simp at hcr
            obtain ⟨hS, hh1⟩ := hcr
            subst hS
            subst hh1
            refine ⟨xo, b0, ob, rfl, rfl, hb.symm, ltb0, hty, fob, ?_, ?_, ?_⟩
            · intro e
              subst e
              have ltX1 : b0 < h.objs.length + 1 := by omega
              simp [liveIn_set_same, ltX1, fX] at hob2
              rw [← hob2]
              simp [fX]
            · intro e
              rw [liveIn_set_ne _ (Ne.symm e), liveIn_append_left _ ltb0] at hob2
              exact hob2
            · simp [mobj_init, fob]

/-- C13. Postcondition of a successful `shadow_create` on `X`: the returned
object is a new one (the first unused index); it has type shadow, its
`shadowed` field is `X`, its `bottom_mobj` field is that of `X` when `X` is a
shadow object and `X` itself otherwise, its reference count is 1, its page
cache is empty, and its lock is held. -/
theorem create_postcondition (h : Heap) (X S : Nat) (h1 : Heap)
    (hcr : shadow_create true h X = .ok (some S, h1)) :
    ∃ xo so, h.live X = some xo ∧ h.live S = none ∧ h1.live S = some so ∧
      so.mo_type = .MOBJ_SHADOW ∧ so.shadowed = some X ∧
      so.bottom_mobj = (if xo.mo_type = .MOBJ_SHADOW then xo.bottom_mobj else some X) ∧
      so.mo_refcount = 1 ∧ so.mo_pframes = [] ∧ S ∈ h1.held := by
  obtain ⟨xo, b0, bo1, hX, hS, hb0, hlS, _, _, hheld, _, _, _⟩ := shadow_create_ok h X S h1 hcr
  refine ⟨xo, _, hX, ?_, hlS, rfl, rfl, ?_, rfl, rfl, hheld⟩
  · rw [hS]
    simp [Heap.live, liveIn]
  · rw [← hb0]
    rfl

/-- Witness of `create_postcondition`: `shadow_create` on `A` in `absorbHeap`. -/
theorem create_postcondition_witness :
    ∃ xo so, absorbHeap.live 2 = some xo ∧ absorbHeap.live 3 = none ∧
      createdHeap.live 3 = some so ∧
      so.mo_type = .MOBJ_SHADOW ∧ so.shadowed = some 2 ∧
      so.bottom_mobj = (if xo.mo_type = .MOBJ_SHADOW then xo.bottom_mobj else some 2) ∧
      so.mo_refcount = 1 ∧ so.mo_pframes = [] ∧ 3 ∈ createdHeap.held :=
  create_postcondition absorbHeap 2 3 createdHeap rfl

/-- C14. Reference-count effect of `shadow_create` on `X`. When the allocation
fails, no object is returned and memory, so every reference count, is as
before. When it succeeds, every object that existed before has its count
raised by one if it is `X`, and by one if it is the bottom object chosen (so
by two when `X` is its own bottom), and is otherwise counted as before. -/
theorem create_refcount_effect (h : Heap) (X S : Nat) (h1 : Heap)
    (hcr : shadow_create true h X = .ok (some S, h1)) :
    shadow_create false h X = .ok (none, h) ∧
    ∃ xo b0, h.live X = some xo ∧
      some b0 = (if xo.mo_type = .MOBJ_SHADOW then xo.bottom_mobj else some X) ∧
      ∀ x yo, h.objs[x]? = some yo →
        ∃ yo1, h1.objs[x]? = some yo1 ∧
          yo1.mo_refcount
            = yo.mo_refcount + (if x = X then 1 else 0) + (if x = b0 then 1 else 0) := by
  refine ⟨rfl, ?_⟩
  obtain ⟨xo, b0, ob, hX, hS, hb0, ltb0, _, _, hbX, hbnX, hobjs⟩ := shadow_create_objs h X S h1 hcr
  have lX : liveIn h.objs X = some xo := hX
  have gX := (liveIn_get lX).1
  have ltX := liveIn_lt lX
  refine ⟨xo, b0, hX, hb0, fun x yo hx => ?_⟩
  have ltx : x < h.objs.length := (List.getElem?_eq_some.1 hx).1
  have ltb1 : b0 < h.objs.length + 1 := by omega
  have ltX1 : X < h.objs.length + 1 := by omega
  rw [hobjs]
  by_cases hxb : x = b0
  · subst hxb
    refine ⟨{ ob with mo_refcount := ob.mo_refcount + 1 }, by simp [ltb1], ?_⟩
    by_cases hxX : x = X
    · subst hxX
      rw [gX] at hx
      cases hx
      rw [hbX rfl]
      simp
    · have hl : liveIn h.objs x = some ob := hbnX hxX
      rw [(liveIn_get hl).1] at hx
      cases hx
      simp [hxX]
  · by_cases hxX : x = X
    · subst hxX
      rw [gX] at hx
      cases hx
      refine ⟨{ xo with mo_refcount := xo.mo_refcount + 1 }, ?_, by simp [hxb]⟩
      simp [List.getElem?_set_ne (Ne.symm hxb), ltX1]
    · refine ⟨yo, ?_, by simp [hxb, hxX]⟩
      simp [List.getElem?_set_ne (Ne.symm hxb), List.getElem?_set_ne (Ne.symm hxX),
        List.getElem?_append_left ltx, hx]

/-- Witness of `create_refcount_effect`: `shadow_create` on `A` in `absorbHeap`,
where `A` gains one reference and the bottom object `Z` gains one. -/
theorem create_refcount_effect_witness :
    shadow_create false absorbHeap 2 = .ok (none, absorbHeap) ∧
    ∃ xo b0, absorbHeap.live 2 = some xo ∧
      some b0 = (if xo.mo_type = .MOBJ_SHADOW then xo.bottom_mobj else some 2) ∧
      ∀ x yo, absorbHeap.objs[x]? = some yo →
        ∃ yo1, createdHeap.objs[x]? = some yo1 ∧
          yo1.mo_refcount
            = yo.mo_refcount + (if x = 2 then 1 else 0) + (if x = b0 then 1 else 0) :=
  create_refcount_effect absorbHeap 2 3 createdHeap rfl

theorem getElem?_append_singleton_ne {α : Type} (l : List α) (a b : α) (i : Nat)
    (hi : i ≠ l.length) : (l ++ [a])[i]? = (l ++ [b])[i]? := by
  by_cases hlt : i < l.length
  · rw [List.getElem?_append_left hlt, List.getElem?_append_left hlt]
  · rw [List.getElem?_eq_none (by simp; omega), List.getElem?_eq_none (by simp; omega)]

theorem mobj_unfreed_eta (o : Mobj) (hf : o.freed = false) : { o with freed := false } = o := by
  cases o
  simp_all

/-- C15. Create/destroy balance. Let `X` be a live object with reference count
at least 1 whose bottom object, when `X` is a shadow object, is counted at
least once. Create `S` over `X`, then release the only reference on `S`: the
release returns, having run the destructor of `S`, and the object table is the
table before the creation followed by the destroyed `S`. So every object that
existed before is exactly as it was: the references taken on `X` and on the
bottom object have been given back, one each, and no other object has been
destroyed. -/
theorem create_destroy_balance (h : Heap) (X S : Nat) (h1 : Heap) (xo : Mobj) (fuel : Nat)
    (hcr : shadow_create true h X = .ok (some S, h1))
    (hX : h.live X = some xo) (hrc : 1 ≤ xo.mo_refcount)
    (hbrc : ∀ b bo, xo.bottom_mobj = some b → h.live b = some bo → 1 ≤ bo.mo_refcount)
    (hfuel : 2 ≤ fuel) :
    ∃ h2, mobj_put fuel h1 S = .ok h2 ∧ h2.objs = h.objs ++ [deadShadow] ∧
      h2.live S = none ∧ ∀ (x : Nat) (yo : Mobj), h.objs[x]? = some yo → h2.objs[x]? = some yo := by
  obtain ⟨n, rfl⟩ : ∃ n, fuel = n + 2 := ⟨fuel - 2, by omega⟩
  obtain ⟨xo2, b0, ob, hX2, hS, hb0, ltb0, hobty, hobf, hbX, hbnX, hobjs⟩ :=
    shadow_create_objs h X S h1 hcr
  rw [hX] at hX2
  cases hX2
  have lX : liveIn h.objs X = some xo := hX
  have gX := (liveIn_get lX).1
  have fX := (liveIn_get lX).2
  have ltX := liveIn_lt lX
  have ltb1 : b0 < h.objs.length + 1 := by omega
  have ltX1 : X < h.objs.length + 1 := by omega
  have hXS : X ≠ h.objs.length := by omega
  have hbS : b0 ≠ h.objs.length := by omega
  subst hS
  have hfin : ∀ h2 : Heap, h2.objs = h.objs ++ [deadShadow] →
      h2.objs = h.objs ++ [deadShadow] ∧ h2.live h.objs.length = none ∧
        ∀ (x : Nat) (yo : Mobj), h.objs[x]? = some yo → h2.objs[x]? = some yo := by
    intro h2 e
    refine ⟨e, by simp [Heap.live, e, liveIn, deadShadow], fun x yo hx => ?_⟩
    have ltx : x < h.objs.length := (List.getElem?_eq_some.1 hx).1
    rw [e, List.getElem?_append_left ltx, hx]
  have hSX : h.objs.length ≠ X := Ne.symm hXS
  have hSb : h.objs.length ≠ b0 := Ne.symm hbS
  have heta := mobj_unfreed_eta xo fX
  suffices hkey : ∃ h2, mobj_put (n + 2) h1 h.objs.length = .ok h2 ∧
      h2.objs = h.objs ++ [deadShadow] by
    obtain ⟨h2, hp, e⟩ := hkey
    exact ⟨h2, hp, hfin h2 e⟩
  by_cases hbX0 : b0 = X
  · subst hbX0
    have hob := hbX rfl
    subst hob
    have e1 : xo.mo_refcount + 1 + 1 ≠ 0 := by omega
    have e2 : xo.mo_refcount + 1 ≠ 0 := by omega
    have e3 : xo.mo_refcount ≠ 0 := by omega
    simp [mobj_put, shadow_destructor, mobj_default_destructor, slab_obj_free, Heap.live,
      Heap.setObj, hobjs, liveIn_set_same, liveIn_set_ne _ hXS, liveIn_set_ne _ hSX,
      liveIn_append_length, mobj_init, ltX1, fX, e1, e2, e3]
    apply List.ext_getElem?
    intro i
    by_cases hi : i = h.objs.length
    · subst hi
      simp [deadShadow]
    · by_cases hib : i = b0
      · subst hib
        simp [List.getElem?_set_ne (Ne.symm hi), ltX1, heta, List.getElem?_append_left ltX, gX]
      · simp only [List.getElem?_set_ne (Ne.symm hi), List.getElem?_set_ne (Ne.symm hib)]
        exact getElem?_append_singleton_ne _ _ _ _ hi
  · have hlb : liveIn h.objs b0 = some ob := hbnX hbX0
    have gb := (liveIn_get hlb).1
    have hetab := mobj_unfreed_eta ob hobf
    have hXb : X ≠ b0 := Ne.symm hbX0
    have hbot : xo.bottom_mobj = some b0 := by
      by_cases hty : xo.mo_type = .MOBJ_SHADOW
      · simp only [hty, if_true] at hb0
        exact hb0.symm
      · simp only [hty, if_false] at hb0
        exact absurd (Option.some.inj hb0) hbX0
    have hbr := hbrc b0 ob hbot hlb
    have e1 : xo.mo_refcount + 1 ≠ 0 := by omega
    have e2 : xo.mo_refcount ≠ 0 := by omega
    have e3 : ob.mo_refcount + 1 ≠ 0 := by omega
    have e4 : ob.mo_refcount ≠ 0 := by omega
    simp [mobj_put, shadow_destructor, mobj_default_destructor, slab_obj_free, Heap.live,
      Heap.setObj, hobjs, liveIn_set_same, liveIn_set_ne _ hXS, liveIn_set_ne _ hSX,
      liveIn_set_ne _ hbS, liveIn_set_ne _ hSb, liveIn_set_ne _ hbX0, liveIn_set_ne _ hXb,
      liveIn_append_length, mobj_init, ltX1, ltb1, fX, hobf, e1, e2, e3, e4]
    apply List.ext_getElem?
    intro i
    by_cases hi : i = h.objs.length
    · subst hi
      simp [deadShadow]
    · by_cases hib : i = b0
      · subst hib
        simp [List.getElem?_set_ne (Ne.symm hi), ltb1, hetab, List.getElem?_append_left ltb0, gb]
      · by_cases hiX : i = X
        · subst hiX
          simp [List.getElem?_set_ne (Ne.symm hi), List.getElem?_set_ne (Ne.symm hib), ltX1, heta,
            List.getElem?_append_left ltX, gX]
        · simp only [List.getElem?_set_ne (Ne.symm hi), List.getElem?_set_ne (Ne.symm hib),
            List.getElem?_set_ne (Ne.symm hiX)]
          exact getElem?_append_singleton_ne _ _ _ _ hi

/-- Witness of `create_destroy_balance`: a shadow object created over `A` in
`absorbHeap` and released again. -/
theorem create_destroy_balance_witness :
    ∃ h2, mobj_put 2 createdHeap 3 = .ok h2 ∧ h2.objs = absorbHeap.objs ++ [deadShadow] ∧
      h2.live 3 = none ∧
      ∀ (x : Nat) (yo : Mobj), absorbHeap.objs[x]? = some yo → h2.objs[x]? = some yo :=
  create_destroy_balance absorbHeap 2 3 createdHeap (mkObj .MOBJ_SHADOW 1 [] (some 1) (some 0)) 2
    rfl rfl (by decide)
    (fun b bo hb hl => by
      cases hb
      cases hl
      decide)
    (by decide)

/-! ## Error propagation -/

/-- A failed fetch of a non-shadow object leaves memory as it was. -/
theorem other_get_fail_heap (E : Ext) (h : Heap) (b P : Nat) (fw : Bool) (bo : Mobj) (r : GetRes)
    (hb : h.live b = some bo) (hr : other_get_pframe E h b P fw = .ok r) (hst : r.status ≠ 0) :
    r.heap = h := by
  rw [other_get_pframe_eq E h b P fw bo hb] at hr
  cases hfind : find_pframe bo.mo_pframes P with
  | some i =>
    simp only [hfind] at hr
    cases hr
    exact absurd rfl hst
  | none =>
    simp only [hfind] at hr
    by_cases ha : E.page_alloc b P = 0
    · by_cases hs : (E.backing b P).1 = 0
      · simp only [ha, hs, ne_eq, not_true_eq_false, if_false, if_true] at hr
        cases hr
        exact absurd rfl hst
      · simp only [ha, hs, ne_eq, not_true_eq_false, if_false] at hr
        cases hr
        rfl
    · simp only [ha, ne_eq, not_false_eq_true, if_true] at hr
      cases hr
      rfl

/-- C11. Error propagation. Let `o` be a shadow object, locked by the caller,
whose chain `o :: l` ends in the non-shadow object `b`, and `pf` a frame of
`o`. With write intent `shadow_get_pframe` returns exactly what the generic
create-and-fill fetch returns. With write intent clear it returns status 0 when
an object of the chain caches the page, and otherwise exactly the status of
the page fetch of `b`. `shadow_fill_pframe` returns status 0 when a shadow
ancestor caches the page, and otherwise exactly the status of the page fetch
of `b`; when that status is not 0 the target frame is as it was. -/
theorem error_propagation (E : Ext) (h : Heap) (o : Nat) (l : List Nat) (b P fuel : Nat)
    (so : Mobj) (bt : Nat) (bto : Mobj) (pf : PfRef) (f : Pframe)
    (hc : IsChain h (some o) (o :: l) b) (hso : h.live o = some so)
    (hbm : so.bottom_mobj = some bt) (hbt : h.live bt = some bto)
    (hbty : bto.mo_type ≠ .MOBJ_SHADOW) (hheld : o ∈ h.held) (hfuel : l.length < fuel)
    (hf : h.frameAt pf = some f) :
    shadow_get_pframe fuel E h o P true
      = mobj_default_get_pframe E (shadow_fill_pframe fuel E) h o P true ∧
    (∃ r, shadow_get_pframe fuel E h o P false = .ok r ∧
      (firstCaching h P (o :: l) ≠ none → r.status = 0) ∧
      (firstCaching h P (o :: l) = none →
        ∃ rb, other_get_pframe E h b P false = .ok rb ∧ r.status = rb.status)) ∧
    (∃ st h1, shadow_fill_pframe fuel E h o pf = .ok (st, h1) ∧
      (firstCaching h f.pf_pagenum l ≠ none → st = 0) ∧
      (firstCaching h f.pf_pagenum l = none →
        ∃ rb, other_get_pframe E h b f.pf_pagenum false = .ok rb ∧ st = rb.status ∧
          (rb.status ≠ 0 → h1.frameAt pf = h.frameAt pf))) := by
  have hself := IsChain_not_self hc hso
  have lo : liveIn h.objs o = some so := hso
  have lbt : liveIn h.objs bt = some bto := hbt
  have hread := shadow_get_read_chain E h o l b P fuel so bt bto hc hso hbm hbt hbty hheld hfuel
  obtain ⟨_, so2, hso2, _, hrest⟩ := hc
  rw [hso] at hso2
  cases hso2
  have hw := fill_walk_chain E pf f.pf_pagenum l h so.shadowed b fuel hrest hfuel
  have hfill : shadow_fill_pframe fuel E h o pf
      = fill_walk E pf f.pf_pagenum fuel h so.shadowed := by
    simp [shadow_fill_pframe, Heap.live, lo, hheld, hf]
  refine ⟨?_, ?_, ?_⟩
  · simp [shadow_get_pframe, Heap.live, lo, hbm, lbt, hbty, hself, hheld]
  · cases hfc : firstCaching h P (o :: l) with
    | some src =>
      obtain ⟨h1, hr, _⟩ := hread.1 src hfc
      exact ⟨_, hr, fun _ => rfl, fun hn => by cases hn⟩
    | none =>
      obtain ⟨rb, h1, hrb, hr, _⟩ := hread.2 hfc
      exact ⟨_, hr, fun hn => absurd rfl hn, fun _ => ⟨rb, hrb, rfl⟩⟩
  · rw [hfill]
    cases hfc : firstCaching h f.pf_pagenum l with
    | some src =>
      obtain ⟨g, h1, _, hr, _, _⟩ := hw.1 src hfc
      exact ⟨0, h1, hr, fun _ => rfl, fun hn => by cases hn⟩
    | none =>
      obtain ⟨rb, h1, hrb, hr, hfail, _, _⟩ := hw.2 hfc
      refine ⟨rb.status, h1, hr, fun hn => absurd rfl hn, fun _ => ⟨rb, hrb, rfl, fun hne => ?_⟩⟩
      obtain ⟨bo, hb, _⟩ := IsChain_bottom _ _ _ hrest
      rw [frameAt_congr (hfail hne), other_get_fail_heap E h b _ false bo rb hb hrb hne]

/-- Witness of `error_propagation`: in `fillHeap`, with a backing store that
fails with status -5, page 3 is cached by no shadow object, and the frame of
`A` for page 1 has no shadow ancestor to be filled from. -/
theorem error_propagation_witness :
    shadow_get_pframe 2 eioExt fillHeap 2 3 true
      = mobj_default_get_pframe eioExt (shadow_fill_pframe 2 eioExt) fillHeap 2 3 true ∧
    (∃ r, shadow_get_pframe 2 eioExt fillHeap 2 3 false = .ok r ∧
      (firstCaching fillHeap 3 [2, 1] ≠ none → r.status = 0) ∧
      (firstCaching fillHeap 3 [2, 1] = none →
        ∃ rb, other_get_pframe eioExt fillHeap 0 3 false = .ok rb ∧ r.status = rb.status)) ∧
    (∃ st h1, shadow_fill_pframe 2 eioExt fillHeap 2 ⟨2, 1⟩ = .ok (st, h1) ∧
      (firstCaching fillHeap 1 [1] ≠ none → st = 0) ∧
      (firstCaching fillHeap 1 [1] = none →
        ∃ rb, other_get_pframe eioExt fillHeap 0 1 false = .ok rb ∧ st = rb.status ∧
          (rb.status ≠ 0 → h1.frameAt ⟨2, 1⟩ = fillHeap.frameAt ⟨2, 1⟩))) :=
  error_propagation eioExt fillHeap 2 [1] 0 3 2
    (mkObj .MOBJ_SHADOW 1 [⟨0, []⟩, ⟨1, []⟩] (some 1) (some 0)) 0
    (mkObj .MOBJ_OTHER 3 [] none none) ⟨2, 1⟩ ⟨1, []⟩
    ⟨rfl, _, rfl, rfl, rfl, _, rfl, rfl, rfl, _, rfl, by decide⟩
    rfl rfl rfl (by decide) (by decide) (by decide) rfl

/-! ## What collapse and release keep -/

theorem live_objs {h : Heap} {i : Nat} {o : Mobj} (hl : h.live i = some o) :
    h.objs[i]? = some o ∧ o.freed = false :=
  liveIn_get hl

theorem live_of_objs {h : Heap} {i : Nat} {o : Mobj} (hg : h.objs[i]? = some o)
    (hf : o.freed = false) : h.live i = some o := by
  simp [Heap.live, liveIn, hg, hf]

theorem Keeps_of_objs_eq (ex : Option Nat) {h h1 : Heap} (e : h1.objs = h.objs) :
    Keeps ex h h1 := by
  refine ⟨by rw [e], fun i o1 hi => ⟨o1, by rw [← e]; exact hi, rfl⟩, fun i o1 _ hi => ?_⟩
  exact ⟨o1, by rw [← live_congr e]; exact hi, rfl, rfl⟩

theorem Keeps_refl (ex : Option Nat) (h : Heap) : Keeps ex h h :=
  Keeps_of_objs_eq ex rfl

theorem Keeps_trans {ex : Option Nat} {h h1 h2 : Heap} (k1 : Keeps ex h h1)
    (k2 : Keeps ex h1 h2) : Keeps ex h h2 := by
  obtain ⟨a1, b1, c1⟩ := k1
  obtain ⟨a2, b2, c2⟩ := k2
  refine ⟨by rw [a2, a1], fun i o2 hi => ?_, fun i o2 hex hi => ?_⟩
  · obtain ⟨o1, ho1, t1⟩ := b2 i o2 hi
    obtain ⟨o, ho, t⟩ := b1 i o1 ho1
    exact ⟨o, ho, by rw [t1, t]⟩
  · obtain ⟨o1, ho1, s1, m1⟩ := c2 i o2 hex hi
    obtain ⟨o, ho, s, m⟩ := c1 i o1 hex ho1
    exact ⟨o, ho, by rw [s1, s], by rw [m1, m]⟩

theorem Keeps_mono {ex : Option Nat} {h h1 : Heap} (k : Keeps none h h1) : Keeps ex h h1 := by
  obtain ⟨a, b, c⟩ := k
  exact ⟨a, b, fun i o1 _ hi => c i o1 (by simp) hi⟩

/-- A store to an object keeps memory when it keeps the type tag of the object
and, unless the object is the exempted one or is left freed, its liveness and
its two pointer fields. -/
theorem Keeps_setObj (ex : Option Nat) {h : Heap} {i : Nat} {o : Mobj} (o1 : Mobj)
    (hg : h.objs[i]? = some o) (hty : o1.mo_type = o.mo_type)
    (hk : some i ≠ ex → o1.freed = false →
      o.freed = false ∧ o1.shadowed = o.shadowed ∧ o1.bottom_mobj = o.bottom_mobj) :
    Keeps ex h (h.setObj i o1) := by
  have hlt : i < h.objs.length := (List.getElem?_eq_some.1 hg).1
  refine ⟨by simp [Heap.setObj], fun j oj hj => ?_, fun j oj hex hj => ?_⟩
  · by_cases hij : i = j
    · subst hij
      simp [Heap.setObj, hlt] at hj
      subst hj
      exact ⟨o, hg, hty⟩
    · simp only [Heap.setObj, List.getElem?_set_ne hij] at hj
      exact ⟨oj, hj, rfl⟩
  · by_cases hij : i = j
    · subst hij
      have hj2 : liveIn (h.objs.set i o1) i = some oj := hj
      rw [liveIn_set_same _ hlt] at hj2
      by_cases hf : o1.freed = true
      · simp [hf] at hj2
      · simp only [hf] at hj2
        simp at hj2 hf
        subst hj2
        obtain ⟨h1, h2, h3⟩ := hk hex hf
        exact ⟨o, live_of_objs hg h1, h2, h3⟩
    · have hj2 : liveIn (h.objs.set i o1) j = some oj := hj
      rw [liveIn_set_ne _ hij] at hj2
      exact ⟨oj, hj2, rfl, rfl⟩

/-- Freeing the exempted object removes the exemption. -/
theorem Keeps_free {h h3 : Heap} {o : Nat} {ob : Mobj} (k : Keeps (some o) h h3)
    (hl : h3.live o = some ob) : Keeps none h (h3.setObj o { ob with freed := true }) := by
  obtain ⟨a, b, c⟩ := k
  have hg := (live_objs hl).1
  have hlt : o < h3.objs.length := (List.getElem?_eq_some.1 hg).1
  refine ⟨by simp [Heap.setObj, a], fun j oj hj => ?_, fun j oj _ hj => ?_⟩
  · by_cases hij : o = j
    · subst hij
      simp [Heap.setObj, hlt] at hj
      subst hj
      exact b o ob hg
    · simp only [Heap.setObj, List.getElem?_set_ne hij] at hj
      exact b j oj hj
  · by_cases hij : o = j
    · subst hij
      have hj2 : liveIn (h3.objs.set o { ob with freed := true }) o = some oj := hj
      rw [liveIn_set_same _ hlt] at hj2
      simp at hj2
    · have hj2 : liveIn (h3.objs.set o { ob with freed := true }) j = some oj := hj
      rw [liveIn_set_ne _ hij] at hj2
      exact c j oj (fun e => hij (Option.some.inj e).symm) hj2

/-- The destructor of a shadow object keeps memory, when the release it calls
does. -/
theorem shadow_destructor_keeps (put : Heap → Nat → Res Heap)
    (hput : ∀ h x h1, put h x = .ok h1 → Keeps none h h1)
    (h : Heap) (o : Nat) (h1 : Heap) (hd : shadow_destructor put h o = .ok h1) :
    Keeps none h h1 := by
  unfold shadow_destructor mobj_default_destructor at hd
  cases hl : h.live o with
  | none => simp [hl] at hd
  | some ob =>
    simp only [hl] at hd
    have k1 : Keeps (some o) h (h.setObj o { ob with mo_pframes := [] }) :=
      Keeps_setObj _ _ (live_objs hl).1 rfl (fun _ _ => ⟨(live_objs hl).2, rfl, rfl⟩)
    cases hl1 : (h.setObj o { ob with mo_pframes := [] }).live o with
    | none => simp [hl1] at hd
    | some so =>
      simp only [hl1] at hd
      cases hs : so.shadowed with
      | none => simp [hs] at hd
      | some s =>
        simp only [hs] at hd
        cases hls : (h.setObj o { ob with mo_pframes := [] }).live s with
        | none => simp [hls] at hd
        | some sob =>
          simp only [hls] at hd
          by_cases hrc : sob.mo_refcount = 0
          · simp [hrc] at hd
          · simp only [hrc, if_false] at hd
            have k2 : Keeps (some o) (h.setObj o { ob with mo_pframes := [] })
                ((h.setObj o { ob with mo_pframes := [] }).setObj o { so with shadowed := none }) :=
              Keeps_setObj _ _ (live_objs hl1).1 rfl (fun hne => absurd rfl hne)
            cases hp1 : put ((h.setObj o { ob with mo_pframes := [] }).setObj o
                { so with shadowed := none }) s with
            | panic => simp [hp1] at hd
            | outOfFuel => simp [hp1] at hd
            | ok h2 =>
              simp only [hp1] at hd
              have k3 : Keeps (some o) h h2 :=
                Keeps_trans (Keeps_trans k1 k2) (Keeps_mono (hput _ _ _ hp1))
              cases hl2 : h2.live o with
              | none => simp [hl2] at hd
              | some so2 =>
                simp only [hl2] at hd
                cases hb : so2.bottom_mobj with
                | none => simp [hb] at hd
                | some b =>
                  simp only [hb] at hd
                  have k4 : Keeps (some o) h2 (h2.setObj o { so2 with bottom_mobj := none }) :=
                    Keeps_setObj _ _ (live_objs hl2).1 rfl (fun hne => absurd rfl hne)
                  cases hp2 : put (h2.setObj o { so2 with bottom_mobj := none }) b with
                  | panic => simp [hp2] at hd
                  | outOfFuel => simp [hp2] at hd
                  | ok h3 =>
                    simp only [hp2] at hd
                    have k5 : Keeps (some o) h h3 :=
                      Keeps_trans (Keeps_trans k3 k4) (Keeps_mono (hput _ _ _ hp2))
                    unfold slab_obj_free at hd
                    cases hl3 : h3.live o with
                    | none => simp [hl3] at hd
                    | some ob3 =>
                      simp only [hl3] at hd
                      cases hd
                      exact Keeps_free k5 hl3

/-- A release keeps memory: whatever cascade of destructions it starts, every
object still live afterwards has the type and the pointer fields it had. -/
theorem mobj_put_keeps :
    ∀ (fuel : Nat) (h : Heap) (x : Nat) (h1 : Heap), mobj_put fuel h x = .ok h1 →
      Keeps none h h1 := by
  intro fuel
  induction fuel with
  | zero => intro h x h1 hp; simp [mobj_put] at hp
  | succ n ih =>
    intro h x h1 hp
    unfold mobj_put at hp
    cases hl : h.live x with
    | none => simp [hl] at hp
    | some ob =>
      simp only [hl] at hp
      by_cases hrc : ob.mo_refcount = 0
      · simp [hrc] at hp
      · simp only [hrc, if_false] at hp
        have k1 : Keeps none h (h.setObj x { ob with mo_refcount := ob.mo_refcount - 1 }) :=
          Keeps_setObj _ _ (live_objs hl).1 rfl (fun _ _ => ⟨(live_objs hl).2, rfl, rfl⟩)
        generalize h.setObj x { ob with mo_refcount := ob.mo_refcount - 1 } = hh at hp k1
        by_cases hz : ob.mo_refcount - 1 = 0
        · rw [if_pos hz] at hp
          cases hty : ob.mo_type with
          | MOBJ_SHADOW =>
            rw [hty] at hp
            exact Keeps_trans k1 (shadow_destructor_keeps (mobj_put n) ih _ _ _ hp)
          | MOBJ_OTHER =>
            rw [hty] at hp
            dsimp only at hp
            unfold other_destructor mobj_default_destructor slab_obj_free at hp
            cases hl1 : hh.live x with
            | none => simp [hl1] at hp
            | some ob1 =>
              simp only [hl1] at hp
              have k2 := Keeps_setObj none (h := hh)
                { ob1 with mo_pframes := [] } (live_objs hl1).1 rfl
                (fun _ _ => ⟨(live_objs hl1).2, rfl, rfl⟩)
              cases hl2 : (hh.setObj x { ob1 with mo_pframes := [] }).live x with
              | none => simp [hl2] at hp
              | some ob2 =>
                simp only [hl2] at hp
                cases hp
                exact Keeps_trans k1 (Keeps_trans k2 (Keeps_free (Keeps_mono (Keeps_refl _ _)) hl2))
        · rw [if_neg hz] at hp
          cases hp
          exact k1

/-- The frame loop of `shadow_collapse` keeps memory: it moves frames only. -/
theorem collapse_migrate_keeps (m cur : Nat) :
    ∀ (frames : List Pframe) (h h1 : Heap), collapse_migrate m cur frames h = .ok h1 →
      Keeps none h h1 := by
  intro frames
  induction frames with
  | nil =>
    intro h h1 hm
    simp only [collapse_migrate] at hm
    cases hm
    exact Keeps_refl _ _
  | cons f fs ih =>
    intro h h1 hm
    simp only [collapse_migrate, mobj_lock, mobj_unlock, Heap.live] at hm
    cases hl : liveIn h.objs cur with
    | none => simp [hl] at hm
    | some co =>
      simp only [hl] at hm
      cases hfind : find_pframe co.mo_pframes f.pf_pagenum with
      | some i =>
        simp only [hfind, pframe_release] at hm
        have k := ih _ _ hm
        exact Keeps_trans (Keeps_of_objs_eq none rfl) k
      | none =>
        simp only [hfind] at hm
        cases hlm : liveIn h.objs m with
        | none => simp [hlm] at hm
        | some mo =>
          simp only [hlm] at hm
          obtain ⟨hu, hudef⟩ : ∃ hu : Heap, hu =
              { h with held := (if cur ∈ h.held then h.held else cur :: h.held).filter
                         (fun x => x ≠ cur),
                       locklog := h.locklog ++ [LockEv.acquire cur] ++ [LockEv.release cur] } :=
            ⟨_, rfl⟩
          rw [← hudef] at hm
          have hum : hu.live m = some mo := by rw [hudef]; exact hlm
          have k1 : Keeps none h hu := Keeps_of_objs_eq none (by rw [hudef])
          have k2 : Keeps none hu (hu.setObj m { mo with mo_pframes := mo.mo_pframes.erase f }) :=
            Keeps_setObj _ _ (live_objs hum).1 rfl (fun _ _ => ⟨(live_objs hum).2, rfl, rfl⟩)
          cases hl3 : liveIn (hu.setObj m { mo with mo_pframes := mo.mo_pframes.erase f }).objs
              cur with
          | none => simp [hl3] at hm
          | some co3 =>
            simp only [hl3] at hm
            have hl3' : (hu.setObj m { mo with mo_pframes := mo.mo_pframes.erase f }).live cur
                = some co3 := hl3
            have k3 := Keeps_setObj none
              (h := hu.setObj m { mo with mo_pframes := mo.mo_pframes.erase f })
              { co3 with mo_pframes := co3.mo_pframes ++ [f] } (live_objs hl3').1 rfl
              (fun _ _ => ⟨(live_objs hl3').2, rfl, rfl⟩)
            exact Keeps_trans k1 (Keeps_trans k2 (Keeps_trans k3 (ih _ _ hm)))

/-- One run of the loop body of `shadow_collapse`, entered with the loop
condition true, is a `CollapseStep`. -/
theorem collapse_body_step (fuel : Nat) (h : Heap) (O c : Nat) (h1 : Heap) (c1 : Option Nat)
    (hcond : collapse_cond h O (some c) = .ok true)
    (hb : collapse_body fuel h O c = .ok (h1, c1)) : CollapseStep O h h1 := by
  unfold collapse_cond at hcond
  unfold collapse_body at hb
  cases hlO : h.live O with
  | none => simp [hlO] at hb
  | some so =>
    simp only [hlO] at hb hcond
    cases hs : so.shadowed with
    | none => simp [hs] at hb
    | some m =>
      simp only [hs] at hb hcond
      cases hlm : h.live m with
      | none => simp [hlm] at hb
      | some mo =>
        simp only [hlm] at hb hcond
        have hmty : mo.mo_type = .MOBJ_SHADOW := by simpa using hcond
        by_cases hrc : mo.mo_refcount = 1
        · simp only [hrc, if_true, mobj_lock, hlm] at hb
          obtain ⟨hL, hLdef⟩ : ∃ hL : Heap, hL =
              { h with held := if m ∈ h.held then h.held else m :: h.held,
                       locklog := h.locklog ++ [LockEv.acquire m] } := ⟨_, rfl⟩
          rw [← hLdef] at hb
          have kL : Keeps none h hL := Keeps_of_objs_eq none (by rw [hLdef])
          cases hmig : collapse_migrate m c mo.mo_pframes hL with
          | panic => simp [hmig] at hb
          | outOfFuel => simp [hmig] at hb
          | ok h2 =>
            simp only [hmig] at hb
            have k2 : Keeps none h h2 := Keeps_trans kL (collapse_migrate_keeps m c _ _ _ hmig)
            cases hl2 : h2.live O with
            | none => simp [hl2] at hb
            | some so2 =>
              simp only [hl2] at hb
              obtain ⟨so', hso', es, eb⟩ := k2.2.2 O so2 (by simp) hl2
              rw [hlO] at hso'
              cases hso'
              rw [es, hs] at hb
              simp only at hb
              cases hlr : h2.live m with
              | none => simp [hlr] at hb
              | some sub =>
                simp only [hlr] at hb
                obtain ⟨mo', hmo', esub, _⟩ := k2.2.2 m sub (by simp) hlr
                rw [hlm] at hmo'
                cases hmo'
                obtain ⟨h3, h3def⟩ : ∃ h3 : Heap, h3 =
                    h2.setObj O { so2 with shadowed := sub.shadowed } := ⟨_, rfl⟩
                rw [← h3def] at hb
                have k3 : Keeps (some O) h2 h3 := by
                  rw [h3def]
                  exact Keeps_setObj _ _ (live_objs hl2).1 rfl (fun hne => absurd rfl hne)
                have hl3O : h3.live O = some { so2 with shadowed := sub.shadowed } := by
                  have hlt := liveIn_lt (show liveIn h2.objs O = some so2 from hl2)
                  rw [h3def]
                  simp [Heap.live, Heap.setObj, liveIn_set_same, hlt, (live_objs hl2).2]
                cases hl3 : h3.live m with
                | none => simp [hl3] at hb
                | some ro =>
                  simp only [hl3] at hb
                  by_cases hro : ro.mo_refcount = 0
                  · simp [hro] at hb
                  · simp only [hro, if_false, mobj_put_locked, mobj_unlock, hl3] at hb
                    obtain ⟨hU, hUdef⟩ : ∃ hU : Heap, hU =
                        { h3 with held := h3.held.filter (fun x => x ≠ m),
                                  locklog := h3.locklog ++ [LockEv.release m] } := ⟨_, rfl⟩
                    rw [← hUdef] at hb
                    have eU : hU.objs = h3.objs := by rw [hUdef]
                    cases hp : mobj_put fuel hU m with
                    | panic => simp [hp] at hb
                    | outOfFuel => simp [hp] at hb
                    | ok h4 =>
                      simp only [hp] at hb
                      cases hb
                      have k4 : Keeps none h3 h1 :=
                        Keeps_trans (Keeps_of_objs_eq none eU) (mobj_put_keeps _ _ _ _ hp)
                      refine ⟨Keeps_trans (Keeps_mono k2) (Keeps_trans k3 (Keeps_mono k4)), ?_⟩
                      intro o1 ho1
                      obtain ⟨o3, ho3, e1, e2⟩ := k4.2.2 O o1 (by simp) ho1
                      rw [hl3O] at ho3
                      cases ho3
                      refine ⟨so, hlO, by rw [e2]; exact eb, Or.inr ⟨m, mo, hs, hlm, hmty, ?_⟩⟩
                      rw [e1]
                      exact esub
        · simp only [hrc, if_false] at hb
          cases hb
          exact ⟨Keeps_refl _ _, fun o1 ho1 => ⟨o1, ho1, rfl, Or.inl rfl⟩⟩

/-- The loop of `shadow_collapse`, when it returns, has gone through a sequence
of `CollapseStep`s. -/
theorem collapse_loop_steps (O : Nat) :
    ∀ (fuel : Nat) (h : Heap) (cur : Option Nat) (h1 : Heap),
      collapse_loop O fuel h cur = .ok h1 → Relation.ReflTransGen (CollapseStep O) h h1 := by
  intro fuel
  induction fuel with
  | zero => intro h cur h1 hl; simp [collapse_loop] at hl
  | succ n ih =>
    intro h cur h1 hl
    simp only [collapse_loop] at hl
    cases hcond : collapse_cond h O cur with
    | panic => simp [hcond] at hl
    | outOfFuel => simp [hcond] at hl
    | ok bcond =>
      cases bcond with
      | false =>
        simp only [hcond] at hl
        cases hl
        exact Relation.ReflTransGen.refl
      | true =>
        simp only [hcond] at hl
        cases cur with
        | none =>
          simp only at hl
          cases hl
          exact Relation.ReflTransGen.refl
        | some c =>
          simp only at hl
          cases hb : collapse_body n h O c with
          | panic => simp [hb] at hl
          | outOfFuel => simp [hb] at hl
          | ok res =>
            obtain ⟨h2, c2⟩ := res
            simp only [hb] at hl
            exact Relation.ReflTransGen.head (collapse_body_step n h O c h2 c2 hcond hb)
              (ih h2 c2 h1 hl)

theorem shadow_collapse_steps (fuel : Nat) (h : Heap) (O : Nat) (h1 : Heap)
    (hc : shadow_collapse fuel h O = .ok h1) : Relation.ReflTransGen (CollapseStep O) h h1 := by
  unfold shadow_collapse at hc
  cases hl : h.live O with
  | none => simp [hl] at hc
  | some so =>
    simp only [hl] at hc
    exact collapse_loop_steps O fuel h _ h1 hc

/-- The object table after a successful `shadow_create`, entry by entry: one
entry more, the new object; every earlier entry is the object it was, up to its
reference count. -/
theorem shadow_create_table (h : Heap) (X S : Nat) (h1 : Heap)
    (hcr : shadow_create true h X = .ok (some S, h1)) :
    S = h.objs.length ∧ h1.objs.length = h.objs.length + 1 ∧
    (∃ xo b0, h.live X = some xo ∧
      some b0 = (if xo.mo_type = .MOBJ_SHADOW then xo.bottom_mobj else some X) ∧
      b0 < h.objs.length ∧ h1.live S = some (mobj_init .MOBJ_SHADOW (some X) (some b0))) ∧
    (∀ (x : Nat) (yo : Mobj), h.objs[x]? = some yo →
      ∃ yo1, h1.objs[x]? = some yo1 ∧ yo1 = { yo with mo_refcount := yo1.mo_refcount }) ∧
    (∀ (x : Nat) (yo1 : Mobj), x < h.objs.length → h1.objs[x]? = some yo1 →
      ∃ yo, h.objs[x]? = some yo ∧ yo1 = { yo with mo_refcount := yo1.mo_refcount }) := by
  obtain ⟨xo, b0, ob, hX, hS, hb0, ltb0, _, hobf, hbX, hbnX, hobjs⟩ := shadow_create_objs h X S h1 hcr
  obtain ⟨_, _, _, _, _, _, hlS, _⟩ := shadow_create_ok h X S h1 hcr
  have lX : liveIn h.objs X = some xo := hX
  have gX := (liveIn_get lX).1
  have ltX := liveIn_lt lX
  have ltb1 : b0 < h.objs.length + 1 := by omega
  have ltX1 : X < h.objs.length + 1 := by omega
  have hfwd : ∀ (x : Nat) (yo : Mobj), h.objs[x]? = some yo →
      ∃ yo1, h1.objs[x]? = some yo1 ∧ yo1 = { yo with mo_refcount := yo1.mo_refcount } := by
    intro x yo hx
    have ltx : x < h.objs.length := (List.getElem?_eq_some.1 hx).1
    rw [hobjs]
    by_cases hxb : x = b0
    · subst hxb
      refine ⟨{ ob with mo_refcount := ob.mo_refcount + 1 }, by simp [ltb1], ?_⟩
      by_cases hxX : x = X
      · subst hxX
        rw [gX] at hx
        cases hx
        rw [hbX rfl]
      · have hl : liveIn h.objs x = some ob := hbnX hxX
        rw [(liveIn_get hl).1] at hx
        cases hx
        rfl
    · by_cases hxX : x = X
      · subst hxX
        rw [gX] at hx
        cases hx
        exact ⟨{ xo with mo_refcount := xo.mo_refcount + 1 },
          by simp [List.getElem?_set_ne (Ne.symm hxb), ltX1], rfl⟩
      · exact ⟨yo, by simp [List.getElem?_set_ne (Ne.symm hxb),
          List.getElem?_set_ne (Ne.symm hxX), List.getElem?_append_left ltx, hx], rfl⟩
  refine ⟨hS, by rw [hobjs]; simp, ⟨xo, b0, hX, hb0, ltb0, ?_⟩, hfwd, ?_⟩
  · obtain ⟨xo', b0', bo1, hX', _, hb0', hlS', _⟩ := shadow_create_ok h X S h1 hcr
    rw [hX] at hX'
    cases hX'
    rw [← hb0] at hb0'
    cases hb0'
    exact hlS'
  · intro x yo1 ltx hx1
    obtain ⟨yo, hyo⟩ : ∃ yo, h.objs[x]? = some yo :=
      ⟨h.objs[x], List.getElem?_eq_getElem ltx⟩
    obtain ⟨yo1', hy1, hy2⟩ := hfwd x yo hyo
    rw [hx1] at hy1
    cases hy1
    exact ⟨yo, hyo, hy2⟩

/-! ## The bottom invariant -/

theorem BottomInv_step {O : Nat} {h h1 : Heap} (hs : CollapseStep O h h1) (hinv : BottomInv h) :
    BottomInv h1 := by
  obtain ⟨⟨hlen, htypes, hkeep⟩, hO⟩ := hs
  intro x xo1 hx hty
  -- the object was live in `h`, with the same bottom field
  obtain ⟨xo, hxo, hbot⟩ : ∃ xo, h.live x = some xo ∧ xo1.bottom_mobj = xo.bottom_mobj := by
    by_cases hxO : x = O
    · subst hxO
      obtain ⟨o, ho, hb, _⟩ := hO xo1 hx
      exact ⟨o, ho, hb⟩
    · obtain ⟨o, ho, _, hb⟩ := hkeep x xo1 (fun e => hxO (Option.some.inj e)) hx
      exact ⟨o, ho, hb⟩
  have hty0 : xo.mo_type = .MOBJ_SHADOW := by
    obtain ⟨o, ho, ht⟩ := htypes x xo1 (live_objs hx).1
    rw [(live_objs hxo).1] at ho
    cases ho
    rw [← ht]
    exact hty
  obtain ⟨b, bo, hb, hbo, hboty⟩ := hinv x xo hxo hty0
  have ltb : b < h1.objs.length := by
    rw [hlen]
    exact (List.getElem?_eq_some.1 hbo).1
  obtain ⟨bo1, hbo1⟩ : ∃ bo1, h1.objs[b]? = some bo1 := ⟨h1.objs[b], List.getElem?_eq_getElem ltb⟩
  obtain ⟨bo', hbo', ht⟩ := htypes b bo1 hbo1
  rw [hbo] at hbo'
  cases hbo'
  exact ⟨b, bo1, by rw [hbot]; exact hb, hbo1, by rw [ht]; exact hboty⟩

theorem BottomInv_create {h h1 : Heap} {X S : Nat}
    (hcr : shadow_create true h X = .ok (some S, h1)) (hinv : BottomInv h) : BottomInv h1 := by
  obtain ⟨hS, hlen, ⟨xo, b0, hX, hb0, ltb0, hlS⟩, hfwd, hbwd⟩ := shadow_create_table h X S h1 hcr
  obtain ⟨_, _, bo1, _, _, _, _, hlb0, hb0ty, _⟩ := shadow_create_ok h X S h1 hcr
  intro x xo1 hx hty
  have hx1 := (live_objs hx).1
  have ltx1 : x < h1.objs.length := (List.getElem?_eq_some.1 hx1).1
  by_cases hxS : x = S
  · subst hxS
    rw [hlS] at hx
    cases hx
    obtain ⟨xo', b0', bo1', hX', _, hb0', _, hlb', hty', _⟩ := shadow_create_ok h X x h1 hcr
    rw [hX] at hX'
    cases hX'
    rw [← hb0] at hb0'
    cases hb0'
    exact ⟨b0, bo1', rfl, (live_objs hlb').1, hty'⟩
  · have ltx : x < h.objs.length := by omega
    obtain ⟨yo, hyo, he⟩ := hbwd x xo1 ltx hx1
    have hyl : h.live x = some yo := live_of_objs hyo (by rw [he] at hx; exact (live_objs hx).2)
    obtain ⟨b, bo, hb, hbo, hboty⟩ := hinv x yo hyl (by rw [he] at hty; exact hty)
    obtain ⟨bo1, hbo1, he1⟩ := hfwd b bo hbo
    exact ⟨b, bo1, by rw [he]; exact hb, hbo1, by rw [he1]; exact hboty⟩

/-- C12. The bottom invariant is kept. If the `bottom_mobj` field of every live
shadow object points to an object that is not a shadow object, then the same
holds in the memory a successful `shadow_create` leaves, for the old objects
and for the new one, and in the memory a `shadow_collapse` that returns
leaves; hence in every memory reached by a sequence of such operations. -/
theorem bottom_invariant_kept (h : Heap) (hinv : BottomInv h) :
    (∀ X S h1, shadow_create true h X = .ok (some S, h1) → BottomInv h1) ∧
    (∀ fuel O h1, shadow_collapse fuel h O = .ok h1 → BottomInv h1) ∧
    (∀ h1, Relation.ReflTransGen CreateOrCollapse h h1 → BottomInv h1) := by
  have hcollapse : ∀ (h0 : Heap) (fuel O : Nat) (h1 : Heap), BottomInv h0 →
      shadow_collapse fuel h0 O = .ok h1 → BottomInv h1 := by
    intro h0 fuel O h1 hi hc
    have hsteps := shadow_collapse_steps fuel h0 O h1 hc
    clear hc
    induction hsteps with
    | refl => exact hi
    | tail _ hs ih => exact BottomInv_step hs ih
  refine ⟨fun X S h1 hcr => BottomInv_create hcr hinv,
    fun fuel O h1 hc => hcollapse h fuel O h1 hinv hc, fun h1 hseq => ?_⟩
  induction hseq with
  | refl => exact hinv
  | tail _ hs ih =>
    rcases hs with ⟨X, S, hcr⟩ | ⟨fuel, O, hc⟩
    · exact BottomInv_create hcr ih
    · exact hcollapse _ fuel O _ ih hc

theorem BottomInv_absorbHeap : BottomInv absorbHeap := by
  intro x xo hx hty
  match x with
  | 0 => cases hx; exact absurd hty (by decide)
  | 1 => cases hx; exact ⟨0, _, rfl, rfl, by decide⟩
  | 2 => cases hx; exact ⟨0, _, rfl, rfl, by decide⟩
  | n + 3 => cases hx

/-- Witness of `bottom_invariant_kept`, at `absorbHeap`: the invariant holds
after the creation of a shadow object over `A`, and after the collapse of `A`. -/
theorem bottom_invariant_kept_witness : BottomInv createdHeap ∧ BottomInv absorbedHeap :=
  ⟨(bottom_invariant_kept absorbHeap BottomInv_absorbHeap).1 2 3 createdHeap rfl,
   (bottom_invariant_kept absorbHeap BottomInv_absorbHeap).2.1 3 2 absorbedHeap rfl⟩

/-! ## No self-reference -/

theorem Reach_trans {h : Heap} {x y z : Nat} (hxy : Reach h x y) (hyz : Reach h y z) :
    Reach h x z := by
  induction hyz with
  | step hl hty hs => exact Reach.tail hxy hl hty hs
  | tail _ hl hty hs ih => exact Reach.tail ih hl hty hs

theorem Reach_head {h : Heap} {x y : Nat} (hxy : Reach h x y) :
    ∃ xo x1, h.live x = some xo ∧ xo.mo_type = .MOBJ_SHADOW ∧ xo.shadowed = some x1 ∧
      (x1 = y ∨ Reach h x1 y) := by
  induction hxy with
  | step hl hty hs => exact ⟨_, _, hl, hty, hs, Or.inl rfl⟩
  | tail _ hl hty hs ih =>
    obtain ⟨xo, x1, h1, h2, h3, h4⟩ := ih
    refine ⟨xo, x1, h1, h2, h3, Or.inr ?_⟩
    rcases h4 with e | r
    · subst e
      exact Reach.step hl hty hs
    · exact Reach.tail r hl hty hs

theorem NoSelf_of_NoCycle {h : Heap} (hnc : NoCycle h) : NoSelf h :=
  fun x _ hl hty hs => hnc x (Reach.step hl hty hs)

/-- A `shadowed` pointer of the memory after one step of `shadow_collapse` is
a path of the memory before it, and its target was the target of a pointer
there. -/
theorem edge_back {O : Nat} {h h1 : Heap} (hs : CollapseStep O h h1) {x y : Nat} {xo1 : Mobj}
    (hx : h1.live x = some xo1) (hty : xo1.mo_type = .MOBJ_SHADOW)
    (hsh : xo1.shadowed = some y) :
    Reach h x y ∧ ∃ w wo, h.live w = some wo ∧ wo.mo_type = .MOBJ_SHADOW ∧
      wo.shadowed = some y := by
  obtain ⟨⟨_, htypes, hkeep⟩, hO⟩ := hs
  have hty0 : ∀ xo, h.live x = some xo → xo.mo_type = .MOBJ_SHADOW := by
    intro xo hxo
    obtain ⟨o, ho, ht⟩ := htypes x xo1 (live_objs hx).1
    rw [(live_objs hxo).1] at ho
    cases ho
    rw [← ht]
    exact hty
  by_cases hxO : x = O
  · subst hxO
    obtain ⟨o, ho, _, hcase⟩ := hO xo1 hx
    rcases hcase with e | ⟨m, mo, hom, hm, hmty, e⟩
    · have hoy : o.shadowed = some y := by rw [← e]; exact hsh
      exact ⟨Reach.step ho (hty0 o ho) hoy, x, o, ho, hty0 o ho, hoy⟩
    · have hmy : mo.shadowed = some y := by rw [← e]; exact hsh
      exact ⟨Reach.tail (Reach.step ho (hty0 o ho) hom) hm hmty hmy, m, mo, hm, hmty, hmy⟩
  · obtain ⟨o, ho, e, _⟩ := hkeep x xo1 (fun e => hxO (Option.some.inj e)) hx
    have hoy : o.shadowed = some y := by rw [← e]; exact hsh
    exact ⟨Reach.step ho (hty0 o ho) hoy, x, o, ho, hty0 o ho, hoy⟩

theorem Reach_back {O : Nat} {h h1 : Heap} (hs : CollapseStep O h h1) {x y : Nat}
    (hr : Reach h1 x y) : Reach h x y := by
  induction hr with
  | step hl hty hsh => exact (edge_back hs hl hty hsh).1
  | tail _ hl hty hsh ih => exact Reach_trans ih (edge_back hs hl hty hsh).1

theorem NoCycle_step {O : Nat} {h h1 : Heap} (hs : CollapseStep O h h1) (hnc : NoCycle h) :
    NoCycle h1 :=
  fun x hr => hnc x (Reach_back hs hr)

theorem Closed_step {O : Nat} {h h1 : Heap} (hs : CollapseStep O h h1) (hcl : Closed h) :
    Closed h1 := by
  intro x xo1 y hx hty hsh
  obtain ⟨_, w, wo, hw, hwty, hwy⟩ := edge_back hs hx hty hsh
  rw [hs.1.1]
  exact hcl w wo y hw hwty hwy

theorem collapse_keeps_acyclic {h h1 : Heap} {fuel O : Nat}
    (hc : shadow_collapse fuel h O = .ok h1) :
    (NoCycle h → NoCycle h1) ∧ (Closed h → Closed h1) := by
  have hsteps := shadow_collapse_steps fuel h O h1 hc
  clear hc
  induction hsteps with
  | refl => exact ⟨id, id⟩
  | tail _ hs ih => exact ⟨fun a => NoCycle_step hs (ih.1 a), fun a => Closed_step hs (ih.2 a)⟩

/-- A `shadowed` pointer of the memory after a successful `shadow_create` is
the pointer of the new object to `X`, or a pointer of the memory before. -/
theorem create_edge {h h1 : Heap} {X S : Nat}
    (hcr : shadow_create true h X = .ok (some S, h1)) {x y : Nat} {xo1 : Mobj}
    (hx : h1.live x = some xo1) (hty : xo1.mo_type = .MOBJ_SHADOW)
    (hsh : xo1.shadowed = some y) :
    (x = S ∧ y = X ∧ X < h.objs.length) ∨
    (x < h.objs.length ∧ ∃ xo, h.live x = some xo ∧ xo.mo_type = .MOBJ_SHADOW ∧
      xo.shadowed = some y) := by
  obtain ⟨hS, hlen, ⟨xo, b0, hX, _, _, hlS⟩, _, hbwd⟩ := shadow_create_table h X S h1 hcr
  have hx1 := (live_objs hx).1
  have ltx1 : x < h1.objs.length := (List.getElem?_eq_some.1 hx1).1
  by_cases hxS : x = S
  · subst hxS
    rw [hlS] at hx
    cases hx
    have hX1 : liveIn h.objs X = some xo := hX
    exact Or.inl ⟨rfl, (Option.some.inj hsh).symm, liveIn_lt hX1⟩
  · have ltx : x < h.objs.length := by omega
    obtain ⟨yo, hyo, he⟩ := hbwd x xo1 ltx hx1
    have hyl : h.live x = some yo := live_of_objs hyo (by rw [he] at hx; exact (live_objs hx).2)
    exact Or.inr ⟨ltx, yo, hyl, by rw [he] at hty; exact hty, by rw [he] at hsh; exact hsh⟩

theorem Reach_create_old {h h1 : Heap} {X S : Nat}
    (hcr : shadow_create true h X = .ok (some S, h1)) (hcl : Closed h) {x y : Nat}
    (hr : Reach h1 x y) (hxS : x ≠ S) : Reach h x y ∧ y < h.objs.length := by
  have hS := (shadow_create_table h X S h1 hcr).1
  induction hr with
  | step hl hty hsh =>
    rcases create_edge hcr hl hty hsh with ⟨e, _, _⟩ | ⟨_, xo, hxo, hxty, hxsh⟩
    · exact absurd e hxS
    · exact ⟨Reach.step hxo hxty hxsh, hcl _ xo _ hxo hxty hxsh⟩
  | tail _ hl hty hsh ih =>
    obtain ⟨r, lty⟩ := ih
    rcases create_edge hcr hl hty hsh with ⟨e, _, _⟩ | ⟨_, yo, hyo, hyty, hysh⟩
    · omega
    · exact ⟨Reach.tail r hyo hyty hysh, hcl _ yo _ hyo hyty hysh⟩

theorem NoCycle_create {h h1 : Heap} {X S : Nat}
    (hcr : shadow_create true h X = .ok (some S, h1)) (hcl : Closed h) (hnc : NoCycle h) :
    NoCycle h1 := by
  have hS := (shadow_create_table h X S h1 hcr).1
  intro x hr
  by_cases hxS : x = S
  · subst hxS
    obtain ⟨xo, x1, hl, hty, hsh, hrest⟩ := Reach_head hr
    rcases create_edge hcr hl hty hsh with ⟨_, e, ltX⟩ | ⟨ltx, _⟩
    · subst e
      rcases hrest with e | r
      · omega
      · have := (Reach_create_old hcr hcl r (by omega)).2
        omega
    · omega
  · exact hnc x (Reach_create_old hcr hcl hr hxS).1

theorem Closed_create {h h1 : Heap} {X S : Nat}
    (hcr : shadow_create true h X = .ok (some S, h1)) (hcl : Closed h) : Closed h1 := by
  have hlen := (shadow_create_table h X S h1 hcr).2.1
  intro x xo1 y hx hty hsh
  rcases create_edge hcr hx hty hsh with ⟨_, e, ltX⟩ | ⟨_, xo, hxo, hxty, hxsh⟩
  · omega
  · have := hcl x xo y hxo hxty hxsh
    omega

/-- C16. No self-reference. If no shadow object lies on a cycle of `shadowed`
pointers, then after a successful `shadow_create`, and after a
`shadow_collapse` that returns, no live shadow object has its `shadowed` field
equal to itself, which is the condition `shadow_get_pframe` asserts; after a
collapse there is still no cycle. When moreover no `shadowed` pointer leaves
the object table, the same holds after every sequence of such operations. -/
theorem no_self_reference (h : Heap) (hnc : NoCycle h) :
    (∀ X S h1, shadow_create true h X = .ok (some S, h1) → NoSelf h1) ∧
    (∀ fuel O h1, shadow_collapse fuel h O = .ok h1 → NoSelf h1 ∧ NoCycle h1) ∧
    (Closed h → ∀ h1, Relation.ReflTransGen CreateOrCollapse h h1 →
      NoSelf h1 ∧ NoCycle h1) := by
  refine ⟨?_, ?_, ?_⟩
  · intro X S h1 hcr x xo1 hx hty hsh
    have hS := (shadow_create_table h X S h1 hcr).1
    rcases create_edge hcr hx hty hsh with ⟨_, e, ltX⟩ | ⟨_, xo, hxo, hxty, hxsh⟩
    · omega
    · exact NoSelf_of_NoCycle hnc x xo hxo hxty hxsh
  · intro fuel O h1 hc
    have k := (collapse_keeps_acyclic hc).1 hnc
    exact ⟨NoSelf_of_NoCycle k, k⟩
  · intro hcl h1 hseq
    have key : NoCycle h1 ∧ Closed h1 := by
      induction hseq with
      | refl => exact ⟨hnc, hcl⟩
      | tail _ hs ih =>
        rcases hs with ⟨X, S, hcr⟩ | ⟨fuel, O, hc⟩
        · exact ⟨NoCycle_create hcr ih.2 ih.1, Closed_create hcr ih.2⟩
        · exact ⟨(collapse_keeps_acyclic hc).1 ih.1, (collapse_keeps_acyclic hc).2 ih.2⟩
    exact ⟨NoSelf_of_NoCycle key.1, key.1⟩

theorem Reach_absorbHeap_lt {x y : Nat} (hr : Reach absorbHeap x y) : y < x := by
  have edge : ∀ (x y : Nat) (xo : Mobj), absorbHeap.live x = some xo →
      xo.mo_type = .MOBJ_SHADOW → xo.shadowed = some y → y < x := by
    intro x y xo hl hty hsh
    match x with
    | 0 => cases hl; exact absurd hty (by decide)
    | 1 => cases hl; cases hsh; decide
    | 2 => cases hl; cases hsh; decide
    | n + 3 => cases hl
  induction hr with
  | step hl hty hsh => exact edge _ _ _ hl hty hsh
  | tail _ hl hty hsh ih => exact lt_trans (edge _ _ _ hl hty hsh) ih

theorem NoCycle_absorbHeap : NoCycle absorbHeap :=
  fun _ hr => lt_irrefl _ (Reach_absorbHeap_lt hr)

/-- Witness of `no_self_reference`, at `absorbHeap`: no shadow object shadows
itself after the creation of a shadow object over `A`, nor after the collapse
of `A`. -/
theorem no_self_reference_witness : NoSelf createdHeap ∧ NoSelf absorbedHeap :=
  ⟨(no_self_reference absorbHeap NoCycle_absorbHeap).1 2 3 createdHeap rfl,
   ((no_self_reference absorbHeap NoCycle_absorbHeap).2.1 3 2 absorbedHeap rfl).1⟩

end Shadow
